import Mathlib

/-!
Shallow embedding of the obsidian-to-wp plugin core
(`src/frontmatter.ts`, `src/markdown-converter.ts`, `src/publisher.ts`),
with verification of the spec's testable properties.

Strings are modelled as `List Char` (`Str`); the JavaScript string
operations used by the source (`trim`, `split`, `match` against the
concrete regexes appearing in the source, `replace`) are modelled
character-exactly below.
-/

/-- JavaScript strings, modelled as lists of characters. -/
abbrev Str := List Char

/-- Shorthand: character data of a Lean string literal. -/
def S (s : String) : Str := s.data

/-- The single-quote character (U+0027). -/
def squote : Char := Char.ofNat 39

/-- The backtick character (U+0060). -/
def btick : Char := Char.ofNat 96

/-- JavaScript `\s` character class (whitespace, as used by `trim` and by `\s` in regexes). -/
def isSpaceJS (c : Char) : Bool :=
  c.toNat = 32 ∨ c.toNat = 9 ∨ c.toNat = 10 ∨ c.toNat = 11 ∨ c.toNat = 12 ∨ c.toNat = 13 ∨
  c.toNat = 160 ∨ c.toNat = 5760 ∨ (8192 ≤ c.toNat ∧ c.toNat ≤ 8202) ∨
  c.toNat = 8232 ∨ c.toNat = 8233 ∨ c.toNat = 8239 ∨ c.toNat = 8287 ∨
  c.toNat = 12288 ∨ c.toNat = 65279

/-- JavaScript line terminators: the characters `.` does not match (no `s` flag). -/
def isLineTerm (c : Char) : Bool :=
  c.toNat = 10 ∨ c.toNat = 13 ∨ c.toNat = 8232 ∨ c.toNat = 8233

/-- JavaScript `\w` character class. -/
def isWordChar (c : Char) : Bool :=
  ('a' ≤ c ∧ c ≤ 'z') ∨ ('A' ≤ c ∧ c ≤ 'Z') ∨ ('0' ≤ c ∧ c ≤ '9') ∨ c = '_'

/-- ASCII letter, the class `[a-zA-Z]` used by the italic lookarounds. -/
def isAsciiLetter (c : Char) : Bool :=
  ('a' ≤ c ∧ c ≤ 'z') ∨ ('A' ≤ c ∧ c ≤ 'Z')

/-- ASCII digit, the class `[0-9]` / `\d`. -/
def isDigitC (c : Char) : Bool := '0' ≤ c ∧ c ≤ '9'

/-- JavaScript `String.prototype.trim`. -/
def trimJS (s : Str) : Str :=
  ((s.dropWhile isSpaceJS).reverse.dropWhile isSpaceJS).reverse

/-- A string contains no line terminator. -/
def linetermFree (s : Str) : Bool := s.all (fun c => ¬ isLineTerm c)

/-- JavaScript `s.split(sep)` for a one-character separator. -/
def splitOnChar (sep : Char) : Str → List Str
  | [] => [[]]
  | c :: rest =>
    let r := splitOnChar sep rest
    if c = sep then [] :: r
    else
      match r with
      | h :: t => (c :: h) :: t
      | [] => [[c]]

/-- `lines.join(sep)` for a one-character separator. -/
def joinChar (sep : Char) : List Str → Str
  | [] => []
  | [l] => l
  | l :: rest => l ++ sep :: joinChar sep rest

/-- `parts.join(sep)` for a string separator. -/
def joinStr (sep : Str) : List Str → Str
  | [] => []
  | [l] => l
  | l :: rest => l ++ sep ++ joinStr sep rest

/-- Split at the first occurrence of `pat` inside `s`: returns the part
before and the part after the occurrence (regex `[\s\S]*?` + literal). -/
def splitFirstInfix (pat : Str) : Str → Option (Str × Str)
  | [] => if pat = [] then some ([], []) else none
  | c :: rest =>
    if pat.isPrefixOf (c :: rest) then some ([], (c :: rest).drop pat.length)
    else (splitFirstInfix pat rest).map (fun p => (c :: p.1, p.2))

/-- Does `pat` occur as a contiguous substring of `s`? -/
def containsStr (pat s : Str) : Bool := (splitFirstInfix pat s).isSome

/-- JavaScript `value.replace(/^["']|["']$/g, "")`: removes a leading and a
trailing quote character (double or single), each when present. -/
def stripOuterQuotes (l : Str) : Str :=
  let l1 : Str :=
    match l with
    | c :: r => if c = '"' ∨ c = squote then r else l
    | [] => []
  match l1.getLast? with
  | some c => if c = '"' ∨ c = squote then l1.dropLast else l1
  | none => []

/-- Value of a non-empty digit prefix; `none` when there is no leading digit. -/
def digitsVal (s : Str) : Option Nat :=
  let d := s.takeWhile isDigitC
  if d = [] then none
  else some (d.foldl (fun a c => a * 10 + (c.toNat - '0'.toNat)) 0)

/-- JavaScript `parseInt(s, 10)` (exact integer semantics). -/
def parseIntJS (s : Str) : Option Int :=
  let t := s.dropWhile isSpaceJS
  match t with
  | '-' :: r => (digitsVal r).map (fun n => -(n : Int))
  | '+' :: r => (digitsVal r).map (fun n => (n : Int))
  | r => (digitsVal r).map (fun n => (n : Int))

/-- Helper for `natDigits`: accumulate decimal digits. The first argument
is fuel bounding the number of digits; `natDigits` passes enough. -/
def natDigitsGo : Nat → Nat → Str → Str
  | 0, n, acc => Char.ofNat ('0'.toNat + n) :: acc
  | fuel + 1, n, acc =>
    if n < 10 then Char.ofNat ('0'.toNat + n) :: acc
    else natDigitsGo fuel (n / 10) (Char.ofNat ('0'.toNat + n % 10) :: acc)

/-- Decimal digits of a natural number (JavaScript number-to-string). -/
def natDigits (n : Nat) : Str := natDigitsGo n n []

/-- JavaScript template-literal rendering `${i}` of an integer. -/
def intToStr (i : Int) : Str :=
  if i < 0 then '-' :: natDigits i.natAbs else natDigits i.natAbs

/-- `s.toLowerCase()` (ASCII; keys are matched by `\w+` so this is exact). -/
def toLowerStr (s : Str) : Str := s.map Char.toLower

/-- Expansion of `$`-patterns in a JavaScript `replace` replacement string.
The regex used with a string replacement in the source has no capture groups
and matches at offset 0, so a dollar-backtick expands to the empty prefix and
`$n` stays literal. -/
def expandDollar (matched suffix : Str) : Str → Str
  | [] => []
  | [c] => [c]
  | c :: c2 :: r2 =>
    if c = '$' then
      if c2 = '$' then '$' :: expandDollar matched suffix r2
      else if c2 = '&' then matched ++ expandDollar matched suffix r2
      else if c2 = btick then expandDollar matched suffix r2
      else if c2 = squote then suffix ++ expandDollar matched suffix r2
      else c :: expandDollar matched suffix (c2 :: r2)
    else c :: expandDollar matched suffix (c2 :: r2)

/-! ## Frontmatter codec (`src/frontmatter.ts`) -/

/-- WordPress post status (`PostStatus` in `types.ts`). -/
inductive PostStatus where
  | draft
  | publish
  | priv
  | future
deriving DecidableEq

/-- The literal string of a status value (`priv` renders as the source's `private`). -/
def statusStr : PostStatus → Str
  | .draft => S "draft"
  | .publish => S "publish"
  | .priv => S "private"
  | .future => S "future"

/-- `VALID_STATUSES.includes(value)` followed by the cast. -/
def statusOfStr (s : Str) : Option PostStatus :=
  if s = S "draft" then some .draft
  else if s = S "publish" then some .publish
  else if s = S "private" then some .priv
  else if s = S "future" then some .future
  else none

/-- `PostFrontmatter` (`types.ts`): all fields optional. -/
structure PostFrontmatter where
  title : Option Str := none
  slug : Option Str := none
  status : Option PostStatus := none
  categories : Option (List Str) := none
  tags : Option (List Str) := none
  excerpt : Option Str := none
  date : Option Str := none
  wp_post_id : Option Int := none
  wp_post_url : Option Str := none
deriving DecidableEq

/-- `setSingleValue` from `frontmatter.ts`. -/
def setSingleValue (r : PostFrontmatter) (key value : Str) : PostFrontmatter :=
  if key = S "title" then { r with title := some value }
  else if key = S "slug" then { r with slug := some value }
  else if key = S "status" then
    match statusOfStr value with
    | some st => { r with status := some st }
    | none => r
  else if key = S "excerpt" then { r with excerpt := some value }
  else if key = S "date" then { r with date := some value }
  else if key = S "wp_post_id" then
    match parseIntJS value with
    | some i => { r with wp_post_id := some i }
    | none => r
  else if key = S "categories" then { r with categories := some [value] }
  else if key = S "tags" then { r with tags := some [value] }
  else r

/-- `setArrayValue` from `frontmatter.ts`. -/
def setArrayValue (r : PostFrontmatter) (key : Str) (values : List Str) : PostFrontmatter :=
  if key = S "categories" then { r with categories := some values }
  else if key = S "tags" then { r with tags := some values }
  else r

/-- Match of `/^(\w+):\s*(.*)$/` against a line: key and raw value.
`\w+` and `\s*` are greedy and `.` excludes line terminators, so the match
succeeds exactly when the residue after the maximal space run is free of
line terminators. -/
def kvMatch (l : Str) : Option (Str × Str) :=
  let w := l.takeWhile isWordChar
  if w = [] then none
  else
    match l.drop w.length with
    | ':' :: rest =>
      let sp := rest.takeWhile isSpaceJS
      let v := rest.drop sp.length
      if linetermFree v then some (w, v) else none
    | _ => none

/-- Match of `/^\s+-\s+/` against a line: the residue after the matched
prefix (used by both the test and the `replace`). -/
def itemMatch (l : Str) : Option Str :=
  let sp1 := l.takeWhile isSpaceJS
  if sp1 = [] then none
  else
    match l.drop sp1.length with
    | '-' :: rest =>
      let sp2 := rest.takeWhile isSpaceJS
      if sp2 = [] then none else some (rest.drop sp2.length)
    | _ => none

/-- Match of `/^\[(.*)\]$/` against a value: the bracket content. -/
def inlineArrayMid (value : Str) : Option Str :=
  match value with
  | '[' :: r =>
    match r.getLast? with
    | some c => if c = ']' ∧ linetermFree r.dropLast then some r.dropLast else none
    | none => none
  | _ => none

/-- Items of an inline array `[a, b]`: split on commas, trim, strip quotes,
drop empties. -/
def parseInlineItems (mid : Str) : List Str :=
  ((splitOnChar ',' mid).map (fun i => stripOuterQuotes (trimJS i))).filter (fun i => i ≠ [])

/-- Loop state of `parseFrontmatter`. -/
structure ParseState where
  result : PostFrontmatter
  currentKey : Str
  inArray : Bool
  arrayValues : List Str
deriving DecidableEq

/-- One iteration of the `parseFrontmatter` line loop. -/
def parseLine (st : ParseState) (line : Str) : ParseState :=
  if trimJS line = [] then st
  else
    match itemMatch line with
    | some raw =>
      if st.inArray ∧ st.currentKey ≠ [] then
        { st with arrayValues := st.arrayValues ++ [stripOuterQuotes (trimJS raw)] }
      else st
    | none =>
      let st :=
        if st.inArray ∧ st.currentKey ≠ [] ∧ st.arrayValues ≠ [] then
          { st with result := setArrayValue st.result st.currentKey st.arrayValues,
                    arrayValues := [], inArray := false }
        else st
      match kvMatch line with
      | none => st
      | some (k, v) =>
        let key := toLowerStr k
        let value := trimJS v
        let st := { st with currentKey := key }
        if value = [] ∨ value = S "[]" then
          { st with inArray := true, arrayValues := [] }
        else
          match inlineArrayMid value with
          | some mid => { st with result := setArrayValue st.result key (parseInlineItems mid) }
          | none => { st with result := setSingleValue st.result key (stripOuterQuotes value) }

/-- Match of the anchored frontmatter regex `^---\n([\s\S]*?)\n---` : the
captured group (the YAML text) and the text after the match. -/
def fmSplit (content : Str) : Option (Str × Str) :=
  match content with
  | '-' :: '-' :: '-' :: '\n' :: rest => splitFirstInfix (S "\n---") rest
  | _ => none

/-- Initial loop state. -/
def initPS : ParseState := ⟨{}, [], false, []⟩

/-- The trailing "don't forget the last array" step of `parseFrontmatter`. -/
def finishPS (st : ParseState) : PostFrontmatter :=
  if st.inArray ∧ st.currentKey ≠ [] ∧ st.arrayValues ≠ [] then
    setArrayValue st.result st.currentKey st.arrayValues
  else st.result

/-- `parseFrontmatter` from `frontmatter.ts`. -/
def parseFrontmatter (content : Str) : PostFrontmatter :=
  match fmSplit content with
  | none => {}
  | some (yaml, _) => finishPS ((splitOnChar '\n' yaml).foldl parseLine initPS)

/-- `escapeYamlString` from `frontmatter.ts`. -/
def escapeYamlString (s : Str) : Str :=
  s.flatMap (fun c => if c = '"' then ['\\', '"'] else [c])

/-- The lines pushed by `generateYaml`, in source order. -/
def generateYamlLines (fm : PostFrontmatter) : List Str :=
  (match fm.title with
   | some t => [S "title: \"" ++ escapeYamlString t ++ S "\""]
   | none => []) ++
  (match fm.slug with
   | some s => [S "slug: " ++ s]
   | none => []) ++
  (match fm.status with
   | some st => [S "status: " ++ statusStr st]
   | none => []) ++
  (match fm.excerpt with
   | some e => [S "excerpt: \"" ++ escapeYamlString e ++ S "\""]
   | none => []) ++
  (match fm.date with
   | some d => [S "date: " ++ d]
   | none => []) ++
  (match fm.wp_post_id with
   | some i => [S "wp_post_id: " ++ intToStr i]
   | none => []) ++
  (match fm.categories with
   | some cs => if cs ≠ [] then S "categories:" :: cs.map (fun c => S "  - " ++ c) else []
   | none => []) ++
  (match fm.tags with
   | some ts => if ts ≠ [] then S "tags:" :: ts.map (fun t => S "  - " ++ t) else []
   | none => [])

/-- `generateYaml` from `frontmatter.ts` (`lines.join("\n") + "\n"` when non-empty). -/
def generateYaml (fm : PostFrontmatter) : Str :=
  let lines := generateYamlLines fm
  if lines = [] then [] else joinChar '\n' lines ++ ['\n']

/-- The spread merge `{ ...existing, ...updates }`: fields present in
`updates` win. -/
def mergeFM (e u : PostFrontmatter) : PostFrontmatter :=
  { title := u.title <|> e.title
    slug := u.slug <|> e.slug
    status := u.status <|> e.status
    categories := u.categories <|> e.categories
    tags := u.tags <|> e.tags
    excerpt := u.excerpt <|> e.excerpt
    date := u.date <|> e.date
    wp_post_id := u.wp_post_id <|> e.wp_post_id
    wp_post_url := u.wp_post_url <|> e.wp_post_url }

/-- `updateFrontmatter` from `frontmatter.ts`. In the replace branch the
replacement string goes through JavaScript `$`-pattern expansion. -/
def updateFrontmatter (content : Str) (updates : PostFrontmatter) : Str :=
  match fmSplit content with
  | none => S "---\n" ++ generateYaml updates ++ S "---\n\n" ++ content
  | some (yaml0, tail) =>
    let existing := parseFrontmatter content
    let merged := mergeFM existing updates
    let repl := S "---\n" ++ generateYaml merged ++ S "---"
    expandDollar (S "---\n" ++ yaml0 ++ S "\n---") tail repl ++ tail

/-- `filename.replace(/\.md$/, "")`. -/
def stripMdSuffix (f : Str) : Str :=
  if (S ".md").isSuffixOf f then f.take (f.length - 3) else f

/-- `getTitle` from `frontmatter.ts` (`frontmatter.title` is tested for
truthiness, so the empty string also falls back to the filename). -/
def getTitle (fm : PostFrontmatter) (filename : Str) : Str :=
  match fm.title with
  | some t => if t ≠ [] then t else stripMdSuffix filename
  | none => stripMdSuffix filename

/-! ## Markdown converter (`src/markdown-converter.ts`) -/

/-- `line.startsWith("` ``` `")`. -/
def codeFenceTest (l : Str) : Bool := (S "```").isPrefixOf l

/-- Test of `^>\s*\[!` . -/
def calloutHeaderTest (l : Str) : Bool :=
  match l with
  | '>' :: r => (S "[!").isPrefixOf (r.drop (r.takeWhile isSpaceJS).length)
  | _ => false

/-- Test of `^#{1,6}\s` . -/
def headerLineTest (l : Str) : Bool :=
  let h := l.takeWhile (fun c => c = '#')
  (decide (1 ≤ h.length ∧ h.length ≤ 6)) &&
  (match (l.drop h.length).head? with
   | some c => isSpaceJS c
   | none => false)

/-- Test of the horizontal-rule regex (three or more of one marker,
spanning the whole string). -/
def hrLineTest (l : Str) : Bool :=
  3 ≤ l.length ∧
  (l.all (fun c => c = '-') ∨ l.all (fun c => c = '*') ∨ l.all (fun c => c = '_'))

/-- Test of the list-item regex: optional indentation, then a bullet or a
numeral-dot, then one whitespace character. -/
def listLineTest (l : Str) : Bool :=
  let r := l.dropWhile isSpaceJS
  match r with
  | c :: c2 :: _ =>
    if c = '-' ∨ c = '*' ∨ c = '+' then isSpaceJS c2
    else
      (let d := r.takeWhile isDigitC
       if d = [] then false
       else
         match r.drop d.length with
         | '.' :: c3 :: _ => isSpaceJS c3
         | _ => false)
  | _ => false

/-- `line.startsWith(">")`. -/
def quoteStartTest (l : Str) : Bool :=
  match l with
  | '>' :: _ => true
  | _ => false

/-- Test of the anchored standalone standard-image regex over a whole line:
starts with the image opener, contains a bracket-paren separator with a
terminator-free segment before it, and ends with a closing parenthesis. -/
def stdImageLineTest (l : Str) : Bool :=
  match l with
  | '!' :: '[' :: r =>
    match splitFirstInfix (S "](") r with
    | some (a, b) =>
      linetermFree a &&
      (match b.getLast? with
       | some c => decide (c = ')') && linetermFree b.dropLast
       | none => false)
    | none => false
  | _ => false

/-- Test of the anchored standalone wikilink-image regex over a whole line. -/
def wikiImageLineTest (l : Str) : Bool :=
  match l with
  | '!' :: '[' :: '[' :: r =>
    2 ≤ r.length ∧ r.drop (r.length - 2) = S "]]" ∧ linetermFree (r.take (r.length - 2))
  | _ => false

/-- Loop state of `splitIntoBlocks`. Blocks are kept as their line lists;
they are joined with newlines when pushed, which is reproduced by the final
`map (joinChar '\n')` in `splitIntoBlocks`. -/
structure SegSt where
  blocks : List (List Str)
  current : List Str
  inCode : Bool
  inCallout : Bool
deriving DecidableEq

/-- Flush the current block if non-empty. -/
def segFlush (st : SegSt) : SegSt :=
  if st.current ≠ [] then { st with blocks := st.blocks ++ [st.current], current := [] }
  else st

/-- The rules of the `splitIntoBlocks` loop below the callout handling
(headers, rules, lists, blockquotes, standalone images, blank, paragraph). -/
def segRest (st : SegSt) (line : Str) : SegSt :=
  if headerLineTest line then
    let st1 := segFlush st
    { st1 with blocks := st1.blocks ++ [[line]] }
  else if hrLineTest line then
    let st1 := segFlush st
    { st1 with blocks := st1.blocks ++ [[line]] }
  else if listLineTest line then
    let st1 := if st.current ≠ [] ∧ ¬ listLineTest (st.current.headD []) then segFlush st else st
    { st1 with current := st1.current ++ [line] }
  else if quoteStartTest line ∧ ¬ calloutHeaderTest line then
    let st1 := if st.current ≠ [] ∧ ¬ quoteStartTest (st.current.headD []) then segFlush st else st
    { st1 with current := st1.current ++ [line] }
  else if stdImageLineTest line ∨ wikiImageLineTest line then
    let st1 := segFlush st
    { st1 with blocks := st1.blocks ++ [[line]] }
  else if trimJS line = [] then segFlush st
  else { st with current := st.current ++ [line] }

/-- One iteration of the `splitIntoBlocks` loop (code fences, callout
headers and continuation, then the remaining rules; a line that closes a
callout falls through to the remaining rules). -/
def segLine (st : SegSt) (line : Str) : SegSt :=
  if codeFenceTest line then
    if st.inCode then
      { st with blocks := st.blocks ++ [st.current ++ [line]], current := [], inCode := false }
    else
      let st1 := segFlush st
      { st1 with current := [line], inCode := true }
  else if st.inCode then
    { st with current := st.current ++ [line] }
  else if calloutHeaderTest line then
    let st1 := segFlush st
    { st1 with current := [line], inCallout := true }
  else if st.inCallout then
    if quoteStartTest line ∨ trimJS line = [] then
      { st with current := st.current ++ [line] }
    else
      let st1 := segFlush st
      segRest { st1 with inCallout := false } line
  else segRest st line

/-- `splitIntoBlocks` from `markdown-converter.ts`. -/
def splitIntoBlocks (content : Str) : List Str :=
  let final := (splitOnChar '\n' content).foldl segLine ⟨[], [], false, false⟩
  (((segFlush final).blocks).map (joinChar '\n')).filter (fun b => trimJS b ≠ [])

/-- `CalloutInfo` (`types.ts`). -/
structure CalloutInfo where
  type : Str
  title : Str
  content : Str
  foldable : Bool
  defaultFolded : Bool
deriving DecidableEq

/-- Match of the callout header regex `^>\s*\[!(\w+)\]([-+])?\s*(.*)$`
against the first line: kind, fold marker, raw title. -/
def calloutHeaderMatch (l : Str) : Option (Str × Option Char × Str) :=
  match l with
  | '>' :: r =>
    match r.drop (r.takeWhile isSpaceJS).length with
    | '[' :: '!' :: r2 =>
      let w := r2.takeWhile isWordChar
      if w = [] then none
      else
        match r2.drop w.length with
        | ']' :: r3 =>
          let fr : Option Char × Str :=
            match r3 with
            | '-' :: r4 => (some '-', r4)
            | '+' :: r4 => (some '+', r4)
            | _ => (none, r3)
          let rest := fr.2.drop (fr.2.takeWhile isSpaceJS).length
          if linetermFree rest then some (w, fr.1, rest) else none
        | _ => none
    | _ => none
  | _ => none

/-- `line.replace(/^>\s?/, "")`. -/
def stripQuotePfx (l : Str) : Str :=
  match l with
  | '>' :: c :: r => if isSpaceJS c then r else c :: r
  | ['>'] => []
  | l => l

/-- `type.charAt(0).toUpperCase() + type.slice(1)`. -/
def capitalizeFirst (s : Str) : Str :=
  match s with
  | c :: r => c.toUpper :: r
  | [] => []

/-- `parseCallout` from `markdown-converter.ts`. -/
def parseCallout (block : Str) : CalloutInfo :=
  let lines := splitOnChar '\n' block
  let content := trimJS (joinChar '\n' ((lines.drop 1).map stripQuotePfx))
  match calloutHeaderMatch (lines.headD []) with
  | some (w, fold, rawTitle) =>
    { type := w
      title := if rawTitle ≠ [] then rawTitle else capitalizeFirst w
      content := content
      foldable := fold.isSome
      defaultFolded := fold = some '-' }
  | none =>
    { type := S "note", title := [], content := content,
      foldable := false, defaultFolded := false }

/-- `UploadedImage` (`types.ts`). -/
structure UploadedImage where
  localPath : Str
  wordpressUrl : Str
  mediaId : Int
deriving DecidableEq

/-- The converter's image map (`Map<string, UploadedImage>`), as an
association list keyed by local path. -/
abbrev ImageMap := List (Str × UploadedImage)

/-- `imageMap.get(path)`. -/
def imgLookup (m : ImageMap) (k : Str) : Option UploadedImage :=
  (m.find? (fun e => e.1 = k)).map (fun e => e.2)

/-- `uploaded?.wordpressUrl || path` (the empty URL is falsy). -/
def resolveImageUrl (m : ImageMap) (path : Str) : Str :=
  match imgLookup m path with
  | some u => if u.wordpressUrl ≠ [] then u.wordpressUrl else path
  | none => path

/-- One global single-character replacement (regex `/c/g` with a plain
replacement string free of dollar patterns). -/
def replaceCharBy (c : Char) (rep : Str) (s : Str) : Str :=
  s.flatMap (fun x => if x = c then rep else [x])

/-- `escapeHtml` from `markdown-converter.ts`: the five sequential
global replacements (ampersand first). -/
def escapeHtml (s : Str) : Str :=
  replaceCharBy squote (S "&#039;")
    (replaceCharBy '"' (S "&quot;")
      (replaceCharBy '>' (S "&gt;")
        (replaceCharBy '<' (S "&lt;")
          (replaceCharBy '&' (S "&amp;") s))))

/-- Generic engine for one global regex replacement: `f prev s` attempts a
match at the current position (`prev` is the input character before the
position, for lookbehinds) and returns the replacement text together with
the input remaining after the match; on no match the scanner advances one
character. This is exactly the scan of a JavaScript `replace` with the `g`
flag, where every pattern below consumes at least one character. -/
def gReplaceGo (f : Option Char → Str → Option (Str × Str)) :
    Nat → Option Char → Str → Str
  | 0, _, s => s
  | _ + 1, _, [] => []
  | fuel + 1, prev, c :: t =>
    match f prev (c :: t) with
    | some (rep, rest) =>
      if rest.length < (c :: t).length then
        rep ++ gReplaceGo f fuel (((c :: t).take ((c :: t).length - rest.length)).getLast?) rest
      else c :: gReplaceGo f fuel (some c) t
    | none => c :: gReplaceGo f fuel (some c) t

/-- One global regex replacement (`replace` with the `g` flag): the scan of
`gReplaceGo`, started with enough fuel for the whole input. -/
def gReplace (f : Option Char → Str → Option (Str × Str)) (prev : Option Char) (s : Str) : Str :=
  gReplaceGo f (s.length + 1) prev s

/-- Parts of an inline wikilink image match `!\[\[([^\]]+)\]\]` at the
current position: path and remainder. -/
def tryWikiImgParts1 (s : Str) : Option (Str × Str) :=
  match s with
  | '!' :: '[' :: '[' :: r =>
    let p := r.takeWhile (fun c => c ≠ ']')
    if p = [] then none
    else
      match r.drop p.length with
      | ']' :: ']' :: rest => some (p, rest)
      | _ => none
  | _ => none

/-- Parts of a standard image match `!\[([^\]]*)\]\(([^)]+)\)` at the
current position: alt text, path, remainder. -/
def tryStdImgParts (s : Str) : Option (Str × Str × Str) :=
  match s with
  | '!' :: '[' :: r =>
    let a := r.takeWhile (fun c => c ≠ ']')
    match r.drop a.length with
    | ']' :: '(' :: r2 =>
      let p := r2.takeWhile (fun c => c ≠ ')')
      if p = [] then none
      else
        match r2.drop p.length with
        | ')' :: rest => some (a, p, rest)
        | _ => none
    | _ => none
  | _ => none

/-- Inline wikilink-image substitution (first rule of
`convertInlineFormatting`; note the path capture is `[^\]]+`, so a
`|alt` component is part of the captured path here). -/
def tryWikiImgInline (m : ImageMap) : Option Char → Str → Option (Str × Str) :=
  fun _ s =>
    (tryWikiImgParts1 s).map (fun pr =>
      (S "<img src=\"" ++ resolveImageUrl m pr.1 ++ S "\" alt=\"" ++ escapeHtml pr.1 ++ S "\"/>",
       pr.2))

/-- Inline standard-image substitution (second rule). -/
def tryStdImgInline (m : ImageMap) : Option Char → Str → Option (Str × Str) :=
  fun _ s =>
    (tryStdImgParts s).map (fun pr =>
      (S "<img src=\"" ++ resolveImageUrl m pr.2.1 ++ S "\" alt=\"" ++ escapeHtml pr.1 ++ S "\"/>",
       pr.2.2))

/-- Wikilink with display text `\[\[([^\]|]+)\|([^\]]+)\]\]`, replaced by
the display text. -/
def tryWikiLinkDisp : Option Char → Str → Option (Str × Str) :=
  fun _ s =>
    match s with
    | '[' :: '[' :: r =>
      let l := r.takeWhile (fun c => c ≠ ']' ∧ c ≠ '|')
      if l = [] then none
      else
        match r.drop l.length with
        | '|' :: r2 =>
          let d := r2.takeWhile (fun c => c ≠ ']')
          if d = [] then none
          else
            match r2.drop d.length with
            | ']' :: ']' :: rest => some (d, rest)
            | _ => none
        | _ => none
    | _ => none

/-- Plain wikilink `\[\[([^\]]+)\]\]`, replaced by its target text. -/
def tryWikiLinkPlain : Option Char → Str → Option (Str × Str) :=
  fun _ s =>
    match s with
    | '[' :: '[' :: r =>
      let l := r.takeWhile (fun c => c ≠ ']')
      if l = [] then none
      else
        match r.drop l.length with
        | ']' :: ']' :: rest => some (l, rest)
        | _ => none
    | _ => none

/-- Generic paired-delimiter substitution `od([^stop]+)cd`, replaced by
`pre body post`. -/
def tryDelim (od cd : Str) (stop : Char) (pre post : Str) :
    Option Char → Str → Option (Str × Str) :=
  fun _ s =>
    if od.isPrefixOf s then
      let r := s.drop od.length
      let b := r.takeWhile (fun c => c ≠ stop)
      if b = [] then none
      else if cd.isPrefixOf (r.drop b.length) then
        some (pre ++ b ++ post, (r.drop b.length).drop cd.length)
      else none
    else none

/-- Underscore italic with the lookarounds
`(?<![a-zA-Z])_([^_]+)_(?![a-zA-Z])`. -/
def tryUndEm : Option Char → Str → Option (Str × Str) :=
  fun prev s =>
    let prevOK : Bool :=
      match prev with
      | some c => ¬ isAsciiLetter c
      | none => true
    if ¬ prevOK then none
    else
      match s with
      | '_' :: r =>
        let b := r.takeWhile (fun c => c ≠ '_')
        if b = [] then none
        else
          match r.drop b.length with
          | '_' :: rest =>
            let nextOK : Bool :=
              match rest.head? with
              | some c => ¬ isAsciiLetter c
              | none => true
            if nextOK then some (S "<em>" ++ b ++ S "</em>", rest) else none
          | _ => none
      | _ => none

/-- Link substitution `\[([^\]]+)\]\(([^)]+)\)` to an anchor. -/
def tryLink : Option Char → Str → Option (Str × Str) :=
  fun _ s =>
    match s with
    | '[' :: r =>
      let t := r.takeWhile (fun c => c ≠ ']')
      if t = [] then none
      else
        match r.drop t.length with
        | ']' :: '(' :: r2 =>
          let u := r2.takeWhile (fun c => c ≠ ')')
          if u = [] then none
          else
            match r2.drop u.length with
            | ')' :: rest =>
              some (S "<a href=\"" ++ u ++ S "\">" ++ t ++ S "</a>", rest)
            | _ => none
        | _ => none
    | _ => none

/-- `convertInlineFormatting` from `markdown-converter.ts`: the ordered
sequence of global substitutions. -/
def convertInlineFormatting (m : ImageMap) (text : Str) : Str :=
  let r1 := gReplace (tryWikiImgInline m) none text
  let r2 := gReplace (tryStdImgInline m) none r1
  let r3 := gReplace tryWikiLinkDisp none r2
  let r4 := gReplace tryWikiLinkPlain none r3
  let r5 := gReplace (tryDelim (S "***") (S "***") '*' (S "<strong><em>") (S "</em></strong>")) none r4
  let r6 := gReplace (tryDelim (S "___") (S "___") '_' (S "<strong><em>") (S "</em></strong>")) none r5
  let r7 := gReplace (tryDelim (S "**") (S "**") '*' (S "<strong>") (S "</strong>")) none r6
  let r8 := gReplace (tryDelim (S "__") (S "__") '_' (S "<strong>") (S "</strong>")) none r7
  let r9 := gReplace (tryDelim (S "*") (S "*") '*' (S "<em>") (S "</em>")) none r8
  let r10 := gReplace tryUndEm none r9
  let r11 := gReplace (tryDelim (S "~~") (S "~~") '~' (S "<del>") (S "</del>")) none r10
  let r12 := gReplace (tryDelim [btick] [btick] btick (S "<code>") (S "</code>")) none r11
  let r13 := gReplace (tryDelim (S "==") (S "==") '=' (S "<mark>") (S "</mark>")) none r12
  gReplace tryLink none r13

/-- `ImageReference` (`types.ts`). -/
structure ImageReference where
  originalSyntax : Str
  path : Str
  altText : Str
  isWikilink : Bool
deriving DecidableEq

/-- Parts of an extraction wikilink-image match
`!\[\[([^\]|]+)(?:\|([^\]]+))?\]\]` at the current position:
path, optional alt, remainder. -/
def tryWikiImgParts2 (s : Str) : Option (Str × Option Str × Str) :=
  match s with
  | '!' :: '[' :: '[' :: r =>
    let p := r.takeWhile (fun c => c ≠ ']' ∧ c ≠ '|')
    if p = [] then none
    else
      match r.drop p.length with
      | ']' :: ']' :: rest => some (p, none, rest)
      | '|' :: r2 =>
        let a := r2.takeWhile (fun c => c ≠ ']')
        if a = [] then none
        else
          match r2.drop a.length with
          | ']' :: ']' :: rest => some (p, some a, rest)
          | _ => none
      | _ => none
  | _ => none

/-- First match of an unanchored pattern: try at each position from the left. -/
def findFirstMatch (f : Str → Option α) : Str → Option α
  | [] => f []
  | c :: t =>
    match f (c :: t) with
    | some x => some x
    | none => findFirstMatch f t

/-- `extractImageReference` from `markdown-converter.ts`: first standard
match, otherwise first wikilink match. -/
def extractImageReference (block : Str) : Option ImageReference :=
  match findFirstMatch tryStdImgParts block with
  | some (alt, p, _) =>
    some { originalSyntax := S "![" ++ alt ++ S "](" ++ p ++ S ")"
           path := p, altText := alt, isWikilink := false }
  | none =>
    match findFirstMatch tryWikiImgParts2 block with
    | some (p, altOpt, _) =>
      some { originalSyntax :=
               S "![[" ++ p ++ (match altOpt with | some a => '|' :: a | none => []) ++ S "]]"
             path := p, altText := altOpt.getD p, isWikilink := true }
    | none => none

/-- `convertParagraph`. -/
def convertParagraph (m : ImageMap) (block : Str) : Str :=
  S "<!-- wp:paragraph -->\n<p>" ++ convertInlineFormatting m block ++
  S "</p>\n<!-- /wp:paragraph -->"

/-- `convertImage` (standalone image block). -/
def convertImage (m : ImageMap) (block : Str) : Str :=
  match extractImageReference block with
  | none => convertParagraph m block
  | some ref =>
    S "<!-- wp:image -->\n<figure class=\"wp-block-image\"><img src=\"" ++
    resolveImageUrl m ref.path ++ S "\" alt=\"" ++ escapeHtml ref.altText ++
    S "\"/></figure>\n<!-- /wp:image -->"

/-- `convertCodeBlock`. -/
def convertCodeBlock (block : Str) : Str :=
  let lines := splitOnChar '\n' block
  let firstLine := lines.headD []
  let language :=
    trimJS (if (S "```").isPrefixOf firstLine then firstLine.drop 3 else firstLine)
  let code := joinChar '\n' ((lines.drop 1).dropLast)
  let escapedCode := escapeHtml code
  if language ≠ [] then
    S "<!-- wp:code -->\n<pre class=\"wp-block-code\"><code class=\"language-" ++
    language ++ S "\">" ++ escapedCode ++ S "</code></pre>\n<!-- /wp:code -->"
  else
    S "<!-- wp:code -->\n<pre class=\"wp-block-code\"><code>" ++ escapedCode ++
    S "</code></pre>\n<!-- /wp:code -->"

/-- `convertCallout`. -/
def convertCallout (m : ImageMap) (block : Str) : Str :=
  let ci := parseCallout block
  let contentHtml := convertInlineFormatting m ci.content
  let typeClass := S "callout-" ++ toLowerStr ci.type
  S "<!-- wp:quote \x7b\"className\":\"" ++ typeClass ++ S "\"\x7d -->\n<blockquote class=\"wp-block-quote " ++
  typeClass ++ S "\"><p><strong>" ++ escapeHtml ci.title ++ S "</strong></p><p>" ++
  contentHtml ++ S "</p></blockquote>\n<!-- /wp:quote -->"

/-- `convertBlockquote`. -/
def convertBlockquote (m : ImageMap) (block : Str) : Str :=
  let content := joinChar '\n' ((splitOnChar '\n' block).map stripQuotePfx)
  S "<!-- wp:quote -->\n<blockquote class=\"wp-block-quote\"><p>" ++
  convertInlineFormatting m content ++ S "</p></blockquote>\n<!-- /wp:quote -->"

/-- Match and removal of the unordered item marker `^[-*+]\s` . -/
def ulMarkerMatch (l : Str) : Option Str :=
  match l with
  | c :: c2 :: r =>
    if (c = '-' ∨ c = '*' ∨ c = '+') ∧ isSpaceJS c2 then some r else none
  | _ => none

/-- Match and removal of the ordered item marker `^\d+\.\s` . -/
def olMarkerMatch (l : Str) : Option Str :=
  let d := l.takeWhile isDigitC
  if d = [] then none
  else
    match l.drop d.length with
    | '.' :: c :: r => if isSpaceJS c then some r else none
    | _ => none

/-- `line.match(/^\s+/)`. -/
def startsWithSpace (l : Str) : Bool :=
  match l.head? with
  | some c => isSpaceJS c
  | none => false

/-- `parseListItems` from `markdown-converter.ts`: marker lines start items,
indented lines continue the open item with a space separator. -/
def parseListItems (block : Str) (marker : Str → Option Str) : List Str :=
  let step := fun (acc : List Str × Str) (line : Str) =>
    match marker line with
    | some rest => (if acc.2 ≠ [] then acc.1 ++ [acc.2] else acc.1, rest)
    | none =>
      if startsWithSpace line ∧ acc.2 ≠ [] then (acc.1, acc.2 ++ ' ' :: trimJS line)
      else acc
  let fin := (splitOnChar '\n' block).foldl step ([], [])
  if fin.2 ≠ [] then fin.1 ++ [fin.2] else fin.1

/-- `convertUnorderedList`. -/
def convertUnorderedList (m : ImageMap) (block : Str) : Str :=
  let items := parseListItems block ulMarkerMatch
  let listHtml :=
    (items.map (fun it => S "<li>" ++ convertInlineFormatting m it ++ S "</li>")).flatten
  S "<!-- wp:list -->\n<ul class=\"wp-block-list\">" ++ listHtml ++
  S "</ul>\n<!-- /wp:list -->"

/-- `convertOrderedList`. -/
def convertOrderedList (m : ImageMap) (block : Str) : Str :=
  let items := parseListItems block olMarkerMatch
  let listHtml :=
    (items.map (fun it => S "<li>" ++ convertInlineFormatting m it ++ S "</li>")).flatten
  S "<!-- wp:list \x7b\"ordered\":true\x7d -->\n<ol class=\"wp-block-list\">" ++ listHtml ++
  S "</ol>\n<!-- /wp:list -->"

/-- Match of the block header regex `^(#{1,6})\s+(.+)$`: level and text.
`\s+` is greedy but backtracks one step when the text group would be empty,
provided a whitespace character that `.` accepts remains. -/
def headerBlockMatch (s : Str) : Option (Nat × Str) :=
  let h := s.takeWhile (fun c => c = '#')
  if 1 ≤ h.length ∧ h.length ≤ 6 then
    let rest := s.drop h.length
    let sp := rest.takeWhile isSpaceJS
    if sp = [] then none
    else
      let txt := rest.drop sp.length
      if txt ≠ [] then
        if linetermFree txt then some (h.length, txt) else none
      else
        match sp.getLast? with
        | some c => if 2 ≤ sp.length ∧ ¬ isLineTerm c then some (h.length, [c]) else none
        | none => none
  else none

/-- `convertBlock` from `markdown-converter.ts`. -/
def convertBlock (m : ImageMap) (block : Str) : Str :=
  let trimmed := trimJS block
  match headerBlockMatch trimmed with
  | some (level, text) =>
    S "<!-- wp:heading \x7b\"level\":" ++ natDigits level ++ S "\x7d -->\n<h" ++
    natDigits level ++ S ">" ++ convertInlineFormatting m text ++ S "</h" ++
    natDigits level ++ S ">\n<!-- /wp:heading -->"
  | none =>
    if codeFenceTest trimmed then convertCodeBlock trimmed
    else if calloutHeaderTest trimmed then convertCallout m trimmed
    else if quoteStartTest trimmed then convertBlockquote m trimmed
    else if hrLineTest trimmed then
      S "<!-- wp:separator -->\n<hr class=\"wp-block-separator has-alpha-channel-opacity\"/>\n<!-- /wp:separator -->"
    else if (olMarkerMatch trimmed).isSome then convertOrderedList m trimmed
    else if (ulMarkerMatch trimmed).isSome then convertUnorderedList m trimmed
    else if stdImageLineTest trimmed ∨ wikiImageLineTest trimmed then convertImage m trimmed
    else convertParagraph m trimmed

/-- `removeFrontmatter`: strip the anchored frontmatter match together with
the following newlines, then trim. -/
def removeFrontmatter (content : Str) : Str :=
  match fmSplit content with
  | some p => trimJS (p.2.dropWhile (fun c => c = '\n'))
  | none => trimJS content

/-- `MarkdownConverter.convert`. -/
def convert (m : ImageMap) (markdown : Str) : Str :=
  joinStr (S "\n\n") ((splitIntoBlocks (removeFrontmatter markdown)).map (convertBlock m))

/-! ## Publish orchestration (`src/publisher.ts`)

Remote calls (`createPost`, `updatePost`, taxonomy resolution) and the
image-upload phase perform I/O through the WordPress client and the vault;
they are modelled as oracles in `PublishDeps`, and the successful response
of the one create-or-update call made by `publish` is `createResp` or
`updateResp`.  The outcome records the call that was submitted and the
document text written back. -/

/-- The fields of an Obsidian `TFile` read by the publisher. -/
structure TFileM where
  path : Str
  basename : Str
  extension : Str
deriving DecidableEq

/-- `PluginSettings` (`types.ts`). -/
structure PluginSettings where
  siteUrl : Str
  username : Str
  applicationPassword : Str
  publishableFolder : Str
  defaultPostStatus : PostStatus
  uploadImages : Bool
  createTemplate : Bool
deriving DecidableEq

/-- `WordPressPostPayload` (`types.ts`). -/
structure WordPressPostPayload where
  title : Str
  content : Str
  status : PostStatus
  slug : Option Str := none
  categories : Option (List Int) := none
  tags : Option (List Int) := none
  excerpt : Option Str := none
  date : Option Str := none
deriving DecidableEq

/-- The response fields of `WordPressPost` used by the publisher. -/
structure WordPressPost where
  id : Int
  link : Str
  status : PostStatus
  titleRendered : Str
  slug : Str
deriving DecidableEq

/-- The remote create-or-update call issued by a publish. -/
inductive WPCall where
  | create (payload : WordPressPostPayload)
  | update (postId : Int) (payload : WordPressPostPayload)
deriving DecidableEq

/-- `PublishResult` (`types.ts`). -/
structure PublishResult where
  success : Bool
  postId : Option Int := none
  postUrl : Option Str := none
  error : Option Str := none
deriving DecidableEq

/-- External collaborators of one `publish` invocation: path normalization,
the image map accumulated by the upload phase, taxonomy resolution, and the
successful responses of the create/update endpoints. -/
structure PublishDeps where
  normalizePath : Str → Str
  imageMap : ImageMap
  resolveCategoryIds : List Str → List Int
  resolveTagIds : List Str → List Int
  createResp : WordPressPost
  updateResp : WordPressPost

/-- Observable outcome of one `publish` invocation. -/
structure PublishOutcome where
  call : Option WPCall
  written : Option Str
  result : PublishResult

/-- `Publisher.isPublishable`. -/
def isPublishable (deps : PublishDeps) (settings : PluginSettings) (file : TFileM) : Bool :=
  if settings.publishableFolder = [] then file.extension = S "md"
  else file.extension = S "md" ∧ (deps.normalizePath settings.publishableFolder).isPrefixOf file.path

/-- The payload assembled by `Publisher.publish` (lines 73-97 of
`publisher.ts`): base fields plus the conditionally added optional fields,
in source order. -/
def buildPayload (deps : PublishDeps) (frontmatter : PostFrontmatter)
    (title gutenbergContent : Str) (status : PostStatus) : WordPressPostPayload :=
  let payload0 : WordPressPostPayload :=
    { title := title
      content := gutenbergContent
      status := status }
  let payload1 :=
    match frontmatter.slug with
    | some s => if s ≠ [] ∧ (trimJS s).length > 0 then { payload0 with slug := some (trimJS s) } else payload0
    | none => payload0
  let payload2 :=
    match frontmatter.excerpt with
    | some e => if e ≠ [] then { payload1 with excerpt := some e } else payload1
    | none => payload1
  let payload3 :=
    match frontmatter.date with
    | some d => if d ≠ [] ∧ status = .future then { payload2 with date := some d } else payload2
    | none => payload2
  let payload4 :=
    match frontmatter.categories with
    | some cs => if cs.length > 0 then { payload3 with categories := some (deps.resolveCategoryIds cs) } else payload3
    | none => payload3
  match frontmatter.tags with
  | some ts => if ts.length > 0 then { payload4 with tags := some (deps.resolveTagIds ts) } else payload4
  | none => payload4

/-- The body of `Publisher.publish` after the configuration and scope guards
(success path of the remote calls; `overrideStatus` wins over the frontmatter
status which wins over the default). -/
def publishCore (deps : PublishDeps) (settings : PluginSettings) (file : TFileM)
    (content : Str) (overrideStatus : Option PostStatus) : PublishOutcome :=
    let frontmatter := parseFrontmatter content
    let imageMap : ImageMap := if settings.uploadImages then deps.imageMap else []
    let gutenbergContent := convert imageMap content
    let status := overrideStatus.getD (frontmatter.status.getD settings.defaultPostStatus)
    let payload := buildPayload deps frontmatter (getTitle frontmatter file.basename)
      gutenbergContent status
    let createOutcome : PublishOutcome :=
      { call := some (.create payload)
        written := some (updateFrontmatter content
          { wp_post_id := some deps.createResp.id
            wp_post_url := some deps.createResp.link
            status := some deps.createResp.status })
        result := { success := true, postId := some deps.createResp.id,
                    postUrl := some deps.createResp.link } }
    match frontmatter.wp_post_id with
    | some i =>
      if i ≠ 0 then
        { call := some (.update i payload)
          written := some (updateFrontmatter content
            { wp_post_url := some deps.updateResp.link
              status := some deps.updateResp.status })
          result := { success := true, postId := some deps.updateResp.id,
                      postUrl := some deps.updateResp.link } }
      else createOutcome
    | none => createOutcome

/-- `Publisher.publish`: the two guards, then the submission body. -/
def publish (deps : PublishDeps) (settings : PluginSettings) (file : TFileM)
    (content : Str) (overrideStatus : Option PostStatus) : PublishOutcome :=
  if settings.siteUrl = [] ∨ settings.username = [] ∨ settings.applicationPassword = [] then
    { call := none, written := none,
      result := { success := false,
                  error := some (S "WordPress connection not configured. Please check plugin settings.") } }
  else if ¬ isPublishable deps settings file then
    { call := none, written := none,
      result := { success := false,
                  error := some (S "File is not in the publishable folder: " ++ settings.publishableFolder) } }
  else publishCore deps settings file content overrideStatus

/-- The payload carried by the submitted call, when one was issued. -/
def PublishOutcome.sentPayload (o : PublishOutcome) : Option WordPressPostPayload :=
  match o.call with
  | some (.create p) => some p
  | some (.update _ p) => some p
  | none => none

/-- Is the submitted call a create? -/
def isCreateCall : Option WPCall → Bool
  | some (.create _) => true
  | _ => false

/-- The identifier targeted by an update call, if the call is an update. -/
def callUpdateId : Option WPCall → Option Int
  | some (.update i _) => some i
  | _ => none

/-! ## General lemmas about the string primitives -/

/-- Unfolding equation of `splitOnChar` at a cons. -/
theorem splitOnChar_cons (sep c : Char) (rest : Str) :
    splitOnChar sep (c :: rest) =
      if c = sep then [] :: splitOnChar sep rest
      else
        match splitOnChar sep rest with
        | h :: t => (c :: h) :: t
        | [] => [[c]] := rfl

/-- `splitOnChar` never returns the empty list. -/
theorem splitOnChar_ne_nil (sep : Char) (s : Str) : splitOnChar sep s ≠ [] := by
  induction s with
  | nil => simp [splitOnChar]
  | cons c rest ih =>
    rw [splitOnChar_cons]
    by_cases h : c = sep
    · simp [h]
    · rw [if_neg h]
      cases hr : splitOnChar sep rest with
      | nil => exact absurd hr ih
      | cons a t => simp

/-- Splitting a separator-free string is the identity. -/
theorem splitOnChar_no_sep (sep : Char) (s : Str) (h : sep ∉ s) :
    splitOnChar sep s = [s] := by
  induction s with
  | nil => simp [splitOnChar]
  | cons c rest ih =>
    simp only [List.mem_cons, not_or] at h
    rw [splitOnChar_cons, if_neg (fun hc => h.1 hc.symm), ih h.2]

/-- Splitting after a separator-free prefix peels off that prefix. -/
theorem splitOnChar_append_sep (sep : Char) (l r : Str) (h : sep ∉ l) :
    splitOnChar sep (l ++ sep :: r) = l :: splitOnChar sep r := by
  induction l with
  | nil =>
    rw [List.nil_append, splitOnChar_cons, if_pos rfl]
  | cons c rest ih =>
    simp only [List.mem_cons, not_or] at h
    rw [List.cons_append, splitOnChar_cons, if_neg (fun hc => h.1 hc.symm), ih h.2]

/-- `splitOnChar` inverts `joinChar` on non-empty lists of separator-free lines. -/
theorem splitOnChar_joinChar (sep : Char) (ls : List Str) (hne : ls ≠ [])
    (h : ∀ l ∈ ls, sep ∉ l) : splitOnChar sep (joinChar sep ls) = ls := by
  induction ls with
  | nil => exact absurd rfl hne
  | cons l rest ih =>
    cases rest with
    | nil => simpa [joinChar] using splitOnChar_no_sep sep l (h l (by simp))
    | cons l2 rest2 =>
      have hj : joinChar sep (l :: l2 :: rest2) = l ++ sep :: joinChar sep (l2 :: rest2) := rfl
      rw [hj, splitOnChar_append_sep sep l _ (h l (by simp)),
        ih (by simp) (fun x hx => h x (List.mem_cons_of_mem _ hx))]

/-- Every piece of a split is free of the separator. -/
theorem splitOnChar_mem_no_sep (sep : Char) (s : Str) :
    ∀ l ∈ splitOnChar sep s, sep ∉ l := by
  induction s with
  | nil => simp [splitOnChar]
  | cons c rest ih =>
    intro l hl
    rw [splitOnChar_cons] at hl
    by_cases h : c = sep
    · rw [if_pos h] at hl
      rcases List.mem_cons.mp hl with h1 | h1
      · simp [h1]
      · exact ih l h1
    · rw [if_neg h] at hl
      cases hr : splitOnChar sep rest with
      | nil => exact absurd hr (splitOnChar_ne_nil sep rest)
      | cons a t =>
        rw [hr] at hl
        rcases List.mem_cons.mp hl with h1 | h1
        · subst h1
          intro hmem
          rcases List.mem_cons.mp hmem with h2 | h2
          · exact h h2.symm
          · exact ih a (hr ▸ List.mem_cons_self a t) h2
        · exact ih l (hr ▸ List.mem_cons_of_mem a h1)

/-- `dropWhile` keeps a list whose head fails the predicate. -/
theorem dropWhile_eq_self_of_head (p : Char → Bool) (s : Str)
    (h : ∀ c, s.head? = some c → p c = false) : s.dropWhile p = s := by
  cases s with
  | nil => rfl
  | cons c rest => simp [List.dropWhile_cons, h c rfl]

/-- `trimJS` is the identity when both ends are non-space. -/
theorem trimJS_eq_self_of_ends (s : Str)
    (h1 : ∀ c, s.head? = some c → isSpaceJS c = false)
    (h2 : ∀ c, s.getLast? = some c → isSpaceJS c = false) : trimJS s = s := by
  unfold trimJS
  rw [dropWhile_eq_self_of_head _ s h1]
  rw [dropWhile_eq_self_of_head _ s.reverse (fun c hc => h2 c (by rwa [List.head?_reverse] at hc))]
  exact List.reverse_reverse s

/-- Unfolding equation of `splitFirstInfix` at a cons. -/
theorem splitFirstInfix_cons (pat : Str) (c : Char) (rest : Str) :
    splitFirstInfix pat (c :: rest) =
      if pat.isPrefixOf (c :: rest) then some ([], (c :: rest).drop pat.length)
      else (splitFirstInfix pat rest).map (fun p => (c :: p.1, p.2)) := rfl

/-- When `pat` occurs nowhere strictly before the planted occurrence,
`splitFirstInfix` finds the planted occurrence. -/
theorem splitFirstInfix_planted (pat x r : Str) (hpat : pat ≠ [])
    (h : ∀ i, i < x.length → ¬ pat.isPrefixOf ((x ++ pat ++ r).drop i) = true) :
    splitFirstInfix pat (x ++ pat ++ r) = some (x, r) := by
  induction x with
  | nil =>
    cases hp : pat with
    | nil => exact absurd hp hpat
    | cons pc pt =>
      subst hp
      show splitFirstInfix (pc :: pt) ((pc :: pt) ++ r) = some ([], r)
      rw [List.cons_append, splitFirstInfix_cons, ← List.cons_append,
        if_pos (List.isPrefixOf_iff_prefix.mpr (List.prefix_append _ r)), List.drop_left]
  | cons c rest ih =>
    have h0 := h 0 (by simp)
    rw [List.drop_zero] at h0
    rw [List.cons_append, List.cons_append, splitFirstInfix_cons,
      if_neg (by simpa using h0)]
    have ihh := ih (fun i hi => by
      have := h (i + 1) (by simpa using Nat.succ_lt_succ hi)
      simpa using this)
    rw [show rest ++ pat ++ r = (rest ++ pat) ++ r from rfl] at ihh ⊢
    rw [ihh]
    rfl

/-- Scanning for a pattern that starts with a newline skips a newline-free
prefix. -/
theorem splitFirstInfix_skip (pat l rest : Str) (hpat : pat.head? = some '\n')
    (hfree : '\n' ∉ l) :
    splitFirstInfix pat (l ++ rest) =
      (splitFirstInfix pat rest).map (fun p => (l ++ p.1, p.2)) := by
  induction l with
  | nil => simp
  | cons c l' ih =>
    simp only [List.mem_cons, not_or] at hfree
    rw [List.cons_append, splitFirstInfix_cons]
    have hpre : pat.isPrefixOf (c :: (l' ++ rest)) = false := by
      cases pat with
      | nil => simp at hpat
      | cons pc pt =>
        have hpc : pc = '\n' := by simpa using hpat
        subst hpc
        rw [List.isPrefixOf_cons₂]
        have : ('\n' == c) = false := beq_eq_false_iff_ne.mpr hfree.1
        simp [this]
    rw [hpre]
    simp only [Bool.false_eq_true, if_false, ih hfree.2, Option.map_map]
    rfl

/-- The pattern planted right after the scanned string is found. -/
theorem splitFirstInfix_self (pat r : Str) (hp : pat ≠ []) :
    splitFirstInfix pat (pat ++ r) = some ([], r) := by
  cases hp2 : pat with
  | nil => exact absurd hp2 hp
  | cons pc pt =>
    subst hp2
    rw [List.cons_append, splitFirstInfix_cons, ← List.cons_append,
      if_pos (List.isPrefixOf_iff_prefix.mpr (List.prefix_append _ r)), List.drop_left]

/-- Head of a joined line list (followed by the terminator pattern) is never
a dash when the first line does not start with a dash. -/
theorem head_join_not_dash (l2 : Str) (ls : List Str) (r : Str)
    (h2 : l2.head? ≠ some '-') :
    (joinChar '\n' (l2 :: ls) ++ (S "\n---" ++ r)).head? ≠ some '-' := by
  cases ls with
  | nil =>
    cases l2 with
    | nil => simp [joinChar, S]
    | cons c t => simpa [joinChar] using h2
  | cons l3 ls3 =>
    cases l2 with
    | nil => simp [joinChar, S]
    | cons c t => simpa [joinChar] using h2

/-- The frontmatter terminator is first found at the planted position after
a joined list of newline-free lines none of which starts with a dash. -/
theorem splitFirstInfix_join (lines : List Str) (r : Str) (hne : lines ≠ [])
    (hl : ∀ l ∈ lines, '\n' ∉ l ∧ l.head? ≠ some '-') :
    splitFirstInfix (S "\n---") (joinChar '\n' lines ++ (S "\n---" ++ r)) =
      some (joinChar '\n' lines, r) := by
  induction lines with
  | nil => exact absurd rfl hne
  | cons l rest ih =>
    cases rest with
    | nil =>
      have hj1 : joinChar '\n' [l] = l := rfl
      rw [hj1, splitFirstInfix_skip (S "\n---") l _ (by rfl) (hl l (by simp)).1,
        splitFirstInfix_self _ _ (by simp [S])]
      simp
    | cons l2 ls =>
      have hj : joinChar '\n' (l :: l2 :: ls) = l ++ '\n' :: joinChar '\n' (l2 :: ls) := rfl
      rw [hj, List.append_assoc,
        splitFirstInfix_skip (S "\n---") l _ (by rfl) (hl l (by simp)).1,
        List.cons_append, splitFirstInfix_cons]
      have hnopre :
          (S "\n---").isPrefixOf ('\n' :: (joinChar '\n' (l2 :: ls) ++ (S "\n---" ++ r))) = false := by
        have hh := head_join_not_dash l2 ls r (hl l2 (by simp)).2
        cases hX : joinChar '\n' (l2 :: ls) ++ (S "\n---" ++ r) with
        | nil => decide
        | cons b t =>
          rw [hX] at hh
          have hb : ('-' == b) = false :=
            beq_eq_false_iff_ne.mpr (fun hc => hh (by simp [hc.symm]))
          show ('\n' :: '-' :: '-' :: '-' :: []).isPrefixOf ('\n' :: b :: t) = false
          rw [List.isPrefixOf_cons₂, List.isPrefixOf_cons₂]
          simp [hb]
      rw [hnopre]
      simp only [Bool.false_eq_true, if_false]
      rw [ih (by simp) (fun x hx => hl x (List.mem_cons_of_mem _ hx))]
      simp [hj]

/-! ## Digit rendering: `natDigits` and `parseIntJS` -/

/-- Digit characters avoid every delimiter the codec cares about. -/
theorem digit_not_special (c : Char) (h : isDigitC c = true) :
    isSpaceJS c = false ∧ isLineTerm c = false ∧ c ≠ '-' ∧ c ≠ '"' ∧ c ≠ squote ∧
    c ≠ '[' ∧ c ≠ ']' ∧ c ≠ '\n' ∧ c ≠ '$' ∧ c ≠ '+' := by
  have hb : 48 ≤ c.toNat ∧ c.toNat ≤ 57 := by
    simp only [isDigitC, decide_eq_true_eq] at h
    exact ⟨by simpa [Char.le_def] using h.1, by simpa [Char.le_def] using h.2⟩
  refine ⟨?_, ?_, ?_, ?_, ?_, ?_, ?_, ?_, ?_, ?_⟩
  · simp only [isSpaceJS]
    exact decide_eq_false (by omega)
  · simp only [isLineTerm]
    exact decide_eq_false (by omega)
  · exact fun hc => absurd h (by rw [hc]; decide)
  · exact fun hc => absurd h (by rw [hc]; decide)
  · exact fun hc => absurd h (by rw [hc]; decide)
  · exact fun hc => absurd h (by rw [hc]; decide)
  · exact fun hc => absurd h (by rw [hc]; decide)
  · exact fun hc => absurd h (by rw [hc]; decide)
  · exact fun hc => absurd h (by rw [hc]; decide)
  · exact fun hc => absurd h (by rw [hc]; decide)

/-- One-digit rendering. -/
theorem natDigits_small (n : Nat) (h : n < 10) :
    natDigits n = [Char.ofNat ('0'.toNat + n)] := by
  cases n with
  | zero => rfl
  | succ m => simp [natDigits, natDigitsGo, h]

/-- Unfolding of `natDigitsGo` at successor fuel. -/
theorem natDigitsGo_succ_unfold (f n : Nat) (acc : Str) :
    natDigitsGo (f + 1) n acc =
      if n < 10 then Char.ofNat ('0'.toNat + n) :: acc
      else natDigitsGo f (n / 10) (Char.ofNat ('0'.toNat + n % 10) :: acc) := rfl

/-- The fuel argument of `natDigitsGo` is irrelevant when sufficient, and the
accumulator is appended. -/
theorem natDigitsGo_shift (n : Nat) : ∀ fuel acc, n ≤ fuel →
    natDigitsGo fuel n acc = natDigits n ++ acc := by
  induction n using Nat.strong_induction_on with
  | _ n ih =>
    intro fuel acc hle
    by_cases h : n < 10
    · have h1 : natDigitsGo fuel n acc = Char.ofNat ('0'.toNat + n) :: acc := by
        cases fuel with
        | zero => rfl
        | succ f => simp [natDigitsGo, h]
      rw [h1, natDigits_small n h]
      rfl
    · cases fuel with
      | zero => omega
      | succ f =>
        have hdiv : n / 10 < n := Nat.div_lt_self (by omega) (by omega)
        rw [natDigitsGo_succ_unfold, if_neg h, ih (n / 10) hdiv f _ (by omega)]
        have hrhs : natDigits n = natDigits (n / 10) ++ [Char.ofNat ('0'.toNat + n % 10)] := by
          have hfe : natDigits n = natDigitsGo (n - 1 + 1) n [] :=
            congrArg (fun f => natDigitsGo f n []) (by omega)
          rw [hfe, natDigitsGo_succ_unfold, if_neg h,
            ih (n / 10) hdiv (n - 1) _ (by omega)]
        rw [hrhs, List.append_assoc]
        rfl

/-- Peeling the last decimal digit. -/
theorem natDigits_step (n : Nat) (h : ¬ n < 10) :
    natDigits n = natDigits (n / 10) ++ [Char.ofNat ('0'.toNat + n % 10)] := by
  have hfe : natDigits n = natDigitsGo (n - 1 + 1) n [] :=
    congrArg (fun f => natDigitsGo f n []) (by omega)
  rw [hfe, natDigitsGo_succ_unfold, if_neg h,
    natDigitsGo_shift (n / 10) (n - 1) _ (by omega)]

/-- `natDigits` produces only digit characters, and at least one. -/
theorem natDigits_digits (n : Nat) :
    natDigits n ≠ [] ∧ ∀ c ∈ natDigits n, isDigitC c = true := by
  induction n using Nat.strong_induction_on with
  | _ n ih =>
    by_cases h : n < 10
    · rw [natDigits_small n h]
      refine ⟨by simp, ?_⟩
      intro c hc
      have : c = Char.ofNat ('0'.toNat + n) := by simpa using hc
      subst this
      interval_cases n <;> decide
    · have hdiv : n / 10 < n := Nat.div_lt_self (by omega) (by omega)
      rw [natDigits_step n h]
      refine ⟨by simp, ?_⟩
      intro c hc
      rcases List.mem_append.mp hc with hc | hc
      · exact (ih (n / 10) hdiv).2 c hc
      · have : c = Char.ofNat ('0'.toNat + n % 10) := by simpa using hc
        subst this
        have hm : n % 10 < 10 := Nat.mod_lt _ (by omega)
        set m := n % 10 with hmdef
        clear_value m
        interval_cases m <;> decide

/-- Value of one rendered digit character. -/
theorem digit_char_val (n : Nat) (h : n < 10) :
    (Char.ofNat ('0'.toNat + n)).toNat - '0'.toNat = n := by
  interval_cases n <;> decide

/-- Folding the decimal digits back recovers the number. -/
theorem natDigits_foldl (n : Nat) :
    (natDigits n).foldl (fun a c => a * 10 + (c.toNat - '0'.toNat)) 0 = n := by
  suffices hgen : ∀ n a, (natDigits n).foldl (fun a c => a * 10 + (c.toNat - '0'.toNat)) a =
      a * 10 ^ (natDigits n).length + n by
    have := hgen n 0
    simpa using this
  intro n
  induction n using Nat.strong_induction_on with
  | _ n ih =>
    intro a
    by_cases h : n < 10
    · rw [natDigits_small n h]
      have hc := digit_char_val n h
      simp only [List.foldl, List.length_singleton, pow_one]
      omega
    · have hdiv : n / 10 < n := Nat.div_lt_self (by omega) (by omega)
      rw [natDigits_step n h, List.foldl_append, ih (n / 10) hdiv a]
      have hc := digit_char_val (n % 10) (Nat.mod_lt _ (by omega))
      simp only [List.foldl, List.length_append, List.length_singleton]
      rw [hc, pow_succ]
      have hmul : a * (10 ^ (natDigits (n / 10)).length * 10) =
          a * 10 ^ (natDigits (n / 10)).length * 10 := by ring
      rw [hmul]
      have hdm := Nat.div_add_mod n 10
      omega

/-- `takeWhile` keeps a list all of whose elements satisfy the predicate. -/
theorem takeWhile_all (p : Char → Bool) (l : Str) (h : ∀ c ∈ l, p c = true) :
    l.takeWhile p = l := by
  induction l with
  | nil => rfl
  | cons c rest ih =>
    rw [List.takeWhile_cons_of_pos (h c (by simp)), ih (fun x hx => h x (by simp [hx]))]

/-- `digitsVal` on an all-digit non-empty string folds the digits. -/
theorem digitsVal_all (ds : Str) (h1 : ds ≠ []) (h2 : ∀ c ∈ ds, isDigitC c = true) :
    digitsVal ds = some (ds.foldl (fun a c => a * 10 + (c.toNat - '0'.toNat)) 0) := by
  unfold digitsVal
  rw [takeWhile_all _ _ h2]
  simp [h1]

/-- `parseIntJS` on a string starting with a digit reads the digit prefix. -/
theorem parseIntJS_cons_digit (c : Char) (rest : Str) (hc : isDigitC c = true) :
    parseIntJS (c :: rest) = (digitsVal (c :: rest)).map (fun n => (n : Int)) := by
  have hsp := digit_not_special c hc
  simp only [parseIntJS]
  rw [List.dropWhile_cons_of_neg (by simp [hsp.1])]
  split
  · next r heq =>
      exact absurd (List.cons.inj heq).1 hsp.2.2.1
  · next r heq =>
      exact absurd (List.cons.inj heq).1 hsp.2.2.2.2.2.2.2.2.2
  · rfl

/-- Parsing back a rendered integer. -/
theorem parseIntJS_intToStr (i : Int) : parseIntJS (intToStr i) = some i := by
  have hdig := natDigits_digits i.natAbs
  have hfold := natDigits_foldl i.natAbs
  by_cases h : i < 0
  · have he : intToStr i = '-' :: natDigits i.natAbs := if_pos h
    rw [he]
    simp only [parseIntJS]
    rw [List.dropWhile_cons_of_neg (by decide)]
    rw [show (match ('-' :: natDigits i.natAbs : Str) with
      | '-' :: r => (digitsVal r).map (fun n => -(n : Int))
      | '+' :: r => (digitsVal r).map (fun n => (n : Int))
      | r => (digitsVal r).map (fun n => (n : Int))) =
        (digitsVal (natDigits i.natAbs)).map (fun n => -(n : Int)) from rfl]
    rw [digitsVal_all _ hdig.1 hdig.2, hfold]
    show some (-(i.natAbs : Int)) = some i
    exact congrArg some (by omega)
  · have he : intToStr i = natDigits i.natAbs := if_neg h
    rw [he]
    cases hds : natDigits i.natAbs with
    | nil => exact absurd hds hdig.1
    | cons c rest =>
      have hcd : isDigitC c = true := hdig.2 c (by simp [hds])
      rw [parseIntJS_cons_digit c rest hcd, ← hds, digitsVal_all _ hdig.1 hdig.2, hfold]
      show some ((i.natAbs : Int)) = some i
      exact congrArg some (by omega)

/-- Character-level facts about a rendered integer. -/
theorem intToStr_facts (i : Int) :
    intToStr i ≠ [] ∧ ∀ c ∈ intToStr i,
      isLineTerm c = false ∧ isSpaceJS c = false ∧ c ≠ '"' ∧ c ≠ squote ∧
      c ≠ '[' ∧ c ≠ ']' ∧ c ≠ '\n' ∧ c ≠ '$' := by
  have hdig := natDigits_digits i.natAbs
  have hone : ∀ c ∈ natDigits i.natAbs,
      isLineTerm c = false ∧ isSpaceJS c = false ∧ c ≠ '"' ∧ c ≠ squote ∧
      c ≠ '[' ∧ c ≠ ']' ∧ c ≠ '\n' ∧ c ≠ '$' := by
    intro c hc
    have hs := digit_not_special c (hdig.2 c hc)
    exact ⟨hs.2.1, hs.1, hs.2.2.2.1, hs.2.2.2.2.1, hs.2.2.2.2.2.1,
      hs.2.2.2.2.2.2.1, hs.2.2.2.2.2.2.2.1, hs.2.2.2.2.2.2.2.2.1⟩
  by_cases h : i < 0
  · have he : intToStr i = '-' :: natDigits i.natAbs := if_pos h
    rw [he]
    refine ⟨by simp, ?_⟩
    intro c hc
    rcases List.mem_cons.mp hc with hc | hc
    · subst hc
      refine ⟨by decide, by decide, by decide, by decide, by decide, by decide, by decide, by decide⟩
    · exact hone c hc
  · have he : intToStr i = natDigits i.natAbs := if_neg h
    rw [he]
    exact ⟨hdig.1, hone⟩

/-! ## Line-level lemmas for `parseFrontmatter` -/

/-- `trimJS` is empty exactly on all-whitespace strings. -/
theorem trimJS_eq_nil_iff (s : Str) : trimJS s = [] ↔ ∀ c ∈ s, isSpaceJS c = true := by
  unfold trimJS
  rw [List.reverse_eq_nil_iff, List.dropWhile_eq_nil_iff]
  constructor
  · intro h c hc
    have hsplit := List.takeWhile_append_dropWhile (p := isSpaceJS) (l := s)
    rw [← hsplit] at hc
    rcases List.mem_append.mp hc with hc | hc
    · exact List.mem_takeWhile_imp hc
    · exact h c (List.mem_reverse.mpr hc)
  · intro h c hc
    exact h c ((List.dropWhile_sublist _).mem (List.mem_reverse.mp hc))

/-- A string whose head is not whitespace does not trim to empty. -/
theorem trimJS_ne_nil_of_head (c : Char) (l : Str) (h : isSpaceJS c = false) :
    trimJS (c :: l) ≠ [] := by
  intro hc
  have := (trimJS_eq_nil_iff _).mp hc c (by simp)
  rw [h] at this
  exact Bool.false_ne_true this

/-- A line whose head is not whitespace is not an array item. -/
theorem itemMatch_none_of_head (c : Char) (l : Str) (h : isSpaceJS c = false) :
    itemMatch (c :: l) = none := by
  unfold itemMatch
  rw [List.takeWhile_cons_of_neg (by simp [h])]
  rfl

/-- `kvMatch` on a word key followed by a colon. -/
theorem kvMatch_key (k rest : Str) (hk : k ≠ []) (hw : ∀ c ∈ k, isWordChar c = true) :
    kvMatch (k ++ ':' :: rest) =
      (if linetermFree (rest.drop (rest.takeWhile isSpaceJS).length) = true
       then some (k, rest.drop (rest.takeWhile isSpaceJS).length)
       else none) := by
  unfold kvMatch
  have hw2 : (k ++ ':' :: rest).takeWhile isWordChar = k := by
    rw [List.takeWhile_append_of_pos hw, List.takeWhile_cons_of_neg (by decide), List.append_nil]
  rw [hw2, if_neg hk]
  have hd : (k ++ ':' :: rest).drop k.length = ':' :: rest := List.drop_left _ _
  rw [hd]
  rfl

/-- `kvMatch` on a `key: value` line whose value neither starts with
whitespace nor contains a line terminator. -/
theorem kvMatch_key_sp (k v : Str) (hk : k ≠ []) (hw : ∀ c ∈ k, isWordChar c = true)
    (hv : v.takeWhile isSpaceJS = []) (hlt : linetermFree v = true) :
    kvMatch (k ++ ':' :: ' ' :: v) = some (k, v) := by
  rw [kvMatch_key k (' ' :: v) hk hw]
  have hsp : (' ' :: v).takeWhile isSpaceJS = [' '] := by
    rw [List.takeWhile_cons_of_pos (by decide), hv]
  rw [hsp]
  simp [hlt]

/-- A value whose head is not an opening bracket is not an inline array. -/
theorem inlineArrayMid_none_of_head (v : Str) (h : v.head? ≠ some '[') :
    inlineArrayMid v = none := by
  cases v with
  | nil => rfl
  | cons c rest =>
    have hc : c ≠ '[' := fun hc => h (by simp [hc])
    unfold inlineArrayMid
    split
    · next r heq => exact absurd (List.cons.inj heq).1 hc
    · rfl

/-- `parseLine` on a scalar `key: value` line from a state not inside an
array block. -/
theorem parseLine_scalar_noarr (res : PostFrontmatter) (ck : Str) (vals : List Str)
    (line k v : Str)
    (htrim : trimJS line ≠ [])
    (hitem : itemMatch line = none)
    (hkv : kvMatch line = some (k, v))
    (hval : trimJS v = v)
    (hv1 : v ≠ []) (hv2 : v ≠ S "[]")
    (hv3 : inlineArrayMid v = none) :
    parseLine ⟨res, ck, false, vals⟩ line =
      ⟨setSingleValue res (toLowerStr k) (stripOuterQuotes v), toLowerStr k, false, vals⟩ := by
  simp [parseLine, htrim, hitem, hkv, hval, hv1, hv2, hv3]

/-- `parseLine` on an array-opening `key:` line from a state not inside an
array block. -/
theorem parseLine_arrkey_noarr (res : PostFrontmatter) (ck : Str) (vals : List Str)
    (line k v : Str)
    (htrim : trimJS line ≠ [])
    (hitem : itemMatch line = none)
    (hkv : kvMatch line = some (k, v))
    (hval : trimJS v = []) :
    parseLine ⟨res, ck, false, vals⟩ line = ⟨res, toLowerStr k, true, []⟩ := by
  simp [parseLine, htrim, hitem, hkv, hval]

/-- `parseLine` on an array item line while inside an array block. -/
theorem parseLine_item (res : PostFrontmatter) (key : Str) (acc : List Str)
    (line raw : Str)
    (hkey : key ≠ [])
    (htrim : trimJS line ≠ [])
    (hitem : itemMatch line = some raw) :
    parseLine ⟨res, key, true, acc⟩ line =
      ⟨res, key, true, acc ++ [stripOuterQuotes (trimJS raw)]⟩ := by
  simp [parseLine, htrim, hitem, hkey]

/-- `parseLine` on an array-opening `key:` line while inside a non-empty
array block: the previous array is flushed first. -/
theorem parseLine_arrkey_flush (res : PostFrontmatter) (key : Str) (acc : List Str)
    (line k v : Str)
    (hkey : key ≠ []) (hacc : acc ≠ [])
    (htrim : trimJS line ≠ [])
    (hitem : itemMatch line = none)
    (hkv : kvMatch line = some (k, v))
    (hval : trimJS v = []) :
    parseLine ⟨res, key, true, acc⟩ line =
      ⟨setArrayValue res key acc, toLowerStr k, true, []⟩ := by
  simp [parseLine, htrim, hitem, hkv, hval, hkey, hacc]

/-! ## Benign metadata values and the serialize/parse round trip -/

/-- Line-terminator freedom gives newline freedom. -/
theorem no_newline_of_linetermFree (s : Str) (h : linetermFree s = true) : '\n' ∉ s := by
  intro hc
  have := by simpa [linetermFree] using h
  exact absurd (by decide : isLineTerm '\n' = true) (by simpa using this '\n' hc)

/-- A benign double-quoted scalar value: usable inside the double-quoted
serialized form and parsed back unchanged. -/
def benignQuotedV (s : Str) : Bool := linetermFree s && decide ('"' ∉ s)

/-- A benign unquoted scalar value: parsed back unchanged from a
`key: value` line. -/
def benignScalarV (s : Str) : Bool :=
  decide (s ≠ []) && linetermFree s && decide (s.takeWhile isSpaceJS = []) &&
  decide (trimJS s = s) && decide (stripOuterQuotes s = s) && decide (s.head? ≠ some '[')

/-- A benign list item: parsed back unchanged from a `  - item` line. -/
def benignItemV (s : Str) : Bool :=
  decide ('\n' ∉ s) && decide (s.takeWhile isSpaceJS = []) &&
  decide (trimJS s = s) && decide (stripOuterQuotes s = s)

/-- A benign metadata set: every present string value is benign and every
present list is non-empty with benign items. -/
def benignFM (m : PostFrontmatter) : Bool :=
  (match m.title with | some t => benignQuotedV t | none => true) &&
  (match m.slug with | some s => benignScalarV s | none => true) &&
  (match m.excerpt with | some e => benignQuotedV e | none => true) &&
  (match m.date with | some d => benignScalarV d | none => true) &&
  (match m.categories with
   | some cs => decide (cs ≠ []) && cs.all benignItemV
   | none => true) &&
  (match m.tags with
   | some ts => decide (ts ≠ []) && ts.all benignItemV
   | none => true)

/-- All string values and items of `m` avoid the dollar character (so the
regex-replacement layer of `updateFrontmatter` is inert). -/
def dollarFreeFM (m : PostFrontmatter) : Bool :=
  (match m.title with | some t => decide ('$' ∉ t) | none => true) &&
  (match m.slug with | some s => decide ('$' ∉ s) | none => true) &&
  (match m.excerpt with | some e => decide ('$' ∉ e) | none => true) &&
  (match m.date with | some d => decide ('$' ∉ d) | none => true) &&
  (match m.categories with | some cs => cs.all (fun c => decide ('$' ∉ c)) | none => true) &&
  (match m.tags with | some ts => ts.all (fun t => decide ('$' ∉ t)) | none => true)

/-- The frontmatter with the remote URL dropped (the codec never serializes
or parses it). -/
def eraseUrl (m : PostFrontmatter) : PostFrontmatter := { m with wp_post_url := none }

/-- Escaping is the identity on quote-free strings. -/
theorem escapeYamlString_id (s : Str) (h : '"' ∉ s) : escapeYamlString s = s := by
  induction s with
  | nil => rfl
  | cons c rest ih =>
    simp only [List.mem_cons, not_or] at h
    unfold escapeYamlString at ih ⊢
    rw [List.flatMap_cons, if_neg (fun hc : c = '"' => h.1 hc.symm), ih h.2]
    rfl

/-- Reduction of `stripOuterQuotes` on a string starting with a double quote. -/
theorem stripOuterQuotes_cons_quote (r : Str) :
    stripOuterQuotes ('"' :: r) =
      (match r.getLast? with
       | some c => if c = '"' ∨ c = squote then r.dropLast else r
       | none => []) := rfl

/-- Side conditions of the quoted serialized value. -/
theorem quotedV_side (t : Str) (hb : benignQuotedV t = true) :
    ('"' :: (t ++ ['"'])).takeWhile isSpaceJS = [] ∧
    linetermFree ('"' :: (t ++ ['"'])) = true ∧
    trimJS ('"' :: (t ++ ['"'])) = '"' :: (t ++ ['"']) ∧
    ('"' :: (t ++ ['"'])) ≠ [] ∧ ('"' :: (t ++ ['"'])) ≠ S "[]" ∧
    inlineArrayMid ('"' :: (t ++ ['"'])) = none ∧
    stripOuterQuotes ('"' :: (t ++ ['"'])) = t := by
  have hlt : ∀ x ∈ t, isLineTerm x = false := by
    have h1 : linetermFree t = true := by
      unfold benignQuotedV at hb
      simp only [Bool.and_eq_true] at hb
      exact hb.1
    simp only [linetermFree, List.all_eq_true, decide_eq_true_eq] at h1
    exact fun x hx => Bool.eq_false_iff.mpr (h1 x hx)
  refine ⟨?_, ?_, ?_, ?_, ?_, ?_, ?_⟩
  · rw [List.takeWhile_cons_of_neg (by decide)]
  · simp only [linetermFree, List.all_cons, List.all_append, List.all_eq_true,
      decide_eq_true_eq, Bool.and_eq_true]
    refine ⟨by decide, ⟨fun x hx => by simp [hlt x hx], by decide⟩⟩
  · refine trimJS_eq_self_of_ends _ (fun c hc => ?_) (fun c hc => ?_)
    · have : c = '"' := (by simpa using hc : ('"':Char) = c).symm
      subst this
      decide
    · have h1 : ('"' :: (t ++ ['"'])).getLast? = some '"' := by
        rw [show ('"' :: (t ++ ['"'])) = ('"' :: t) ++ ['"'] from by simp,
          List.getLast?_concat]
      rw [h1] at hc
      have : c = '"' := (by simpa using hc : ('"':Char) = c).symm
      subst this
      decide
  · simp
  · intro h
    have := (List.cons.inj h).1
    exact absurd this (by decide)
  · exact inlineArrayMid_none_of_head _ (by simp)
  · rw [stripOuterQuotes_cons_quote, List.getLast?_concat]
    rw [show (match (some '"' : Option Char) with
       | some c => if c = '"' ∨ c = squote then (t ++ ['"']).dropLast else t ++ ['"']
       | none => ([] : Str)) =
        if ('"':Char) = '"' ∨ ('"':Char) = squote then (t ++ ['"']).dropLast else t ++ ['"'] from rfl]
    rw [if_pos (Or.inl rfl), List.dropLast_concat]

/-- Side conditions of the unquoted serialized scalar value. -/
theorem scalarV_side (s : Str) (hb : benignScalarV s = true) :
    s.takeWhile isSpaceJS = [] ∧ linetermFree s = true ∧ trimJS s = s ∧
    s ≠ [] ∧ s ≠ S "[]" ∧ inlineArrayMid s = none ∧ stripOuterQuotes s = s := by
  unfold benignScalarV at hb
  simp only [Bool.and_eq_true, decide_eq_true_eq] at hb
  obtain ⟨⟨⟨⟨⟨hne, hlt⟩, hsp⟩, htr⟩, hsq⟩, hhd⟩ := hb
  refine ⟨hsp, hlt, htr, hne, ?_, inlineArrayMid_none_of_head _ hhd, hsq⟩
  intro h
  subst h
  exact hhd rfl

/-- Processing the serialized title line. -/
theorem parseLine_title (res : PostFrontmatter) (ck : Str) (vals : List Str) (t : Str)
    (hb : benignQuotedV t = true) :
    parseLine ⟨res, ck, false, vals⟩ (S "title" ++ ':' :: ' ' :: ('"' :: (t ++ ['"']))) =
      ⟨{ res with title := some t }, S "title", false, vals⟩ := by
  obtain ⟨hsp, hlt, htr, hne, hnb, hia, hsq⟩ := quotedV_side t hb
  have h2 := parseLine_scalar_noarr res ck vals (S "title" ++ ':' :: ' ' :: ('"' :: (t ++ ['"'])))
    (S "title") ('"' :: (t ++ ['"']))
    (trimJS_ne_nil_of_head 't' _ (by decide))
    (itemMatch_none_of_head 't' _ (by decide))
    (kvMatch_key_sp (S "title") ('"' :: (t ++ ['"'])) (by decide) (by decide) hsp hlt)
    htr hne hnb hia
  rw [h2, hsq]
  rfl

/-- Processing the serialized excerpt line. -/
theorem parseLine_excerpt (res : PostFrontmatter) (ck : Str) (vals : List Str) (t : Str)
    (hb : benignQuotedV t = true) :
    parseLine ⟨res, ck, false, vals⟩ (S "excerpt" ++ ':' :: ' ' :: ('"' :: (t ++ ['"']))) =
      ⟨{ res with excerpt := some t }, S "excerpt", false, vals⟩ := by
  obtain ⟨hsp, hlt, htr, hne, hnb, hia, hsq⟩ := quotedV_side t hb
  have h2 := parseLine_scalar_noarr res ck vals (S "excerpt" ++ ':' :: ' ' :: ('"' :: (t ++ ['"'])))
    (S "excerpt") ('"' :: (t ++ ['"']))
    (trimJS_ne_nil_of_head 'e' _ (by decide))
    (itemMatch_none_of_head 'e' _ (by decide))
    (kvMatch_key_sp (S "excerpt") ('"' :: (t ++ ['"'])) (by decide) (by decide) hsp hlt)
    htr hne hnb hia
  rw [h2, hsq]
  rfl

/-- Processing the serialized slug line. -/
theorem parseLine_slug (res : PostFrontmatter) (ck : Str) (vals : List Str) (s0 : Str)
    (hb : benignScalarV s0 = true) :
    parseLine ⟨res, ck, false, vals⟩ (S "slug" ++ ':' :: ' ' :: s0) =
      ⟨{ res with slug := some s0 }, S "slug", false, vals⟩ := by
  obtain ⟨hsp, hlt, htr, hne, hnb, hia, hsq⟩ := scalarV_side s0 hb
  have h2 := parseLine_scalar_noarr res ck vals (S "slug" ++ ':' :: ' ' :: s0)
    (S "slug") s0
    (trimJS_ne_nil_of_head 's' _ (by decide))
    (itemMatch_none_of_head 's' _ (by decide))
    (kvMatch_key_sp (S "slug") s0 (by decide) (by decide) hsp hlt)
    htr hne hnb hia
  rw [h2, hsq]
  rfl

/-- Processing the serialized date line. -/
theorem parseLine_date (res : PostFrontmatter) (ck : Str) (vals : List Str) (s0 : Str)
    (hb : benignScalarV s0 = true) :
    parseLine ⟨res, ck, false, vals⟩ (S "date" ++ ':' :: ' ' :: s0) =
      ⟨{ res with date := some s0 }, S "date", false, vals⟩ := by
  obtain ⟨hsp, hlt, htr, hne, hnb, hia, hsq⟩ := scalarV_side s0 hb
  have h2 := parseLine_scalar_noarr res ck vals (S "date" ++ ':' :: ' ' :: s0)
    (S "date") s0
    (trimJS_ne_nil_of_head 'd' _ (by decide))
    (itemMatch_none_of_head 'd' _ (by decide))
    (kvMatch_key_sp (S "date") s0 (by decide) (by decide) hsp hlt)
    htr hne hnb hia
  rw [h2, hsq]
  rfl

/-- `stripOuterQuotes` is the identity when neither end is a quote. -/
theorem stripOuterQuotes_eq_self (s : Str)
    (hh : ∀ c, s.head? = some c → c ≠ '"' ∧ c ≠ squote)
    (hl : ∀ c, s.getLast? = some c → c ≠ '"' ∧ c ≠ squote) :
    stripOuterQuotes s = s := by
  cases s with
  | nil => rfl
  | cons c r =>
    have hc := hh c rfl
    have e1 : stripOuterQuotes (c :: r) =
        (match (c :: r).getLast? with
         | some d => if d = '"' ∨ d = squote then (c :: r).dropLast else c :: r
         | none => []) := by
      unfold stripOuterQuotes
      simp only [if_neg (show ¬(c = '"' ∨ c = squote) from by simp [hc.1, hc.2])]
    rw [e1]
    cases hlast : (c :: r).getLast? with
    | none => simp at hlast
    | some d =>
      have hd := hl d hlast
      simp [hd.1, hd.2]

/-- Processing the serialized status line. -/
theorem parseLine_status (res : PostFrontmatter) (ck : Str) (vals : List Str) (st : PostStatus) :
    parseLine ⟨res, ck, false, vals⟩ (S "status" ++ ':' :: ' ' :: statusStr st) =
      ⟨{ res with status := some st }, S "status", false, vals⟩ := by
  cases st
  case draft =>
    exact parseLine_scalar_noarr res ck vals
      (S "status" ++ ':' :: ' ' :: S "draft") (S "status") (S "draft")
      (trimJS_ne_nil_of_head 's' _ (by decide))
      (itemMatch_none_of_head 's' _ (by decide))
      (by decide) (by decide) (by decide) (by decide) (by decide)
  case publish =>
    exact parseLine_scalar_noarr res ck vals
      (S "status" ++ ':' :: ' ' :: S "publish") (S "status") (S "publish")
      (trimJS_ne_nil_of_head 's' _ (by decide))
      (itemMatch_none_of_head 's' _ (by decide))
      (by decide) (by decide) (by decide) (by decide) (by decide)
  case priv =>
    exact parseLine_scalar_noarr res ck vals
      (S "status" ++ ':' :: ' ' :: S "private") (S "status") (S "private")
      (trimJS_ne_nil_of_head 's' _ (by decide))
      (itemMatch_none_of_head 's' _ (by decide))
      (by decide) (by decide) (by decide) (by decide) (by decide)
  case future =>
    exact parseLine_scalar_noarr res ck vals
      (S "status" ++ ':' :: ' ' :: S "future") (S "status") (S "future")
      (trimJS_ne_nil_of_head 's' _ (by decide))
      (itemMatch_none_of_head 's' _ (by decide))
      (by decide) (by decide) (by decide) (by decide) (by decide)

/-- Processing the serialized post-id line. -/
theorem parseLine_wpid (res : PostFrontmatter) (ck : Str) (vals : List Str) (i : Int) :
    parseLine ⟨res, ck, false, vals⟩ (S "wp_post_id" ++ ':' :: ' ' :: intToStr i) =
      ⟨{ res with wp_post_id := some i }, S "wp_post_id", false, vals⟩ := by
  obtain ⟨hne, hfacts⟩ := intToStr_facts i
  have hsp : (intToStr i).takeWhile isSpaceJS = [] := by
    cases hv : intToStr i with
    | nil => rfl
    | cons c r =>
      rw [List.takeWhile_cons_of_neg]
      simp [(hfacts c (by simp [hv])).2.1]
  have hlt : linetermFree (intToStr i) = true := by
    simp only [linetermFree, List.all_eq_true, decide_eq_true_eq]
    intro c hc
    simp [(hfacts c hc).1]
  have htr : trimJS (intToStr i) = intToStr i := by
    refine trimJS_eq_self_of_ends _ (fun c hc => ?_) (fun c hc => ?_)
    · exact (hfacts c (List.mem_of_mem_head? hc)).2.1
    · exact (hfacts c (List.mem_of_mem_getLast? hc)).2.1
  have hsq : stripOuterQuotes (intToStr i) = intToStr i := by
    refine stripOuterQuotes_eq_self _ (fun c hc => ?_) (fun c hc => ?_)
    · have h4 := hfacts c (List.mem_of_mem_head? hc)
      exact ⟨h4.2.2.1, h4.2.2.2.1⟩
    · have h4 := hfacts c (List.mem_of_mem_getLast? hc)
      exact ⟨h4.2.2.1, h4.2.2.2.1⟩
  have hnb : intToStr i ≠ S "[]" := by
    intro h
    cases hv : intToStr i with
    | nil => exact absurd hv hne
    | cons c r =>
      rw [hv] at h
      exact absurd (List.cons.inj h).1 (hfacts c (by simp [hv])).2.2.2.2.1
  have hia : inlineArrayMid (intToStr i) = none := by
    refine inlineArrayMid_none_of_head _ ?_
    cases hv : intToStr i with
    | nil => simp
    | cons c r =>
      simp only [List.head?_cons]
      exact fun h => (hfacts c (by simp [hv])).2.2.2.2.1 (by injection h)
  have h2 := parseLine_scalar_noarr res ck vals (S "wp_post_id" ++ ':' :: ' ' :: intToStr i)
    (S "wp_post_id") (intToStr i)
    (trimJS_ne_nil_of_head 'w' _ (by decide))
    (itemMatch_none_of_head 'w' _ (by decide))
    (kvMatch_key_sp (S "wp_post_id") (intToStr i) (by decide) (by decide) hsp hlt)
    htr hne hnb hia
  rw [h2, hsq]
  have h3 : setSingleValue res (toLowerStr (S "wp_post_id")) (intToStr i) =
      { res with wp_post_id := some i } := by
    rw [show toLowerStr (S "wp_post_id") = S "wp_post_id" from rfl]
    unfold setSingleValue
    rw [if_neg (by decide), if_neg (by decide), if_neg (by decide), if_neg (by decide),
      if_neg (by decide), if_pos rfl, parseIntJS_intToStr]
  rw [h3]
  rfl

/-- The item-marker match on a serialized `  - item` line. -/
theorem itemMatch_item (i : Str) (hsp : i.takeWhile isSpaceJS = []) :
    itemMatch (S "  - " ++ i) = some i := by
  unfold itemMatch
  have h1 : (S "  - " ++ i).takeWhile isSpaceJS = [' ', ' '] := by
    show (' ' :: ' ' :: '-' :: ' ' :: i).takeWhile isSpaceJS = _
    rw [List.takeWhile_cons_of_pos (by decide), List.takeWhile_cons_of_pos (by decide),
      List.takeWhile_cons_of_neg (by decide)]
  have h2 : (S "  - " ++ i).drop 2 = '-' :: ' ' :: i := rfl
  have h3 : (' ' :: i).takeWhile isSpaceJS = [' '] := by
    rw [List.takeWhile_cons_of_pos (by decide), hsp]
  simp [h1, h2, h3]

/-- A serialized item line never trims to empty (it contains the dash). -/
theorem itemLine_trim_ne (i : Str) : trimJS (S "  - " ++ i) ≠ [] := by
  intro h
  have := (trimJS_eq_nil_iff _).mp h '-' (by
    show '-' ∈ ' ' :: ' ' :: '-' :: ' ' :: i
    simp)
  exact absurd this (by decide)

/-- Processing a run of serialized item lines accumulates the items. -/
theorem parseLines_items (res : PostFrontmatter) (key : Str) (acc : List Str)
    (items : List Str) (hkey : key ≠ [])
    (hb : ∀ i ∈ items, benignItemV i = true) :
    (items.map (fun i => S "  - " ++ i)).foldl parseLine ⟨res, key, true, acc⟩ =
      ⟨res, key, true, acc ++ items⟩ := by
  induction items generalizing acc with
  | nil => simp
  | cons i rest ih =>
    have hbi := hb i (by simp)
    unfold benignItemV at hbi
    simp only [Bool.and_eq_true, decide_eq_true_eq] at hbi
    obtain ⟨⟨⟨hnl, hsp⟩, htr⟩, hsq⟩ := hbi
    rw [List.map_cons, List.foldl_cons,
      parseLine_item res key acc _ i hkey (itemLine_trim_ne i) (itemMatch_item i hsp),
      htr, hsq, ih _ (fun x hx => hb x (by simp [hx]))]
    simp

/-- Processing the `categories:` opener from a state not inside an array. -/
theorem parseLine_catkey_noarr (res : PostFrontmatter) (ck : Str) (vals : List Str) :
    parseLine ⟨res, ck, false, vals⟩ (S "categories:") = ⟨res, S "categories", true, []⟩ := by
  have h := parseLine_arrkey_noarr res ck vals (S "categories:") (S "categories") []
    (by decide) (by decide) (by decide) rfl
  exact h

/-- Processing the `tags:` opener from a state not inside an array. -/
theorem parseLine_tagkey_noarr (res : PostFrontmatter) (ck : Str) (vals : List Str) :
    parseLine ⟨res, ck, false, vals⟩ (S "tags:") = ⟨res, S "tags", true, []⟩ := by
  have h := parseLine_arrkey_noarr res ck vals (S "tags:") (S "tags") []
    (by decide) (by decide) (by decide) rfl
  exact h

/-- Processing the `tags:` opener while a non-empty categories block is
open: the categories are flushed. -/
theorem parseLine_tagkey_flush (res : PostFrontmatter) (acc : List Str) (hacc : acc ≠ []) :
    parseLine ⟨res, S "categories", true, acc⟩ (S "tags:") =
      ⟨{ res with categories := some acc }, S "tags", true, []⟩ := by
  have h := parseLine_arrkey_flush res (S "categories") acc (S "tags:") (S "tags") []
    (by decide) hacc (by decide) (by decide) (by decide) rfl
  rw [h]
  rfl

/-- The serialized title group (zero or one line). -/
theorem titleGroup (mt : Option Str)
    (hb : (match mt with | some t => benignQuotedV t | none => true) = true)
    (res : PostFrontmatter) (ck : Str) (vals : List Str) :
    ∃ ck2, ((match mt with
      | some t => [S "title: \"" ++ escapeYamlString t ++ S "\""]
      | none => []) : List Str).foldl parseLine ⟨res, ck, false, vals⟩ =
      ⟨{ res with title := mt <|> res.title }, ck2, false, vals⟩ := by
  cases mt with
  | none => exact ⟨ck, rfl⟩
  | some t =>
    refine ⟨S "title", ?_⟩
    have hq : '"' ∉ t := by
      unfold benignQuotedV at hb
      simp only [Bool.and_eq_true, decide_eq_true_eq] at hb
      exact hb.2
    have hline : S "title: \"" ++ escapeYamlString t ++ S "\"" =
        S "title" ++ ':' :: ' ' :: ('"' :: (t ++ ['"'])) := by
      rw [escapeYamlString_id t hq]
      exact rfl
    simp only [List.foldl_cons, List.foldl_nil]
    rw [hline, parseLine_title res ck vals t hb]
    rfl

/-- The serialized slug group. -/
theorem slugGroup (ms : Option Str)
    (hb : (match ms with | some s => benignScalarV s | none => true) = true)
    (res : PostFrontmatter) (ck : Str) (vals : List Str) :
    ∃ ck2, ((match ms with
      | some s => [S "slug: " ++ s]
      | none => []) : List Str).foldl parseLine ⟨res, ck, false, vals⟩ =
      ⟨{ res with slug := ms <|> res.slug }, ck2, false, vals⟩ := by
  cases ms with
  | none => exact ⟨ck, rfl⟩
  | some s =>
    refine ⟨S "slug", ?_⟩
    have hline : S "slug: " ++ s = S "slug" ++ ':' :: ' ' :: s := rfl
    simp only [List.foldl_cons, List.foldl_nil]
    rw [hline, parseLine_slug res ck vals s hb]
    rfl

/-- The serialized status group. -/
theorem statusGroup (mst : Option PostStatus)
    (res : PostFrontmatter) (ck : Str) (vals : List Str) :
    ∃ ck2, ((match mst with
      | some st => [S "status: " ++ statusStr st]
      | none => []) : List Str).foldl parseLine ⟨res, ck, false, vals⟩ =
      ⟨{ res with status := mst <|> res.status }, ck2, false, vals⟩ := by
  cases mst with
  | none => exact ⟨ck, rfl⟩
  | some st =>
    refine ⟨S "status", ?_⟩
    have hline : S "status: " ++ statusStr st = S "status" ++ ':' :: ' ' :: statusStr st := rfl
    simp only [List.foldl_cons, List.foldl_nil]
    rw [hline, parseLine_status res ck vals st]
    rfl

/-- The serialized excerpt group. -/
theorem excerptGroup (me : Option Str)
    (hb : (match me with | some e => benignQuotedV e | none => true) = true)
    (res : PostFrontmatter) (ck : Str) (vals : List Str) :
    ∃ ck2, ((match me with
      | some e => [S "excerpt: \"" ++ escapeYamlString e ++ S "\""]
      | none => []) : List Str).foldl parseLine ⟨res, ck, false, vals⟩ =
      ⟨{ res with excerpt := me <|> res.excerpt }, ck2, false, vals⟩ := by
  cases me with
  | none => exact ⟨ck, rfl⟩
  | some e =>
    refine ⟨S "excerpt", ?_⟩
    have hq : '"' ∉ e := by
      unfold benignQuotedV at hb
      simp only [Bool.and_eq_true, decide_eq_true_eq] at hb
      exact hb.2
    have hline : S "excerpt: \"" ++ escapeYamlString e ++ S "\"" =
        S "excerpt" ++ ':' :: ' ' :: ('"' :: (e ++ ['"'])) := by
      rw [escapeYamlString_id e hq]
      exact rfl
    simp only [List.foldl_cons, List.foldl_nil]
    rw [hline, parseLine_excerpt res ck vals e hb]
    rfl

/-- The serialized date group. -/
theorem dateGroup (md : Option Str)
    (hb : (match md with | some d => benignScalarV d | none => true) = true)
    (res : PostFrontmatter) (ck : Str) (vals : List Str) :
    ∃ ck2, ((match md with
      | some d => [S "date: " ++ d]
      | none => []) : List Str).foldl parseLine ⟨res, ck, false, vals⟩ =
      ⟨{ res with date := md <|> res.date }, ck2, false, vals⟩ := by
  cases md with
  | none => exact ⟨ck, rfl⟩
  | some d =>
    refine ⟨S "date", ?_⟩
    have hline : S "date: " ++ d = S "date" ++ ':' :: ' ' :: d := rfl
    simp only [List.foldl_cons, List.foldl_nil]
    rw [hline, parseLine_date res ck vals d hb]
    rfl

/-- The serialized post-id group. -/
theorem wpidGroup (mi : Option Int)
    (res : PostFrontmatter) (ck : Str) (vals : List Str) :
    ∃ ck2, ((match mi with
      | some i => [S "wp_post_id: " ++ intToStr i]
      | none => []) : List Str).foldl parseLine ⟨res, ck, false, vals⟩ =
      ⟨{ res with wp_post_id := mi <|> res.wp_post_id }, ck2, false, vals⟩ := by
  cases mi with
  | none => exact ⟨ck, rfl⟩
  | some i =>
    refine ⟨S "wp_post_id", ?_⟩
    have hline : S "wp_post_id: " ++ intToStr i = S "wp_post_id" ++ ':' :: ' ' :: intToStr i := rfl
    simp only [List.foldl_cons, List.foldl_nil]
    rw [hline, parseLine_wpid res ck vals i]
    rfl

theorem orElse_none_eq {α : Type} (x : Option α) : (x <|> none) = x := by cases x <;> rfl

theorem parseLines_yaml (m : PostFrontmatter) (hb : benignFM m = true) :
    finishPS ((generateYamlLines m).foldl parseLine initPS) = eraseUrl m := by
  obtain ⟨mt, ms, mst, mc, mg, me, md, mi, mu⟩ := m
  unfold benignFM at hb
  simp only [Bool.and_eq_true] at hb
  obtain ⟨⟨⟨⟨⟨hbt, hbs⟩, hbe⟩, hbd⟩, hbc⟩, hbg⟩ := hb
  unfold generateYamlLines
  simp only []
  rw [List.foldl_append, List.foldl_append, List.foldl_append, List.foldl_append,
    List.foldl_append, List.foldl_append, List.foldl_append]
  rw [show initPS = (⟨{}, [], false, []⟩ : ParseState) from rfl]
  obtain ⟨ck1, h1⟩ := titleGroup mt hbt {} [] []
  rw [h1]
  obtain ⟨ck2, h2⟩ := slugGroup ms hbs _ ck1 []
  rw [h2]
  obtain ⟨ck3, h3⟩ := statusGroup mst _ ck2 []
  rw [h3]
  obtain ⟨ck4, h4⟩ := excerptGroup me hbe _ ck3 []
  rw [h4]
  obtain ⟨ck5, h5⟩ := dateGroup md hbd _ ck4 []
  rw [h5]
  obtain ⟨ck6, h6⟩ := wpidGroup mi _ ck5 []
  rw [h6]
  simp only [orElse_none_eq]
  cases mc with
  | none =>
    cases mg with
    | none => simp [finishPS, eraseUrl]
    | some ts =>
      simp only [Bool.and_eq_true, decide_eq_true_eq] at hbg
      obtain ⟨hts, hbts⟩ := hbg
      simp only []
      rw [if_pos hts]
      simp only [List.foldl_nil, List.foldl_cons]
      rw [parseLine_tagkey_noarr, parseLines_items _ _ _ ts (by decide)
        (fun i hi => by
          have := List.all_eq_true.mp hbts i hi
          exact this)]
      simp only [List.nil_append]
      unfold finishPS
      rw [if_pos ⟨rfl, List.cons_ne_nil _ _, hts⟩]
      simp only [setArrayValue, if_neg (by decide : ¬S "tags" = S "categories"),
        if_pos (rfl : S "tags" = S "tags")]
      simp [eraseUrl]
  | some cs =>
    simp only [Bool.and_eq_true, decide_eq_true_eq] at hbc
    obtain ⟨hcs, hbcs⟩ := hbc
    simp only []
    rw [if_pos hcs]
    simp only [List.foldl_cons]
    rw [parseLine_catkey_noarr, parseLines_items _ _ _ cs (by decide)
      (fun i hi => by
        have := List.all_eq_true.mp hbcs i hi
        exact this)]
    simp only [List.nil_append]
    cases mg with
    | none =>
      simp only [List.foldl_nil]
      unfold finishPS
      rw [if_pos ⟨rfl, List.cons_ne_nil _ _, hcs⟩]
      simp [eraseUrl, setArrayValue]
    | some ts =>
      simp only [Bool.and_eq_true, decide_eq_true_eq] at hbg
      obtain ⟨hts, hbts⟩ := hbg
      simp only []
      rw [if_pos hts]
      simp only [List.foldl_cons]
      rw [parseLine_tagkey_flush _ _ hcs, parseLines_items _ _ _ ts (by decide)
        (fun i hi => by
          have := List.all_eq_true.mp hbts i hi
          exact this)]
      simp only [List.nil_append]
      unfold finishPS
      rw [if_pos ⟨rfl, List.cons_ne_nil _ _, hts⟩]
      simp only [setArrayValue, if_neg (by decide : ¬S "tags" = S "categories"),
        if_pos (rfl : S "tags" = S "tags")]
      simp [eraseUrl]

theorem fmSplit_wrap (X : Str) : fmSplit (S "---\n" ++ X) = splitFirstInfix (S "\n---") X := rfl

theorem generateYamlLines_shape (m : PostFrontmatter) (hb : benignFM m = true) :
    ∀ l ∈ generateYamlLines m, '\n' ∉ l ∧ l.head? ≠ some '-' := by
  obtain ⟨mt, ms, mst, mc, mg, me, md, mi, mu⟩ := m
  unfold benignFM at hb
  simp only [Bool.and_eq_true] at hb
  obtain ⟨⟨⟨⟨⟨hbt, hbs⟩, hbe⟩, hbd⟩, hbc⟩, hbg⟩ := hb
  intro l hl
  unfold generateYamlLines at hl
  simp only [List.mem_append] at hl
  rcases hl with ((((((h | h) | h) | h) | h) | h) | h) | h
  · cases mt with
    | none => simp at h
    | some t =>
      simp only [List.mem_singleton] at h
      subst h
      simp only at hbt
      unfold benignQuotedV at hbt
      simp only [Bool.and_eq_true, decide_eq_true_eq] at hbt
      obtain ⟨hlt, hq⟩ := hbt
      rw [escapeYamlString_id t hq]
      constructor
      · intro hc
        simp only [List.mem_append] at hc
        rcases hc with (hc | hc) | hc
        · exact absurd hc (by decide)
        · exact absurd hc (no_newline_of_linetermFree t hlt)
        · exact absurd hc (by decide)
      · simp [S]
  · cases ms with
    | none => simp at h
    | some s =>
      simp only [List.mem_singleton] at h
      subst h
      simp only at hbs
      unfold benignScalarV at hbs
      simp only [Bool.and_eq_true, decide_eq_true_eq] at hbs
      constructor
      · intro hc
        simp only [List.mem_append] at hc
        rcases hc with hc | hc
        · exact absurd hc (by decide)
        · exact absurd hc (no_newline_of_linetermFree s hbs.1.1.1.1.2)
      · simp [S]
  · cases mst with
    | none => simp at h
    | some st =>
      simp only [List.mem_singleton] at h
      subst h
      cases st <;> exact ⟨by decide, by decide⟩
  · cases me with
    | none => simp at h
    | some e =>
      simp only [List.mem_singleton] at h
      subst h
      simp only at hbe
      unfold benignQuotedV at hbe
      simp only [Bool.and_eq_true, decide_eq_true_eq] at hbe
      obtain ⟨hle, hq⟩ := hbe
      rw [escapeYamlString_id e hq]
      constructor
      · intro hc
        simp only [List.mem_append] at hc
        rcases hc with (hc | hc) | hc
        · exact absurd hc (by decide)
        · exact absurd hc (no_newline_of_linetermFree e hle)
        · exact absurd hc (by decide)
      · simp [S]
  · cases md with
    | none => simp at h
    | some d =>
      simp only [List.mem_singleton] at h
      subst h
      simp only at hbd
      unfold benignScalarV at hbd
      simp only [Bool.and_eq_true, decide_eq_true_eq] at hbd
      constructor
      · intro hc
        simp only [List.mem_append] at hc
        rcases hc with hc | hc
        · exact absurd hc (by decide)
        · exact absurd hc (no_newline_of_linetermFree d hbd.1.1.1.1.2)
      · simp [S]
  · cases mi with
    | none => simp at h
    | some i =>
      simp only [List.mem_singleton] at h
      subst h
      constructor
      · intro hc
        simp only [List.mem_append] at hc
        rcases hc with hc | hc
        · exact absurd hc (by decide)
        · exact absurd (((intToStr_facts i).2 '\n' hc).2.2.2.2.2.2.1) (by simp)
      · simp [S]
  · cases mc with
    | none => simp at h
    | some cs =>
      simp only at hbc h
      simp only [Bool.and_eq_true, decide_eq_true_eq] at hbc
      obtain ⟨hcs, hbcs⟩ := hbc
      rw [if_pos hcs] at h
      rcases List.mem_cons.mp h with h | h
      · subst h
        exact ⟨by decide, by decide⟩
      · obtain ⟨c, hcmem, hc⟩ := List.mem_map.mp h
        subst hc
        have hbi := List.all_eq_true.mp hbcs c hcmem
        unfold benignItemV at hbi
        simp only [Bool.and_eq_true, decide_eq_true_eq] at hbi
        constructor
        · intro hc2
          simp only [List.mem_append] at hc2
          rcases hc2 with hc2 | hc2
          · exact absurd hc2 (by decide)
          · exact absurd hc2 hbi.1.1.1
        · simp [S]
  · cases mg with
    | none => simp at h
    | some ts =>
      simp only at hbg h
      simp only [Bool.and_eq_true, decide_eq_true_eq] at hbg
      obtain ⟨hts, hbts⟩ := hbg
      rw [if_pos hts] at h
      rcases List.mem_cons.mp h with h | h
      · subst h
        exact ⟨by decide, by decide⟩
      · obtain ⟨t, htmem, ht⟩ := List.mem_map.mp h
        subst ht
        have hbi := List.all_eq_true.mp hbts t htmem
        unfold benignItemV at hbi
        simp only [Bool.and_eq_true, decide_eq_true_eq] at hbi
        constructor
        · intro hc2
          simp only [List.mem_append] at hc2
          rcases hc2 with hc2 | hc2
          · exact absurd hc2 (by decide)
          · exact absurd hc2 hbi.1.1.1
        · simp [S]

theorem yamlLines_nil (m : PostFrontmatter) (hb : benignFM m = true)
    (h : generateYamlLines m = []) : eraseUrl m = {} := by
  obtain ⟨mt, ms, mst, mc, mg, me, md, mi, mu⟩ := m
  unfold benignFM at hb
  simp only [Bool.and_eq_true] at hb
  obtain ⟨⟨⟨⟨⟨hbt, hbs⟩, hbe⟩, hbd⟩, hbc⟩, hbg⟩ := hb
  unfold generateYamlLines at h
  simp only [List.append_eq_nil] at h
  obtain ⟨⟨⟨⟨⟨⟨⟨h1, h2⟩, h3⟩, h4⟩, h5⟩, h6⟩, h7⟩, h8⟩ := h
  have ht : mt = none := by cases mt with | none => rfl | some t => simp at h1
  have hs : ms = none := by cases ms with | none => rfl | some s => simp at h2
  have hst : mst = none := by cases mst with | none => rfl | some st => simp at h3
  have he : me = none := by cases me with | none => rfl | some e => simp at h4
  have hd : md = none := by cases md with | none => rfl | some d => simp at h5
  have hi : mi = none := by cases mi with | none => rfl | some i => simp at h6
  have hc : mc = none := by
    cases mc with
    | none => rfl
    | some cs =>
      simp only [Bool.and_eq_true, decide_eq_true_eq] at hbc
      simp [hbc.1] at h7
  have hg : mg = none := by
    cases mg with
    | none => rfl
    | some ts =>
      simp only [Bool.and_eq_true, decide_eq_true_eq] at hbg
      simp [hbg.1] at h8
  subst ht hs hst he hd hi hc hg
  rfl

theorem parse_wrap_benign (m : PostFrontmatter) (hb : benignFM m = true) :
    parseFrontmatter (S "---\n" ++ generateYaml m ++ S "---") = eraseUrl m := by
  have hshape := generateYamlLines_shape m hb
  unfold parseFrontmatter
  by_cases hls : generateYamlLines m = []
  · rw [show generateYaml m = [] from by unfold generateYaml; simp [hls]]
    rw [(yamlLines_nil m hb hls : eraseUrl m = {})]
    rfl
  · rw [show generateYaml m = joinChar '\n' (generateYamlLines m) ++ ['\n'] from by
      unfold generateYaml; simp [hls]]
    rw [List.append_assoc, fmSplit_wrap, List.append_assoc]
    rw [show (['\n'] : Str) ++ S "---" = S "\n---" ++ ([] : Str) from rfl]
    rw [splitFirstInfix_join _ [] hls hshape]
    simp only []
    rw [splitOnChar_joinChar _ _ hls (fun l hl => (hshape l hl).1)]
    exact parseLines_yaml m hb

theorem orElse_self_eq {α : Type} (x : Option α) : (x <|> x) = x := by cases x <;> rfl

theorem mergeFM_eraseUrl_self (p : PostFrontmatter) : mergeFM (eraseUrl p) p = p := by
  obtain ⟨mt, ms, mst, mc, mg, me, md, mi, mu⟩ := p
  simp [mergeFM, eraseUrl, orElse_self_eq, orElse_none_eq]

theorem expandDollar_id (matched suffix repl : Str) (h : '$' ∉ repl) :
    expandDollar matched suffix repl = repl := by
  induction repl with
  | nil => rfl
  | cons c rest ih =>
    cases rest with
    | nil => rfl
    | cons c2 r2 =>
      have hc : c ≠ '$' := fun he => h (he ▸ List.mem_cons_self c (c2 :: r2))
      have htl : '$' ∉ c2 :: r2 := fun hm => h (List.mem_cons_of_mem c hm)
      show expandDollar matched suffix (c :: c2 :: r2) = c :: c2 :: r2
      rw [show expandDollar matched suffix (c :: c2 :: r2) =
        if c = '$' then
          (if c2 = '$' then '$' :: expandDollar matched suffix r2
           else if c2 = '&' then matched ++ expandDollar matched suffix r2
           else if c2 = btick then expandDollar matched suffix r2
           else if c2 = squote then suffix ++ expandDollar matched suffix r2
           else c :: expandDollar matched suffix (c2 :: r2))
        else c :: expandDollar matched suffix (c2 :: r2) from rfl]
      rw [if_neg hc, ih htl]

theorem mem_joinChar (sep : Char) (ls : List Str) (c : Char) (h : c ∈ joinChar sep ls) :
    c = sep ∨ ∃ l ∈ ls, c ∈ l := by
  induction ls with
  | nil => simp [joinChar] at h
  | cons l rest ih =>
    cases rest with
    | nil =>
      right
      exact ⟨l, by simp, by simpa [joinChar] using h⟩
    | cons l2 r2 =>
      rw [show joinChar sep (l :: l2 :: r2) = l ++ sep :: joinChar sep (l2 :: r2) from rfl] at h
      rcases List.mem_append.mp h with h | h
      · exact Or.inr ⟨l, by simp, h⟩
      · rcases List.mem_cons.mp h with h | h
        · exact Or.inl h
        · rcases ih h with h | ⟨l3, hl3, hc3⟩
          · exact Or.inl h
          · exact Or.inr ⟨l3, by simp [hl3], hc3⟩

theorem generateYamlLines_dollarFree (m : PostFrontmatter) (hb : benignFM m = true)
    (hd : dollarFreeFM m = true) : ∀ l ∈ generateYamlLines m, '$' ∉ l := by
  obtain ⟨mt, ms, mst, mc, mg, me, md, mi, mu⟩ := m
  unfold benignFM at hb
  unfold dollarFreeFM at hd
  simp only [Bool.and_eq_true] at hb hd
  obtain ⟨⟨⟨⟨⟨hbt, hbs⟩, hbe⟩, hbd⟩, hbc⟩, hbg⟩ := hb
  obtain ⟨⟨⟨⟨⟨hdt, hds⟩, hde⟩, hdd⟩, hdc⟩, hdg⟩ := hd
  intro l hl
  unfold generateYamlLines at hl
  simp only [List.mem_append] at hl
  rcases hl with ((((((h | h) | h) | h) | h) | h) | h) | h
  · cases mt with
    | none => simp at h
    | some t =>
      simp only [List.mem_singleton] at h
      subst h
      simp only at hbt hdt
      unfold benignQuotedV at hbt
      simp only [Bool.and_eq_true, decide_eq_true_eq] at hbt hdt
      rw [escapeYamlString_id t hbt.2]
      intro hc
      simp only [List.mem_append] at hc
      rcases hc with (hc | hc) | hc
      · exact absurd hc (by decide)
      · exact absurd hc hdt
      · exact absurd hc (by decide)
  · cases ms with
    | none => simp at h
    | some s =>
      simp only [List.mem_singleton] at h
      subst h
      simp only at hds
      simp only [decide_eq_true_eq] at hds
      intro hc
      rcases List.mem_append.mp hc with hc | hc
      · exact absurd hc (by decide)
      · exact absurd hc hds
  · cases mst with
    | none => simp at h
    | some st =>
      simp only [List.mem_singleton] at h
      subst h
      cases st <;> decide
  · cases me with
    | none => simp at h
    | some e =>
      simp only [List.mem_singleton] at h
      subst h
      simp only at hbe hde
      unfold benignQuotedV at hbe
      simp only [Bool.and_eq_true, decide_eq_true_eq] at hbe hde
      rw [escapeYamlString_id e hbe.2]
      intro hc
      simp only [List.mem_append] at hc
      rcases hc with (hc | hc) | hc
      · exact absurd hc (by decide)
      · exact absurd hc hde
      · exact absurd hc (by decide)
  · cases md with
    | none => simp at h
    | some d =>
      simp only [List.mem_singleton] at h
      subst h
      simp only at hdd
      simp only [decide_eq_true_eq] at hdd
      intro hc
      rcases List.mem_append.mp hc with hc | hc
      · exact absurd hc (by decide)
      · exact absurd hc hdd
  · cases mi with
    | none => simp at h
    | some i =>
      simp only [List.mem_singleton] at h
      subst h
      intro hc
      rcases List.mem_append.mp hc with hc | hc
      · exact absurd hc (by decide)
      · exact absurd (((intToStr_facts i).2 '$' hc).2.2.2.2.2.2.2) (by simp)
  · cases mc with
    | none => simp at h
    | some cs =>
      simp only at hbc hdc h
      simp only [Bool.and_eq_true, decide_eq_true_eq] at hbc
      rw [if_pos hbc.1] at h
      rcases List.mem_cons.mp h with h | h
      · subst h; decide
      · obtain ⟨c, hcmem, hc⟩ := List.mem_map.mp h
        subst hc
        have := List.all_eq_true.mp hdc c hcmem
        simp only [decide_eq_true_eq] at this
        intro hc2
        rcases List.mem_append.mp hc2 with hc2 | hc2
        · exact absurd hc2 (by decide)
        · exact absurd hc2 this
  · cases mg with
    | none => simp at h
    | some ts =>
      simp only at hbg hdg h
      simp only [Bool.and_eq_true, decide_eq_true_eq] at hbg
      rw [if_pos hbg.1] at h
      rcases List.mem_cons.mp h with h | h
      · subst h; decide
      · obtain ⟨t, htmem, ht⟩ := List.mem_map.mp h
        subst ht
        have := List.all_eq_true.mp hdg t htmem
        simp only [decide_eq_true_eq] at this
        intro hc2
        rcases List.mem_append.mp hc2 with hc2 | hc2
        · exact absurd hc2 (by decide)
        · exact absurd hc2 this

theorem c5_support_idem (doc : Str) (p : PostFrontmatter) (hdoc : fmSplit doc = none)
    (hb : benignFM p = true) (hd : dollarFreeFM p = true)
    (hls : generateYamlLines p ≠ []) :
    updateFrontmatter (updateFrontmatter doc p) p = updateFrontmatter doc p := by
  have hshape := generateYamlLines_shape p hb
  have hg : generateYaml p = joinChar '\n' (generateYamlLines p) ++ ['\n'] := by
    unfold generateYaml; simp [hls]
  have hu1 : updateFrontmatter doc p = S "---\n" ++ generateYaml p ++ S "---\n\n" ++ doc := by
    unfold updateFrontmatter; rw [hdoc]
  rw [hu1]
  have hsplit1 : fmSplit (S "---\n" ++ generateYaml p ++ S "---\n\n" ++ doc) =
      some (joinChar '\n' (generateYamlLines p), S "\n\n" ++ doc) := by
    rw [hg, List.append_assoc, List.append_assoc, fmSplit_wrap, List.append_assoc]
    rw [show (['\n'] : Str) ++ (S "---\n\n" ++ doc) = S "\n---" ++ (S "\n\n" ++ doc) from rfl]
    exact splitFirstInfix_join _ _ hls hshape
  have hparse1 : parseFrontmatter (S "---\n" ++ generateYaml p ++ S "---\n\n" ++ doc) =
      eraseUrl p := by
    unfold parseFrontmatter
    rw [hsplit1]
    simp only []
    rw [splitOnChar_joinChar _ _ hls (fun l hl => (hshape l hl).1)]
    exact parseLines_yaml p hb
  have hdfree : '$' ∉ S "---\n" ++ generateYaml p ++ S "---" := by
    intro hc
    simp only [List.mem_append] at hc
    rcases hc with (hc | hc) | hc
    · exact absurd hc (by decide)
    · rw [hg] at hc
      rcases List.mem_append.mp hc with hc | hc
      · rcases mem_joinChar _ _ _ hc with hc | ⟨l, hl, hcl⟩
        · exact absurd hc (by decide)
        · exact absurd hcl (generateYamlLines_dollarFree p hb hd l hl)
      · exact absurd hc (by decide)
    · exact absurd hc (by decide)
  unfold updateFrontmatter
  rw [hsplit1]
  simp only []
  rw [hparse1, mergeFM_eraseUrl_self, expandDollar_id _ _ _ hdfree]
  simp only [List.append_assoc]
  rfl

/-- C4: the round-trip `parse(serialize(m)) == m` fails as stated: `wp_post_url`
is a recognized field but `generateYaml` never emits it, so a set whose only
defined field is `wp_post_url` serializes to an empty body and parses back
empty. -/
theorem c4_counterexample :
    parseFrontmatter (S "---\n" ++
        generateYaml { wp_post_url := some (S "https://example.com/post") } ++ S "---") ≠
      ({ wp_post_url := some (S "https://example.com/post") } : PostFrontmatter) := by
  decide

/-- C4 (amended): for a metadata set with benign values, non-empty lists and no
`wp_post_url`, parsing the serialized frontmatter block returns the set exactly. -/
theorem c4_roundtrip_benign (m : PostFrontmatter) (hb : benignFM m = true)
    (hu : m.wp_post_url = none) :
    parseFrontmatter (S "---\n" ++ generateYaml m ++ S "---") = m := by
  obtain ⟨mt, ms, mst, mc, mg, me, md, mi, mu⟩ := m
  have hu2 : mu = none := hu
  subst hu2
  exact parse_wrap_benign _ hb

theorem c4_roundtrip_benign_witness :
    parseFrontmatter (S "---\n" ++ generateYaml
      { title := some (S "My Post"), slug := some (S "my-post"),
        status := some PostStatus.publish, categories := some [S "news", S "tech"],
        tags := some [S "a"], excerpt := some (S "Short summary"),
        date := some (S "2024-01-02T10:00:00"), wp_post_id := some 42 } ++ S "---") =
      { title := some (S "My Post"), slug := some (S "my-post"),
        status := some PostStatus.publish, categories := some [S "news", S "tech"],
        tags := some [S "a"], excerpt := some (S "Short summary"),
        date := some (S "2024-01-02T10:00:00"), wp_post_id := some 42 } :=
  c4_roundtrip_benign _ (by decide) (by decide)

/-- C5: updating twice is not always the same as updating once: an update of a
document with no frontmatter and no updated fields writes the block
`---\n---` whose closing fence the frontmatter regex cannot see (it needs a
newline before `---`), so the second update prepends a second block. -/
theorem c5_counterexample :
    updateFrontmatter (updateFrontmatter [] {}) {} ≠ updateFrontmatter [] {} := by
  decide

/-- C5 (amended): for a document with no existing frontmatter and a benign,
dollar-free, non-trivial partial metadata set, the frontmatter update is
idempotent. -/
theorem c5_update_idempotent_fresh (doc : Str) (p : PostFrontmatter)
    (hdoc : fmSplit doc = none) (hb : benignFM p = true) (hd : dollarFreeFM p = true)
    (hls : generateYamlLines p ≠ []) :
    updateFrontmatter (updateFrontmatter doc p) p = updateFrontmatter doc p :=
  c5_support_idem doc p hdoc hb hd hls

theorem c5_update_idempotent_fresh_witness :
    updateFrontmatter (updateFrontmatter (S "hello world") { title := some (S "Hi") })
        { title := some (S "Hi") } =
      updateFrontmatter (S "hello world") { title := some (S "Hi") } :=
  c5_update_idempotent_fresh (S "hello world") { title := some (S "Hi") }
    (by decide) (by decide) (by decide) (by decide)

theorem buildPayload_status (deps : PublishDeps) (fm : PostFrontmatter)
    (t c : Str) (st : PostStatus) : (buildPayload deps fm t c st).status = st := by
  unfold buildPayload
  repeat' split
  all_goals rfl

theorem buildPayload_title (deps : PublishDeps) (fm : PostFrontmatter)
    (t c : Str) (st : PostStatus) : (buildPayload deps fm t c st).title = t := by
  unfold buildPayload
  repeat' split
  all_goals rfl

theorem buildPayload_date (deps : PublishDeps) (fm : PostFrontmatter)
    (t c : Str) (st : PostStatus) :
    (buildPayload deps fm t c st).date =
      (match fm.date with
       | some d => if d ≠ [] ∧ st = PostStatus.future then some d else none
       | none => none) := by
  unfold buildPayload
  repeat' split
  all_goals simp_all

theorem publish_guarded (deps : PublishDeps) (settings : PluginSettings) (file : TFileM)
    (content : Str) (ov : Option PostStatus)
    (h1 : settings.siteUrl ≠ []) (h2 : settings.username ≠ [])
    (h3 : settings.applicationPassword ≠ [])
    (hpub : isPublishable deps settings file = true) :
    publish deps settings file content ov = publishCore deps settings file content ov := by
  unfold publish
  rw [if_neg (fun h => h.elim h1 (fun h => h.elim h2 h3)), if_neg (not_not_intro hpub)]

theorem publishCore_create (deps : PublishDeps) (settings : PluginSettings) (file : TFileM)
    (content : Str) (ov : Option PostStatus)
    (hid : (parseFrontmatter content).wp_post_id = none) :
    publishCore deps settings file content ov =
      { call := some (.create (buildPayload deps (parseFrontmatter content)
          (getTitle (parseFrontmatter content) file.basename)
          (convert (if settings.uploadImages then deps.imageMap else []) content)
          (ov.getD ((parseFrontmatter content).status.getD settings.defaultPostStatus))))
        written := some (updateFrontmatter content
          { wp_post_id := some deps.createResp.id
            wp_post_url := some deps.createResp.link
            status := some deps.createResp.status })
        result := { success := true, postId := some deps.createResp.id,
                    postUrl := some deps.createResp.link } } := by
  unfold publishCore
  simp only [hid]

theorem publishCore_update (deps : PublishDeps) (settings : PluginSettings) (file : TFileM)
    (content : Str) (ov : Option PostStatus) (i : Int)
    (hid : (parseFrontmatter content).wp_post_id = some i) (hne : i ≠ 0) :
    publishCore deps settings file content ov =
      { call := some (.update i (buildPayload deps (parseFrontmatter content)
          (getTitle (parseFrontmatter content) file.basename)
          (convert (if settings.uploadImages then deps.imageMap else []) content)
          (ov.getD ((parseFrontmatter content).status.getD settings.defaultPostStatus))))
        written := some (updateFrontmatter content
          { wp_post_url := some deps.updateResp.link
            status := some deps.updateResp.status })
        result := { success := true, postId := some deps.updateResp.id,
                    postUrl := some deps.updateResp.link } } := by
  unfold publishCore
  simp only [hid]
  rw [if_pos hne]

theorem publishCore_create_zero (deps : PublishDeps) (settings : PluginSettings)
    (file : TFileM) (content : Str) (ov : Option PostStatus)
    (hid : (parseFrontmatter content).wp_post_id = some 0) :
    publishCore deps settings file content ov =
      { call := some (.create (buildPayload deps (parseFrontmatter content)
          (getTitle (parseFrontmatter content) file.basename)
          (convert (if settings.uploadImages then deps.imageMap else []) content)
          (ov.getD ((parseFrontmatter content).status.getD settings.defaultPostStatus))))
        written := some (updateFrontmatter content
          { wp_post_id := some deps.createResp.id
            wp_post_url := some deps.createResp.link
            status := some deps.createResp.status })
        result := { success := true, postId := some deps.createResp.id,
                    postUrl := some deps.createResp.link } } := by
  unfold publishCore
  simp only [hid]
  rw [if_neg (by simp)]

/-- A settings fixture: configured credentials, no folder scoping, image
upload off. -/
def testSettings : PluginSettings :=
  { siteUrl := S "https://example.com", username := S "admin",
    applicationPassword := S "pw", publishableFolder := [],
    defaultPostStatus := .draft, uploadImages := false, createTemplate := false }

/-- A markdown file fixture. -/
def testFile : TFileM := { path := S "note.md", basename := S "note", extension := S "md" }

/-- A remote post response fixture. -/
def testPost : WordPressPost :=
  { id := 7, link := S "https://example.com/p/7", status := .publish,
    titleRendered := S "T", slug := S "t" }

/-- A dependency fixture with inert oracles. -/
def testDeps : PublishDeps :=
  { normalizePath := fun s => s, imageMap := [],
    resolveCategoryIds := fun _ => [], resolveTagIds := fun _ => [],
    createResp := testPost,
    updateResp := { testPost with id := 9, link := S "https://example.com/p/9" } }

/-- C8: the status placed in the submitted payload is the per-call override
when given, else the frontmatter status when defined, else the configured
default. -/
theorem c8_status_precedence (deps : PublishDeps) (settings : PluginSettings)
    (file : TFileM) (content : Str) (ov : Option PostStatus)
    (h1 : settings.siteUrl ≠ []) (h2 : settings.username ≠ [])
    (h3 : settings.applicationPassword ≠ [])
    (hpub : isPublishable deps settings file = true) :
    ∃ pl, (publish deps settings file content ov).sentPayload = some pl ∧
      pl.status = ov.getD ((parseFrontmatter content).status.getD settings.defaultPostStatus) := by
  rw [publish_guarded deps settings file content ov h1 h2 h3 hpub]
  cases hid : (parseFrontmatter content).wp_post_id with
  | none =>
    rw [publishCore_create _ _ _ _ _ hid]
    exact ⟨_, rfl, buildPayload_status _ _ _ _ _⟩
  | some i =>
    by_cases hne : i = 0
    · subst hne
      rw [publishCore_create_zero _ _ _ _ _ hid]
      exact ⟨_, rfl, buildPayload_status _ _ _ _ _⟩
    · rw [publishCore_update _ _ _ _ _ i hid hne]
      exact ⟨_, rfl, buildPayload_status _ _ _ _ _⟩

theorem c8_status_precedence_witness :
    ∃ pl, (publish testDeps testSettings testFile
        (S "---\nstatus: future\ndate: 2024-12-25T10:00:00\n---\nBody")
        (some PostStatus.draft)).sentPayload = some pl ∧
      pl.status = (some PostStatus.draft).getD
        ((parseFrontmatter (S "---\nstatus: future\ndate: 2024-12-25T10:00:00\n---\nBody")).status.getD
          testSettings.defaultPostStatus) :=
  c8_status_precedence testDeps testSettings testFile
    (S "---\nstatus: future\ndate: 2024-12-25T10:00:00\n---\nBody")
    (some PostStatus.draft) (by decide) (by decide) (by decide) (by decide)

/-- C9: the payload carries a date exactly when the frontmatter date is
defined, non-empty, and the effective status is future; the spec omits the
non-emptiness condition (truthiness of the date string). -/
theorem c9_payload_date (deps : PublishDeps) (settings : PluginSettings)
    (file : TFileM) (content : Str) (ov : Option PostStatus)
    (h1 : settings.siteUrl ≠ []) (h2 : settings.username ≠ [])
    (h3 : settings.applicationPassword ≠ [])
    (hpub : isPublishable deps settings file = true) :
    ∃ pl, (publish deps settings file content ov).sentPayload = some pl ∧
      pl.date = (match (parseFrontmatter content).date with
        | some d => if d ≠ [] ∧
            ov.getD ((parseFrontmatter content).status.getD settings.defaultPostStatus) =
              PostStatus.future then some d else none
        | none => none) := by
  rw [publish_guarded deps settings file content ov h1 h2 h3 hpub]
  cases hid : (parseFrontmatter content).wp_post_id with
  | none =>
    rw [publishCore_create _ _ _ _ _ hid]
    exact ⟨_, rfl, buildPayload_date _ _ _ _ _⟩
  | some i =>
    by_cases hne : i = 0
    · subst hne
      rw [publishCore_create_zero _ _ _ _ _ hid]
      exact ⟨_, rfl, buildPayload_date _ _ _ _ _⟩
    · rw [publishCore_update _ _ _ _ _ i hid hne]
      exact ⟨_, rfl, buildPayload_date _ _ _ _ _⟩

theorem c9_payload_date_witness :
    ∃ pl, (publish testDeps testSettings testFile
        (S "---\nstatus: future\ndate: 2024-12-25\n---\nBody") none).sentPayload = some pl ∧
      pl.date = (match (parseFrontmatter (S "---\nstatus: future\ndate: 2024-12-25\n---\nBody")).date with
        | some d => if d ≠ [] ∧
            (none : Option PostStatus).getD
              ((parseFrontmatter (S "---\nstatus: future\ndate: 2024-12-25\n---\nBody")).status.getD
                testSettings.defaultPostStatus) = PostStatus.future then some d else none
        | none => none) :=
  c9_payload_date testDeps testSettings testFile
    (S "---\nstatus: future\ndate: 2024-12-25\n---\nBody") none
    (by decide) (by decide) (by decide) (by decide)

/-- C9 counterexample: a defined-but-empty date with effective status future
is omitted from the payload, against the spec's iff. -/
theorem c9_counterexample :
    ∃ pl, (publish testDeps testSettings testFile
        (S "---\ndate: \"\"\nstatus: future\n---\nBody") none).sentPayload = some pl ∧
      (parseFrontmatter (S "---\ndate: \"\"\nstatus: future\n---\nBody")).date = some [] ∧
      pl.status = PostStatus.future ∧ pl.date = none :=
  ⟨_, rfl, rfl, rfl, rfl⟩

/-- C10: the payload title is the non-empty frontmatter title, else the file
BASENAME with a trailing .md removed; the basename is the filename with its
extension already gone, so a file named a.md.md gets title a, not a.md. -/
theorem c10_payload_title (deps : PublishDeps) (settings : PluginSettings)
    (file : TFileM) (content : Str) (ov : Option PostStatus)
    (h1 : settings.siteUrl ≠ []) (h2 : settings.username ≠ [])
    (h3 : settings.applicationPassword ≠ [])
    (hpub : isPublishable deps settings file = true) :
    ∃ pl, (publish deps settings file content ov).sentPayload = some pl ∧
      pl.title = (match (parseFrontmatter content).title with
        | some t => if t ≠ [] then t else stripMdSuffix file.basename
        | none => stripMdSuffix file.basename) := by
  rw [publish_guarded deps settings file content ov h1 h2 h3 hpub]
  cases hid : (parseFrontmatter content).wp_post_id with
  | none =>
    rw [publishCore_create _ _ _ _ _ hid]
    exact ⟨_, rfl, buildPayload_title _ _ _ _ _⟩
  | some i =>
    by_cases hne : i = 0
    · subst hne
      rw [publishCore_create_zero _ _ _ _ _ hid]
      exact ⟨_, rfl, buildPayload_title _ _ _ _ _⟩
    · rw [publishCore_update _ _ _ _ _ i hid hne]
      exact ⟨_, rfl, buildPayload_title _ _ _ _ _⟩

theorem c10_payload_title_witness :
    ∃ pl, (publish testDeps testSettings testFile (S "Body") none).sentPayload = some pl ∧
      pl.title = (match (parseFrontmatter (S "Body")).title with
        | some t => if t ≠ [] then t else stripMdSuffix testFile.basename
        | none => stripMdSuffix testFile.basename) :=
  c10_payload_title testDeps testSettings testFile (S "Body") none
    (by decide) (by decide) (by decide) (by decide)

/-- C10 counterexample: for a file whose basename itself ends in .md (full
filename a.md.md), the payload title is a, while the filename with one
trailing .md removed is a.md. -/
theorem c10_counterexample :
    ∃ pl, (publish testDeps testSettings
        { path := S "a.md.md", basename := S "a.md", extension := S "md" }
        (S "Body") none).sentPayload = some pl ∧
      pl.title = S "a" ∧
      stripMdSuffix (S "a.md" ++ '.' :: S "md") = S "a.md" ∧
      pl.title ≠ stripMdSuffix (S "a.md" ++ '.' :: S "md") :=
  ⟨_, rfl, rfl, rfl, by decide⟩

/-- C2: on the update path the document written back never contains the
remote URL: generateYaml has no wp_post_url case, so the merged value is
dropped on serialization. -/
theorem c2_url_not_persisted :
    ∃ w, (publish testDeps testSettings testFile
        (S "---\nstatus: publish\nwp_post_id: 42\n---\n\nhello") none).written = some w ∧
      containsStr (S "wp_post_url") w = false ∧
      containsStr (S "https://example.com/p/9") w = false :=
  ⟨_, rfl, rfl, rfl⟩

/-- Parsing the document produced by an update on a frontmatter-free document
recovers the updates (minus the never-serialized URL). -/
theorem parse_update_noFM (doc : Str) (p : PostFrontmatter) (hdoc : fmSplit doc = none)
    (hb : benignFM p = true) (hls : generateYamlLines p ≠ []) :
    parseFrontmatter (updateFrontmatter doc p) = eraseUrl p := by
  have hshape := generateYamlLines_shape p hb
  have hg : generateYaml p = joinChar '\n' (generateYamlLines p) ++ ['\n'] := by
    unfold generateYaml; simp [hls]
  have hu1 : updateFrontmatter doc p = S "---\n" ++ generateYaml p ++ S "---\n\n" ++ doc := by
    unfold updateFrontmatter; rw [hdoc]
  rw [hu1]
  have hsplit1 : fmSplit (S "---\n" ++ generateYaml p ++ S "---\n\n" ++ doc) =
      some (joinChar '\n' (generateYamlLines p), S "\n\n" ++ doc) := by
    rw [hg, List.append_assoc, List.append_assoc, fmSplit_wrap, List.append_assoc]
    rw [show (['\n'] : Str) ++ (S "---\n\n" ++ doc) = S "\n---" ++ (S "\n\n" ++ doc) from rfl]
    exact splitFirstInfix_join _ _ hls hshape
  unfold parseFrontmatter
  rw [hsplit1]
  simp only []
  rw [splitOnChar_joinChar _ _ hls (fun l hl => (hshape l hl).1)]
  exact parseLines_yaml p hb

/-- C1 (amended): publishing a frontmatter-free document issues a create and
writes the server id back; republishing the written document issues an update
to exactly that id and never a second create — provided the server id is
non-zero, since a zero id is falsy and would route to create again. -/
theorem c1_create_then_update (deps : PublishDeps) (settings : PluginSettings)
    (file : TFileM) (content : Str) (ov ov2 : Option PostStatus)
    (h1 : settings.siteUrl ≠ []) (h2 : settings.username ≠ [])
    (h3 : settings.applicationPassword ≠ [])
    (hpub : isPublishable deps settings file = true)
    (hdoc : fmSplit content = none) (hid0 : deps.createResp.id ≠ 0) :
    isCreateCall (publish deps settings file content ov).call = true ∧
    ∃ w, (publish deps settings file content ov).written = some w ∧
      (parseFrontmatter w).wp_post_id = some deps.createResp.id ∧
      isCreateCall (publish deps settings file w ov2).call = false ∧
      callUpdateId (publish deps settings file w ov2).call = some deps.createResp.id := by
  have hfm : parseFrontmatter content = {} := by unfold parseFrontmatter; rw [hdoc]
  have hfid : (parseFrontmatter content).wp_post_id = none := by rw [hfm]
  have hpw : parseFrontmatter (updateFrontmatter content
      { wp_post_id := some deps.createResp.id
        wp_post_url := some deps.createResp.link
        status := some deps.createResp.status }) =
      eraseUrl { wp_post_id := some deps.createResp.id
                 wp_post_url := some deps.createResp.link
                 status := some deps.createResp.status } :=
    parse_update_noFM content _ hdoc rfl (by simp [generateYamlLines])
  rw [publish_guarded _ _ _ _ _ h1 h2 h3 hpub, publishCore_create _ _ _ _ _ hfid]
  refine ⟨rfl, _, rfl, ?_, ?_, ?_⟩
  · rw [hpw]; rfl
  · rw [publish_guarded _ _ _ _ _ h1 h2 h3 hpub,
      publishCore_update _ _ _ _ _ _ (by rw [hpw]; rfl) hid0]
    rfl
  · rw [publish_guarded _ _ _ _ _ h1 h2 h3 hpub,
      publishCore_update _ _ _ _ _ _ (by rw [hpw]; rfl) hid0]
    rfl

theorem c1_create_then_update_witness :
    isCreateCall (publish testDeps testSettings testFile (S "Body") none).call = true ∧
    ∃ w, (publish testDeps testSettings testFile (S "Body") none).written = some w ∧
      (parseFrontmatter w).wp_post_id = some testDeps.createResp.id ∧
      isCreateCall (publish testDeps testSettings testFile w none).call = false ∧
      callUpdateId (publish testDeps testSettings testFile w none).call =
        some testDeps.createResp.id :=
  c1_create_then_update testDeps testSettings testFile (S "Body") none none
    (by decide) (by decide) (by decide) (by decide) (by decide) (by decide)

/-- C1 counterexample: a document whose frontmatter carries the remote
identifier 0 is routed to create, not update: the identifier is tested for
truthiness and 0 is falsy. -/
theorem c1_counterexample :
    (parseFrontmatter (S "---\nwp_post_id: 0\n---\nBody")).wp_post_id = some 0 ∧
    isCreateCall (publish testDeps testSettings testFile
      (S "---\nwp_post_id: 0\n---\nBody") none).call = true :=
  ⟨rfl, rfl⟩

/-- C3 (amended): the scenario input produces the stated callout only when
the body line carries the quote marker; the segmenter keeps the callout open
for quote-prefixed or blank lines only. -/
theorem c3_callout_scenario :
    splitIntoBlocks (S "> [!warning]- Careful\n> Watch out") =
      [S "> [!warning]- Careful\n> Watch out"] ∧
    parseCallout (S "> [!warning]- Careful\n> Watch out") =
      { type := S "warning", title := S "Careful", content := S "Watch out",
        foldable := true, defaultFolded := true } := by decide

/-- C3 counterexample: on the spec scenario input, the bare line after the
callout header closes the callout; the pipeline yields a title-only callout
block plus a separate paragraph block, not a callout with body Watch out. -/
theorem c3_counterexample :
    splitIntoBlocks (S "> [!warning]- Careful\nWatch out") =
      [S "> [!warning]- Careful", S "Watch out"] ∧
    (parseCallout (S "> [!warning]- Careful")).content = [] ∧
    (parseCallout (S "> [!warning]- Careful")).defaultFolded = true := by decide

theorem takeWhile_append_all (q : Char → Bool) (p y : Str) (h : ∀ c ∈ p, q c = true) :
    (p ++ y).takeWhile q = p ++ y.takeWhile q := by
  induction p with
  | nil => rfl
  | cons c rest ih =>
    rw [List.cons_append, List.takeWhile_cons_of_pos (h c (by simp)),
      ih (fun x hx => h x (by simp [hx]))]
    rfl

theorem tryStdImgParts_not_bang (t : Str) (h : t.head? ≠ some '!') :
    tryStdImgParts t = none := by
  unfold tryStdImgParts
  split
  · exact absurd rfl h
  · rfl

theorem findFirstMatch_none {α : Type} (f : Str → Option α) :
    ∀ s : Str, (∀ t, t <:+ s → f t = none) → findFirstMatch f s = none
  | [], h => by
    rw [findFirstMatch, h [] (List.suffix_refl _)]
  | c :: t, h => by
    rw [findFirstMatch, h (c :: t) (List.suffix_refl _)]
    exact findFirstMatch_none f t (fun u hu => h u (hu.trans (List.suffix_cons c t)))

theorem tryStdImgParts_std (p a : Str)
    (hp : ∀ c ∈ p, c ≠ ')') (ha : ∀ c ∈ a, c ≠ ']')
    (hpne : p ≠ []) :
    tryStdImgParts (S "![" ++ (a ++ (S "](" ++ (p ++ S ")")))) = some (a, p, []) := by
  have hqa : ∀ c ∈ a, (fun c => decide (c ≠ ']')) c = true := by
    intro c hc
    simpa using ha c hc
  have hqp : ∀ c ∈ p, (fun c => decide (c ≠ ')')) c = true := by
    intro c hc
    simpa using hp c hc
  show tryStdImgParts ('!' :: '[' :: (a ++ (S "](" ++ (p ++ S ")")))) = some (a, p, [])
  unfold tryStdImgParts
  simp only []
  rw [takeWhile_append_all _ a _ hqa]
  rw [show (S "](" ++ (p ++ S ")")).takeWhile (fun c => decide (c ≠ ']')) = [] from rfl]
  rw [List.append_nil, List.drop_left]
  show (match ']' :: '(' :: (p ++ S ")") with
    | ']' :: '(' :: r2 =>
      let q := r2.takeWhile (fun c => decide (c ≠ ')'))
      if q = [] then none
      else
        match r2.drop q.length with
        | ')' :: rest => some (a, q, rest)
        | _ => none
    | _ => none) = some (a, p, [])
  simp only []
  rw [takeWhile_append_all _ p _ hqp]
  rw [show (S ")").takeWhile (fun c => decide (c ≠ ')')) = [] from rfl]
  rw [List.append_nil, if_neg hpne, List.drop_left]
  rfl

theorem tryStdImgParts_none_suffix (X : Str) (hX : '!' ∉ X)
    (hfst : tryStdImgParts ('!' :: X) = none) :
    ∀ t, t <:+ ('!' :: X) → tryStdImgParts t = none := by
  intro t ht
  rcases List.suffix_cons_iff.mp ht with rfl | ht2
  · exact hfst
  · apply tryStdImgParts_not_bang
    cases t with
    | nil => simp
    | cons c t2 =>
      intro hh
      simp only [List.head?_cons, Option.some.injEq] at hh
      exact hX (hh ▸ ht2.subset (List.mem_cons_self c t2))

theorem tryStdImgParts_wiki_head (mid : Str)
    (hmid : ∀ c ∈ mid, (fun c => decide (c ≠ ']')) c = true) :
    tryStdImgParts ('!' :: '[' :: ('[' :: (mid ++ S "]]"))) = none := by
  unfold tryStdImgParts
  simp only []
  rw [show List.takeWhile (fun c => decide (c ≠ ']')) ('[' :: (mid ++ S "]]")) =
      '[' :: List.takeWhile (fun c => decide (c ≠ ']')) (mid ++ S "]]") from rfl]
  rw [takeWhile_append_all _ mid _ hmid]
  rw [show (S "]]").takeWhile (fun c => decide (c ≠ ']')) = [] from rfl, List.append_nil]
  rw [show List.drop ('[' :: mid).length ('[' :: (mid ++ S "]]")) = S "]]" from by
    rw [List.length_cons, List.drop_succ_cons, List.drop_left]]
  rfl

theorem tryWikiImgParts2_plain (p : Str) (hp : ∀ c ∈ p, c ≠ ']' ∧ c ≠ '|')
    (hpne : p ≠ []) :
    tryWikiImgParts2 ('!' :: '[' :: ('[' :: (p ++ S "]]"))) = some (p, none, []) := by
  have hq : ∀ c ∈ p, (fun c => decide (c ≠ ']' ∧ c ≠ '|')) c = true := by
    intro c hc
    simpa using hp c hc
  unfold tryWikiImgParts2
  simp only []
  rw [takeWhile_append_all _ p _ hq]
  rw [show (S "]]").takeWhile (fun c => decide (c ≠ ']' ∧ c ≠ '|')) = [] from rfl,
    List.append_nil, if_neg hpne, List.drop_left]
  rfl

theorem tryWikiImgParts2_alt (p a : Str) (hp : ∀ c ∈ p, c ≠ ']' ∧ c ≠ '|')
    (ha : ∀ c ∈ a, c ≠ ']') (hpne : p ≠ []) (hane : a ≠ []) :
    tryWikiImgParts2 ('!' :: '[' :: ('[' :: (p ++ ('|' :: (a ++ S "]]"))))) =
      some (p, some a, []) := by
  have hq : ∀ c ∈ p, (fun c => decide (c ≠ ']' ∧ c ≠ '|')) c = true := by
    intro c hc
    simpa using hp c hc
  have hqa : ∀ c ∈ a, (fun c => decide (c ≠ ']')) c = true := by
    intro c hc
    simpa using ha c hc
  unfold tryWikiImgParts2
  simp only []
  rw [takeWhile_append_all _ p _ hq]
  rw [show ('|' :: (a ++ S "]]")).takeWhile (fun c => decide (c ≠ ']' ∧ c ≠ '|')) = []
    from rfl, List.append_nil, if_neg hpne, List.drop_left]
  show (match '|' :: (a ++ S "]]") with
    | ']' :: ']' :: rest => some (p, none, rest)
    | '|' :: r2 =>
      let b := r2.takeWhile (fun c => decide (c ≠ ']'))
      if b = [] then none
      else
        match r2.drop b.length with
        | ']' :: ']' :: rest => some (p, some b, rest)
        | _ => none
    | _ => none) = some (p, some a, [])
  simp only []
  rw [takeWhile_append_all _ a _ hqa]
  rw [show (S "]]").takeWhile (fun c => decide (c ≠ ']')) = [] from rfl,
    List.append_nil, if_neg hane, List.drop_left]
  rfl

theorem findFirstMatch_cons_some {α : Type} (f : Str → Option α) (c : Char) (t : Str)
    (x : α) (h : f (c :: t) = some x) : findFirstMatch f (c :: t) = some x := by
  rw [findFirstMatch, h]

theorem extractImageReference_std (p a : Str)
    (hp : ∀ c ∈ p, c ≠ ')') (ha : ∀ c ∈ a, c ≠ ']')
    (hpne : p ≠ []) :
    extractImageReference (S "![" ++ (a ++ (S "](" ++ (p ++ S ")")))) =
      some { originalSyntax := S "![" ++ a ++ S "](" ++ p ++ S ")"
             path := p, altText := a, isWikilink := false } := by
  unfold extractImageReference
  rw [show (S "![" ++ (a ++ (S "](" ++ (p ++ S ")")))) =
      '!' :: '[' :: (a ++ (S "](" ++ (p ++ S ")"))) from rfl]
  rw [findFirstMatch_cons_some tryStdImgParts '!'
    ('[' :: (a ++ (S "](" ++ (p ++ S ")")))) (a, p, [])
    (tryStdImgParts_std p a hp ha hpne)]

theorem extractImageReference_wiki (p : Str)
    (hp : ∀ c ∈ p, c ≠ ']' ∧ c ≠ '|' ∧ c ≠ '!') (hpne : p ≠ []) :
    extractImageReference (S "![[" ++ (p ++ S "]]")) =
      some { originalSyntax := S "![[" ++ p ++ S "]]"
             path := p, altText := p, isWikilink := true } := by
  have hX : '!' ∉ ('[' :: ('[' :: (p ++ S "]]"))) := by
    simp only [List.mem_cons, List.mem_append]
    intro hc
    rcases hc with h | h | h | h
    · exact absurd h (by decide)
    · exact absurd h (by decide)
    · exact absurd rfl (hp _ h).2.2
    · exact absurd h (by decide)
  have hq : ∀ c ∈ p, (fun c => decide (c ≠ ']')) c = true := by
    intro c hc
    simpa using (hp c hc).1
  unfold extractImageReference
  rw [show (S "![[" ++ (p ++ S "]]")) = '!' :: ('[' :: ('[' :: (p ++ S "]]"))) from rfl]
  rw [findFirstMatch_none tryStdImgParts _
    (tryStdImgParts_none_suffix _ hX (tryStdImgParts_wiki_head p hq))]
  rw [findFirstMatch_cons_some _ _ _ _
    (tryWikiImgParts2_plain p (fun c hc => ⟨(hp c hc).1, (hp c hc).2.1⟩) hpne)]
  simp only [List.append_nil]
  rfl

theorem extractImageReference_wiki_alt (p a : Str)
    (hp : ∀ c ∈ p, c ≠ ']' ∧ c ≠ '|' ∧ c ≠ '!') (ha : ∀ c ∈ a, c ≠ ']' ∧ c ≠ '!')
    (hpne : p ≠ []) (hane : a ≠ []) :
    extractImageReference (S "![[" ++ (p ++ ('|' :: (a ++ S "]]")))) =
      some { originalSyntax := S "![[" ++ p ++ ('|' :: a) ++ S "]]"
             path := p, altText := a, isWikilink := true } := by
  have hX : '!' ∉ ('[' :: ('[' :: (p ++ ('|' :: (a ++ S "]]"))))) := by
    simp only [List.mem_cons, List.mem_append]
    intro hc
    rcases hc with h | h | h | h | h | h
    · exact absurd h (by decide)
    · exact absurd h (by decide)
    · exact absurd rfl (hp _ h).2.2
    · exact absurd h (by decide)
    · exact absurd rfl (ha _ h).2
    · exact absurd h (by decide)
  have hmid : ∀ c ∈ p ++ '|' :: a, (fun c => decide (c ≠ ']')) c = true := by
    intro c hc
    simp only [List.mem_append, List.mem_cons] at hc
    rcases hc with h | h | h
    · simpa using (hp c h).1
    · subst h; decide
    · simpa using (ha c h).1
  have hfst : tryStdImgParts ('!' :: '[' :: ('[' :: (p ++ ('|' :: (a ++ S "]]"))))) = none := by
    have := tryStdImgParts_wiki_head (p ++ '|' :: a) hmid
    rw [show ((p ++ '|' :: a) ++ S "]]") = p ++ ('|' :: (a ++ S "]]")) from by
      rw [List.append_assoc]; rfl] at this
    exact this
  unfold extractImageReference
  rw [show (S "![[" ++ (p ++ ('|' :: (a ++ S "]]")))) =
      '!' :: ('[' :: ('[' :: (p ++ ('|' :: (a ++ S "]]"))))) from rfl]
  rw [findFirstMatch_none tryStdImgParts _ (tryStdImgParts_none_suffix _ hX hfst)]
  rw [findFirstMatch_cons_some _ _ _ _ (tryWikiImgParts2_alt p a
    (fun c hc => ⟨(hp c hc).1, (hp c hc).2.1⟩) (fun c hc => (ha c hc).1) hpne hane)]
  rfl

/-- The figure markup emitted by `convertImage`. -/
def imgFigure (src alt : Str) : Str :=
  S "<!-- wp:image -->\n<figure class=\"wp-block-image\"><img src=\"" ++ src ++
  S "\" alt=\"" ++ alt ++ S "\"/></figure>\n<!-- /wp:image -->"

/-- C7 counterexample: an INLINE wikilink image with display text is not
resolved by its path: the inline pass captures `path|alt` as the path, so
the mapped URL of photo.png is not used and the composite string is emitted
as the URL. -/
theorem c7_counterexample :
    containsStr (S "https://w/u.png")
      (convertInlineFormatting [(S "photo.png",
        { localPath := S "photo.png", wordpressUrl := S "https://w/u.png", mediaId := 1 })]
        (S "see ![[photo.png|Alt]]")) = false ∧
    containsStr (S "src=\"photo.png|Alt\"")
      (convertInlineFormatting [(S "photo.png",
        { localPath := S "photo.png", wordpressUrl := S "https://w/u.png", mediaId := 1 })]
        (S "see ![[photo.png|Alt]]")) = true := by decide

/-- The lines held by a segmenter state, in order: finished blocks then the
open block. -/
def segLines (st : SegSt) : List Str := st.blocks.flatten ++ st.current

/-- Non-blank test on a line. -/
def nbL (l : Str) : Bool := decide (trimJS l ≠ [])

theorem segFlush_current (st : SegSt) : (segFlush st).current = [] := by
  unfold segFlush
  split
  · rfl
  · rename_i h
    simp only [ne_eq, not_not] at h
    exact h

theorem segFlush_segLines (st : SegSt) : segLines (segFlush st) = segLines st := by
  unfold segFlush segLines
  split
  · simp
  · rfl

theorem segFlush_blocks_flatten (st : SegSt) :
    (segFlush st).blocks.flatten = segLines st := by
  unfold segFlush segLines
  split
  · simp
  · rename_i h
    simp only [ne_eq, not_not] at h
    rw [h, List.append_nil]

theorem segRest_segLines (st : SegSt) (line : Str) :
    segLines (segRest st line) = segLines st ++ [line] ∨
    (trimJS line = [] ∧ segLines (segRest st line) = segLines st) := by
  unfold segRest
  repeat' split
  all_goals first
    | (right; exact ⟨by assumption, segFlush_segLines st⟩)
    | (left;
       simp [segLines, segFlush_current, segFlush_blocks_flatten,
         List.flatten_append, List.append_assoc])

theorem segLine_segLines (st : SegSt) (line : Str) :
    segLines (segLine st line) = segLines st ++ [line] ∨
    (trimJS line = [] ∧ segLines (segLine st line) = segLines st) := by
  unfold segLine
  repeat' split
  all_goals first
    | (left;
       simp [segLines, segFlush_current, segFlush_blocks_flatten,
         List.flatten_append, List.append_assoc];
       done)
    | (rcases segRest_segLines _ line with h | ⟨hb, hs⟩
       · left
         rw [h]
         try simp [segLines, segFlush_blocks_flatten, segFlush_current]
       · right
         refine ⟨hb, ?_⟩
         rw [hs]
         try simp [segLines, segFlush_blocks_flatten, segFlush_current])

/-- Segmenter-state invariant: finished blocks are non-empty and every
stored line is newline-free. -/
def SegInv (st : SegSt) : Prop :=
  (∀ b ∈ st.blocks, b ≠ []) ∧ (∀ l ∈ st.blocks.flatten, '\n' ∉ l) ∧
  (∀ l ∈ st.current, '\n' ∉ l)

theorem SegInv_flush (st : SegSt) (h : SegInv st) : SegInv (segFlush st) := by
  unfold segFlush
  split
  · obtain ⟨hb, hf, hc⟩ := h
    refine ⟨?_, ?_, by simp⟩
    · intro b hbm
      simp only [List.mem_append, List.mem_singleton] at hbm
      rcases hbm with hbm | rfl
      · exact hb b hbm
      · assumption
    · intro l hl
      rw [List.flatten_append] at hl
      rcases List.mem_append.mp hl with hl | hl
      · exact hf l hl
      · exact hc l (by simpa using hl)
  · exact h

theorem SegInv_push_block (st : SegSt) (line : Str) (h : SegInv st) (hl : '\n' ∉ line) :
    SegInv { segFlush st with blocks := (segFlush st).blocks ++ [[line]] } := by
  obtain ⟨hb, hf, hc⟩ := SegInv_flush st h
  refine ⟨?_, ?_, ?_⟩
  · intro b hbm
    simp only [List.mem_append, List.mem_singleton] at hbm
    rcases hbm with hbm | rfl
    · exact hb b hbm
    · simp
  · intro l hlm
    simp only [List.flatten_append] at hlm
    rcases List.mem_append.mp hlm with hlm | hlm
    · exact hf l hlm
    · have : l = line := by simpa using hlm
      subst this
      exact hl
  · exact hc

theorem SegInv_push_current (st : SegSt) (line : Str) (h : SegInv st) (hl : '\n' ∉ line) :
    SegInv { st with current := st.current ++ [line] } := by
  obtain ⟨hb, hf, hc⟩ := h
  refine ⟨hb, hf, ?_⟩
  intro l hlm
  rcases List.mem_append.mp hlm with hlm | hlm
  · exact hc l hlm
  · simp only [List.mem_singleton] at hlm
    subst hlm
    exact hl

theorem SegInv_close_code (st : SegSt) (line : Str) (h : SegInv st) (hl : '\n' ∉ line) :
    SegInv { st with blocks := st.blocks ++ [st.current ++ [line]], current := [] } := by
  obtain ⟨hb, hf, hc⟩ := h
  refine ⟨?_, ?_, by simp⟩
  · intro b hbm
    simp only [List.mem_append, List.mem_singleton] at hbm
    rcases hbm with hbm | rfl
    · exact hb b hbm
    · simp
  · intro l hlm
    simp only [List.flatten_append] at hlm
    rcases List.mem_append.mp hlm with hlm | hlm
    · exact hf l hlm
    · have : l ∈ st.current ++ [line] := by simpa using hlm
      rcases List.mem_append.mp this with h2 | h2
      · exact hc l h2
      · have : l = line := by simpa using h2
        subst this
        exact hl

theorem SegInv_open (st : SegSt) (line : Str) (h : SegInv st) (hl : '\n' ∉ line) :
    SegInv { segFlush st with current := [line] } := by
  obtain ⟨hb, hf, hc⟩ := SegInv_flush st h
  refine ⟨hb, hf, ?_⟩
  intro l hlm
  have : l = line := by simpa using hlm
  subst this
  exact hl

theorem SegInv_rest (st : SegSt) (line : Str) (hl : '\n' ∉ line) (h : SegInv st) :
    SegInv (segRest st line) := by
  unfold segRest
  repeat' split
  all_goals first
    | exact SegInv_push_block st line h hl
    | exact SegInv_push_current _ line (SegInv_flush st h) hl
    | exact SegInv_push_current _ line h hl
    | exact SegInv_flush st h

theorem SegInv_line (st : SegSt) (line : Str) (hl : '\n' ∉ line) (h : SegInv st) :
    SegInv (segLine st line) := by
  unfold segLine
  repeat' split
  all_goals first
    | exact SegInv_close_code st line h hl
    | exact SegInv_open st line h hl
    | exact SegInv_push_current _ line h hl
    | exact SegInv_rest _ line hl (SegInv_flush st h)
    | exact SegInv_rest _ line hl h

theorem foldl_segLines (ls : List Str) (st : SegSt) :
    (segLines (ls.foldl segLine st)).filter nbL =
      ((segLines st).filter nbL) ++ (ls.filter nbL) := by
  induction ls generalizing st with
  | nil => simp
  | cons l rest ih =>
    rw [List.foldl_cons, ih]
    rcases segLine_segLines st l with h | ⟨hb, hs⟩
    · rw [h]
      cases hnb : nbL l <;>
        simp [List.filter_append, List.filter_cons, hnb, List.append_assoc]
    · rw [hs]
      have hnb : nbL l = false := by simp [nbL, hb]
      simp [List.filter_cons, hnb]

theorem SegInv_foldl (ls : List Str) (st : SegSt) (hls : ∀ l ∈ ls, '\n' ∉ l)
    (h : SegInv st) : SegInv (ls.foldl segLine st) := by
  induction ls generalizing st with
  | nil => exact h
  | cons l rest ih =>
    rw [List.foldl_cons]
    exact ih _ (fun x hx => hls x (by simp [hx]))
      (SegInv_line st l (hls l (by simp)) h)

theorem mem_joinChar_of_mem (sep : Char) (ls : List Str) (l : Str) (hl : l ∈ ls)
    (c : Char) (hc : c ∈ l) : c ∈ joinChar sep ls := by
  induction ls with
  | nil => simp at hl
  | cons x rest ih =>
    cases rest with
    | nil =>
      have : l = x := by simpa using hl
      subst this
      simpa [joinChar] using hc
    | cons y r =>
      rw [show joinChar sep (x :: y :: r) = x ++ sep :: joinChar sep (y :: r) from rfl]
      rcases List.mem_cons.mp hl with rfl | hl2
      · exact List.mem_append.mpr (Or.inl hc)
      · exact List.mem_append.mpr (Or.inr (List.mem_cons_of_mem _ (ih hl2)))

theorem blank_join (b : List Str) (h : trimJS (joinChar '\n' b) = []) :
    ∀ l ∈ b, trimJS l = [] := by
  intro l hl
  rw [trimJS_eq_nil_iff]
  intro c hc
  exact (trimJS_eq_nil_iff _).mp h c (mem_joinChar_of_mem '\n' b l hl c hc)

theorem blocks_resplit (BL : List (List Str))
    (hne : ∀ b ∈ BL, b ≠ []) (hnl : ∀ b ∈ BL, ∀ l ∈ b, '\n' ∉ l) :
    (((BL.map (joinChar '\n')).filter (fun s => trimJS s ≠ [])).flatMap
        (splitOnChar '\n')).filter nbL =
      BL.flatten.filter nbL := by
  induction BL with
  | nil => simp
  | cons b rest ih =>
    rw [List.map_cons, List.filter_cons]
    by_cases hb : trimJS (joinChar '\n' b) = []
    · rw [if_neg (by simpa using hb)]
      rw [ih (fun x hx => hne x (by simp [hx])) (fun x hx => hnl x (by simp [hx]))]
      have hblank : (b.filter nbL) = [] := by
        rw [List.filter_eq_nil_iff]
        intro l hl
        simp [nbL, blank_join b hb l hl]
      rw [List.flatten_cons, List.filter_append, hblank, List.nil_append]
    · rw [if_pos (by simpa using hb)]
      rw [List.flatMap_cons,
        splitOnChar_joinChar '\n' b (hne b (by simp)) (fun l hl => hnl b (by simp) l hl),
        List.filter_append,
        ih (fun x hx => hne x (by simp [hx])) (fun x hx => hnl x (by simp [hx])),
        List.flatten_cons, List.filter_append]

/-- The input ends with no code fence left open: the segmenter's final state
is not in code mode. -/
def noUnterminatedFence (content : Str) : Bool :=
  !((splitOnChar '\n' content).foldl segLine ⟨[], [], false, false⟩).inCode

/-- C6: for inputs without unterminated code fences, the non-blank lines of
the emitted blocks, reconstructed in order by re-splitting each block, are
exactly the non-blank lines of the input: none dropped, none duplicated. -/
theorem c6_segmentation_coverage (content : Str)
    (hfence : noUnterminatedFence content = true) :
    ((splitIntoBlocks content).flatMap (splitOnChar '\n')).filter nbL =
      (splitOnChar '\n' content).filter nbL := by
  have hnl : ∀ l ∈ splitOnChar '\n' content, '\n' ∉ l :=
    splitOnChar_mem_no_sep '\n' content
  have hinv : SegInv ((splitOnChar '\n' content).foldl segLine ⟨[], [], false, false⟩) :=
    SegInv_foldl _ _ hnl ⟨by simp, by simp, by simp⟩
  have hinv2 := SegInv_flush _ hinv
  unfold splitIntoBlocks
  rw [blocks_resplit _ hinv2.1
    (fun b hb l hl => hinv2.2.1 l (List.mem_flatten.mpr ⟨b, hb, hl⟩))]
  rw [segFlush_blocks_flatten, foldl_segLines]
  simp [segLines]

theorem c6_segmentation_coverage_witness :
    (((splitIntoBlocks (S "# T\n\nHello **w**\n```c\nx\n\n```\n> q\n- i")).flatMap
        (splitOnChar '\n')).filter nbL) =
      ((splitOnChar '\n' (S "# T\n\nHello **w**\n```c\nx\n\n```\n> q\n- i")).filter nbL) :=
  c6_segmentation_coverage (S "# T\n\nHello **w**\n```c\nx\n\n```\n> q\n- i") (by decide)

theorem gReplaceGo_id (f : Option Char → Str → Option (Str × Str)) :
    ∀ (fuel : Nat) (prev : Option Char) (s : Str),
      (∀ prev2 t, t <:+ s → f prev2 t = none) → gReplaceGo f fuel prev s = s
  | 0, _, _, _ => rfl
  | _ + 1, _, [], _ => rfl
  | fuel + 1, prev, c :: t, h => by
    rw [gReplaceGo, h prev (c :: t) (List.suffix_refl _)]
    exact congrArg (c :: ·)
      (gReplaceGo_id f fuel (some c) t (fun p2 u hu => h p2 u (hu.trans (List.suffix_cons c t))))

theorem gReplace_id (f : Option Char → Str → Option (Str × Str)) (prev : Option Char)
    (s : Str) (h : ∀ prev2 t, t <:+ s → f prev2 t = none) : gReplace f prev s = s :=
  gReplaceGo_id f (s.length + 1) prev s h

theorem suffix_append_cases {t A B : Str} (h : t <:+ A ++ B) :
    t <:+ B ∨ ∃ a2, a2 <:+ A ∧ a2 ≠ [] ∧ t = a2 ++ B := by
  induction A with
  | nil => exact Or.inl (by simpa using h)
  | cons c A2 ih =>
    rw [List.cons_append] at h
    rcases List.suffix_cons_iff.mp h with rfl | h2
    · exact Or.inr ⟨c :: A2, List.suffix_refl _, by simp, by simp⟩
    · rcases ih h2 with h3 | ⟨a2, ha, hne, rfl⟩
      · exact Or.inl h3
      · exact Or.inr ⟨a2, ha.trans (List.suffix_cons c A2), hne, rfl⟩

theorem gReplaceGo_prefix_none (f : Option Char → Str → Option (Str × Str)) :
    ∀ (pre : Str) (fuel : Nat) (prev : Option Char) (rest : Str),
      (∀ prev2 a2, a2 <:+ pre → a2 ≠ [] → f prev2 (a2 ++ rest) = none) →
      ∃ prev2, gReplaceGo f (pre.length + fuel) prev (pre ++ rest) =
        pre ++ gReplaceGo f fuel prev2 rest
  | [], fuel, prev, rest, _ => ⟨prev, by simp⟩
  | c :: pre2, fuel, prev, rest, h => by
    have hstep : f prev ((c :: pre2) ++ rest) = none :=
      h prev (c :: pre2) (List.suffix_refl _) (by simp)
    rw [show (c :: pre2).length + fuel = (pre2.length + fuel) + 1 from by
      simp [List.length_cons]; omega]
    rw [List.cons_append, gReplaceGo]
    rw [show f prev (c :: (pre2 ++ rest)) = none from hstep]
    obtain ⟨prev2, h2⟩ := gReplaceGo_prefix_none f pre2 fuel (some c) rest
      (fun p2 a2 ha hne => h p2 a2 (ha.trans (List.suffix_cons c pre2)) hne)
    exact ⟨prev2, by rw [h2]; rfl⟩

theorem gReplace_single (f : Option Char → Str → Option (Str × Str))
    (prev0 : Option Char) (pre s0 rep post : Str) (hs0 : s0 ≠ [])
    (hpre : ∀ prev2 a2, a2 <:+ pre → a2 ≠ [] → f prev2 (a2 ++ (s0 ++ post)) = none)
    (hmatch : ∀ prev2, f prev2 (s0 ++ post) = some (rep, post))
    (hpost : ∀ prev2 t, t <:+ post → f prev2 t = none) :
    gReplace f prev0 (pre ++ (s0 ++ post)) = pre ++ (rep ++ post) := by
  unfold gReplace
  rw [show (pre ++ (s0 ++ post)).length + 1 = pre.length + (s0.length + post.length + 1)
    from by simp [List.length_append]; omega]
  obtain ⟨prev2, h2⟩ :=
    gReplaceGo_prefix_none f pre (s0.length + post.length + 1) prev0 (s0 ++ post) hpre
  rw [h2]
  congr 1
  cases s0 with
  | nil => exact absurd rfl hs0
  | cons c s2 =>
    rw [show (c :: s2).length + post.length + 1 = (s2.length + post.length + 1) + 1 from by
      simp [List.length_cons]; omega]
    rw [List.cons_append, gReplaceGo]
    rw [show f prev2 (c :: (s2 ++ post)) = some (rep, post) from hmatch prev2]
    simp only []
    rw [if_pos (show post.length < (c :: (s2 ++ post)).length from by
      simp [List.length_append, List.length_cons]; omega)]
    rw [gReplaceGo_id f _ _ post hpost]

theorem tryWikiImgParts1_not_bang (t : Str) (h : t.head? ≠ some '!') :
    tryWikiImgParts1 t = none := by
  unfold tryWikiImgParts1
  split
  · exact absurd rfl h
  · rfl

theorem tryWikiImgInline_none (m : ImageMap) (prev : Option Char) (t : Str)
    (h : t.head? ≠ some '!') : tryWikiImgInline m prev t = none := by
  unfold tryWikiImgInline
  rw [tryWikiImgParts1_not_bang t h]
  rfl

theorem tryStdImgInline_none (m : ImageMap) (prev : Option Char) (t : Str)
    (h : t.head? ≠ some '!') : tryStdImgInline m prev t = none := by
  unfold tryStdImgInline
  rw [tryStdImgParts_not_bang t h]
  rfl

theorem tryWikiLinkDisp_none (prev : Option Char) (t : Str)
    (h : t.head? ≠ some '[') : tryWikiLinkDisp prev t = none := by
  unfold tryWikiLinkDisp
  split
  · exact absurd rfl h
  · rfl

theorem tryWikiLinkPlain_none (prev : Option Char) (t : Str)
    (h : t.head? ≠ some '[') : tryWikiLinkPlain prev t = none := by
  unfold tryWikiLinkPlain
  split
  · exact absurd rfl h
  · rfl

theorem tryLink_none (prev : Option Char) (t : Str)
    (h : t.head? ≠ some '[') : tryLink prev t = none := by
  unfold tryLink
  split
  · exact absurd rfl h
  · rfl

theorem tryDelim_none_head (o1 : Char) (od2 cd : Str) (stop : Char) (pr po : Str)
    (prev : Option Char) (t : Str) (h : t.head? ≠ some o1) :
    tryDelim (o1 :: od2) cd stop pr po prev t = none := by
  cases t with
  | nil =>
    unfold tryDelim
    rw [if_neg (by simp [List.isPrefixOf])]
  | cons c t2 =>
    have hc : (o1 == c) = false := by
      simp only [List.head?_cons, ne_eq, Option.some.injEq] at h
      exact beq_eq_false_iff_ne.mpr (fun he => h he.symm)
    unfold tryDelim
    rw [if_neg (by simp [List.isPrefixOf, hc])]

theorem tryDelim_eqeq_none (cd : Str) (stop : Char) (pr po : Str)
    (prev : Option Char) (t : Str)
    (h : ∀ t2, t = '=' :: t2 → t2.head? ≠ some '=') :
    tryDelim (S "==") cd stop pr po prev t = none := by
  cases t with
  | nil =>
    unfold tryDelim
    rw [if_neg (by simp [List.isPrefixOf])]
  | cons c t2 =>
    by_cases hc : c = '='
    · subst hc
      cases t2 with
      | nil =>
        unfold tryDelim
        rw [if_neg (by simp [S, List.isPrefixOf])]
      | cons c2 t3 =>
        have hc2 : ('=' == c2) = false :=
          beq_eq_false_iff_ne.mpr (fun he => (h (c2 :: t3) rfl) (by rw [← he]; rfl))
        unfold tryDelim
        rw [if_neg (by simp [S, List.isPrefixOf, hc2])]
    · unfold tryDelim
      rw [if_neg (by simp [S, List.isPrefixOf, beq_eq_false_iff_ne.mpr (fun he => hc he.symm)])]

theorem tryUndEm_none (prev : Option Char) (t : Str) (h : t.head? ≠ some '_') :
    tryUndEm prev t = none := by
  unfold tryUndEm
  repeat' split
  all_goals first | rfl | exact absurd rfl h | simp

theorem none_of_heads (f : Option Char → Str → Option (Str × Str)) (trig : Char)
    (hhead : ∀ prev t, t.head? ≠ some trig → f prev t = none)
    (s : Str) (htrig : trig ∉ s) : ∀ prev t, t <:+ s → f prev t = none := by
  intro prev t ht
  apply hhead
  cases t with
  | nil => simp
  | cons c t2 =>
    intro hc
    simp only [List.head?_cons, Option.some.injEq] at hc
    exact htrig (hc ▸ ht.subset (List.mem_cons_self c t2))

/-- A character that triggers none of the inline substitution rules and none
of the image-syntax delimiters. -/
def inlineSafeChar (c : Char) : Bool :=
  ¬(c = '!' ∨ c = '[' ∨ c = ']' ∨ c = '(' ∨ c = ')' ∨ c = '|' ∨ c = '*' ∨ c = '_' ∨
    c = '~' ∨ c = btick ∨ c = '=' ∨ c = '&' ∨ c = '<' ∨ c = '>' ∨ c = '"' ∨ c = squote)

theorem not_mem_of_safe (s : Str) (h : ∀ c ∈ s, inlineSafeChar c = true)
    (x : Char) (hx : inlineSafeChar x = false) : x ∉ s := by
  intro hm
  rw [h x hm] at hx
  exact Bool.noConfusion hx

theorem replaceCharBy_id (x : Char) (rep s : Str) (h : x ∉ s) :
    replaceCharBy x rep s = s := by
  induction s with
  | nil => rfl
  | cons c rest ih =>
    unfold replaceCharBy
    rw [List.flatMap_cons]
    rw [if_neg (fun he => h (by rw [← he]; exact List.mem_cons_self c rest))]
    rw [show (rest.flatMap fun y => if y = x then rep else [y]) = replaceCharBy x rep rest
      from rfl]
    rw [ih (fun hm => h (List.mem_cons_of_mem c hm))]
    rfl

theorem escapeHtml_id2 (s : Str) (h : ∀ c ∈ s, inlineSafeChar c = true) :
    escapeHtml s = s := by
  unfold escapeHtml
  rw [replaceCharBy_id _ _ s (not_mem_of_safe s h '&' (by decide)),
    replaceCharBy_id _ _ s (not_mem_of_safe s h '<' (by decide)),
    replaceCharBy_id _ _ s (not_mem_of_safe s h '>' (by decide)),
    replaceCharBy_id _ _ s (not_mem_of_safe s h '"' (by decide)),
    replaceCharBy_id _ _ s (not_mem_of_safe s h squote (by decide))]

/-- Every equals sign in the string is immediately followed by a double
quote. -/
def eqq : Str → Bool
  | [] => true
  | c :: r => (decide (c ≠ '=') || decide (r.head? = some '"')) && eqq r

theorem eqq_cons (c : Char) (r : Str) :
    eqq (c :: r) = ((decide (c ≠ '=') || decide (r.head? = some '"')) && eqq r) := rfl

theorem eqq_suffix (s : Str) (h : eqq s = true) :
    ∀ t, t <:+ s → ∀ t2, t = '=' :: t2 → t2.head? = some '"' := by
  induction s with
  | nil =>
    intro t ht t2 he
    rw [List.suffix_nil.mp ht] at he
    exact absurd he (by simp)
  | cons c s2 ih =>
    rw [eqq_cons] at h
    simp only [Bool.and_eq_true, Bool.or_eq_true] at h
    obtain ⟨h1, h2⟩ := h
    intro t ht t2 he
    rcases List.suffix_cons_iff.mp ht with rfl | ht2
    · obtain ⟨rfl, rfl⟩ : c = '=' ∧ s2 = t2 :=
        ⟨(List.cons.inj he).1, (List.cons.inj he).2⟩
      rcases h1 with h3 | h3
      · simp at h3
      · simpa using h3
    · exact ih h2 t ht2 t2 he

theorem eqq_no_eq (s : Str) (h : '=' ∉ s) : eqq s = true := by
  induction s with
  | nil => rfl
  | cons c rest ih =>
    rw [eqq_cons, ih (fun hm => h (List.mem_cons_of_mem c hm))]
    rw [show (decide (c ≠ '=')) = true from by
      simp only [decide_eq_true_eq]
      exact fun he => h (by rw [← he] at *; exact List.mem_cons_self c rest)]
    rfl

theorem eqq_append_no_eq (A X : Str) (h : '=' ∉ A) : eqq (A ++ X) = eqq X := by
  induction A with
  | nil => rfl
  | cons c A2 ih =>
    rw [List.cons_append, eqq_cons, ih (fun hm => h (List.mem_cons_of_mem c hm))]
    rw [show (decide (c ≠ '=')) = true from by
      simp only [decide_eq_true_eq]
      exact fun he => h (by rw [← he] at *; exact List.mem_cons_self c A2)]
    rw [Bool.true_or, Bool.true_and]

theorem eqq_html (pre url e post : Str)
    (hpre : '=' ∉ pre) (hurl : '=' ∉ url) (he : '=' ∉ e) (hpost : '=' ∉ post) :
    eqq (pre ++ ((S "<img src=\"" ++ url ++ S "\" alt=\"" ++ e ++ S "\"/>") ++ post)) =
      true := by
  rw [show pre ++ ((S "<img src=\"" ++ url ++ S "\" alt=\"" ++ e ++ S "\"/>") ++ post) =
      pre ++ (S "<img src=\"" ++ (url ++ (S "\" alt=\"" ++ (e ++ (S "\"/>" ++ post)))))
    from by simp [List.append_assoc]]
  rw [eqq_append_no_eq pre _ hpre]
  rw [show eqq (S "<img src=\"" ++ (url ++ (S "\" alt=\"" ++ (e ++ (S "\"/>" ++ post))))) =
      eqq (url ++ (S "\" alt=\"" ++ (e ++ (S "\"/>" ++ post)))) from rfl]
  rw [eqq_append_no_eq url _ hurl]
  rw [show eqq (S "\" alt=\"" ++ (e ++ (S "\"/>" ++ post))) =
      eqq (e ++ (S "\"/>" ++ post)) from rfl]
  rw [eqq_append_no_eq e _ he]
  rw [show eqq (S "\"/>" ++ post) = eqq post from rfl]
  exact eqq_no_eq post hpost

theorem not_mem_html (pre url e post : Str) (x : Char)
    (hpre : x ∉ pre) (hurl : x ∉ url) (he : x ∉ e) (hpost : x ∉ post)
    (h1 : x ∉ S "<img src=\"") (h2 : x ∉ S "\" alt=\"") (h3 : x ∉ S "\"/>") :
    x ∉ pre ++ ((S "<img src=\"" ++ url ++ S "\" alt=\"" ++ e ++ S "\"/>") ++ post) := by
  intro hm
  simp only [List.mem_append] at hm
  tauto

/-- One substitution pass whose matches all begin with the character `trig`
leaves the emitted image markup and its safe surroundings unchanged. -/
theorem html_pass_id (f : Option Char → Str → Option (Str × Str)) (trig : Char)
    (hhead : ∀ prev t, t.head? ≠ some trig → f prev t = none)
    (htrig : inlineSafeChar trig = false)
    (h1 : trig ∉ S "<img src=\"") (h2 : trig ∉ S "\" alt=\"") (h3 : trig ∉ S "\"/>")
    (pre url e post : Str)
    (hpre : ∀ c ∈ pre, inlineSafeChar c = true)
    (hurl : ∀ c ∈ url, inlineSafeChar c = true)
    (he : ∀ c ∈ e, inlineSafeChar c = true)
    (hpost : ∀ c ∈ post, inlineSafeChar c = true) :
    gReplace f none
        (pre ++ ((S "<img src=\"" ++ url ++ S "\" alt=\"" ++ e ++ S "\"/>") ++ post)) =
      pre ++ ((S "<img src=\"" ++ url ++ S "\" alt=\"" ++ e ++ S "\"/>") ++ post) :=
  gReplace_id f none _
    (none_of_heads f trig hhead _
      (not_mem_html pre url e post trig
        (not_mem_of_safe pre hpre trig htrig) (not_mem_of_safe url hurl trig htrig)
        (not_mem_of_safe e he trig htrig) (not_mem_of_safe post hpost trig htrig)
        h1 h2 h3))

/-- The highlight pass (pattern `==x==`) also leaves the markup unchanged:
the only equals signs present are each followed by a double quote. -/
theorem html_eqeq_id (cd : Str) (stop : Char) (pr po : Str)
    (pre url e post : Str)
    (hpre : ∀ c ∈ pre, inlineSafeChar c = true)
    (hurl : ∀ c ∈ url, inlineSafeChar c = true)
    (he : ∀ c ∈ e, inlineSafeChar c = true)
    (hpost : ∀ c ∈ post, inlineSafeChar c = true) :
    gReplace (tryDelim (S "==") cd stop pr po) none
        (pre ++ ((S "<img src=\"" ++ url ++ S "\" alt=\"" ++ e ++ S "\"/>") ++ post)) =
      pre ++ ((S "<img src=\"" ++ url ++ S "\" alt=\"" ++ e ++ S "\"/>") ++ post) := by
  have heqq := eqq_html pre url e post
    (not_mem_of_safe pre hpre '=' (by decide)) (not_mem_of_safe url hurl '=' (by decide))
    (not_mem_of_safe e he '=' (by decide)) (not_mem_of_safe post hpost '=' (by decide))
  apply gReplace_id
  intro prev2 t ht
  apply tryDelim_eqeq_none
  intro t2 he2
  rw [eqq_suffix _ heqq t ht t2 he2]
  simp

theorem tryWikiImgParts1_post (p post : Str) (hp : ∀ c ∈ p, c ≠ ']')
    (hpne : p ≠ []) :
    tryWikiImgParts1 ('!' :: '[' :: ('[' :: (p ++ (S "]]" ++ post)))) = some (p, post) := by
  have hq : ∀ c ∈ p, (fun c => decide (c ≠ ']')) c = true := by
    intro c hc
    simpa using hp c hc
  unfold tryWikiImgParts1
  simp only []
  rw [takeWhile_append_all _ p _ hq]
  rw [show (S "]]" ++ post).takeWhile (fun c => decide (c ≠ ']')) = [] from rfl,
    List.append_nil, if_neg hpne, List.drop_left]
  rfl

theorem tryStdImgParts_post (p a post : Str)
    (hp : ∀ c ∈ p, c ≠ ')') (ha : ∀ c ∈ a, c ≠ ']') (hpne : p ≠ []) :
    tryStdImgParts ('!' :: '[' :: (a ++ (S "](" ++ (p ++ (S ")" ++ post))))) =
      some (a, p, post) := by
  have hqa : ∀ c ∈ a, (fun c => decide (c ≠ ']')) c = true := by
    intro c hc
    simpa using ha c hc
  have hqp : ∀ c ∈ p, (fun c => decide (c ≠ ')')) c = true := by
    intro c hc
    simpa using hp c hc
  unfold tryStdImgParts
  simp only []
  rw [takeWhile_append_all _ a _ hqa]
  rw [show (S "](" ++ (p ++ (S ")" ++ post))).takeWhile (fun c => decide (c ≠ ']')) = []
    from rfl]
  rw [List.append_nil, List.drop_left]
  show (match ']' :: '(' :: (p ++ (S ")" ++ post)) with
    | ']' :: '(' :: r2 =>
      let q := r2.takeWhile (fun c => decide (c ≠ ')'))
      if q = [] then none
      else
        match r2.drop q.length with
        | ')' :: rest => some (a, q, rest)
        | _ => none
    | _ => none) = some (a, p, post)
  simp only []
  rw [takeWhile_append_all _ p _ hqp]
  rw [show (S ")" ++ post).takeWhile (fun c => decide (c ≠ ')')) = [] from rfl]
  rw [List.append_nil, if_neg hpne, List.drop_left]
  rfl

theorem tryWikiImgParts1_not_third (r : Str) (h : r.head? ≠ some '[') :
    tryWikiImgParts1 ('!' :: '[' :: r) = none := by
  unfold tryWikiImgParts1
  split
  · rename_i r2 heq
    rw [show r = '[' :: r2 from (List.cons.inj (List.cons.inj heq).2).2] at h
    exact absurd rfl h
  · rfl

theorem safe_ne (s : Str) (h : ∀ c ∈ s, inlineSafeChar c = true) (x : Char)
    (hx : inlineSafeChar x = false) : ∀ c ∈ s, c ≠ x := by
  intro c hc he
  subst he
  rw [h c hc] at hx
  exact Bool.noConfusion hx

/-- The inline pipeline on a wikilink image reference embedded in safe
surrounding text: the reference is resolved by its path and everything else
is left unchanged. -/
theorem inline_wiki_image (m : ImageMap) (pre p post : Str) (hpne : p ≠ [])
    (hp : ∀ c ∈ p, inlineSafeChar c = true)
    (hpre : ∀ c ∈ pre, inlineSafeChar c = true)
    (hpost : ∀ c ∈ post, inlineSafeChar c = true)
    (hurl : ∀ c ∈ resolveImageUrl m p, inlineSafeChar c = true) :
    convertInlineFormatting m (pre ++ ((S "![[" ++ (p ++ S "]]")) ++ post)) =
      pre ++ ((S "<img src=\"" ++ resolveImageUrl m p ++ S "\" alt=\"" ++ p ++ S "\"/>") ++
        post) := by
  have h1 : gReplace (tryWikiImgInline m) none (pre ++ ((S "![[" ++ (p ++ S "]]")) ++ post)) =
      pre ++ ((S "<img src=\"" ++ resolveImageUrl m p ++ S "\" alt=\"" ++ p ++ S "\"/>") ++
        post) := by
    refine gReplace_single (tryWikiImgInline m) none pre (S "![[" ++ (p ++ S "]]"))
      (S "<img src=\"" ++ resolveImageUrl m p ++ S "\" alt=\"" ++ p ++ S "\"/>") post
      (by simp [S]) ?_ ?_ ?_
    · intro prev2 a2 ha2 hne
      cases a2 with
      | nil => exact absurd rfl hne
      | cons c a3 =>
        apply tryWikiImgInline_none
        intro hc
        simp only [List.cons_append, List.head?_cons, Option.some.injEq] at hc
        exact safe_ne pre hpre '!' (by decide) c (ha2.subset (List.mem_cons_self c a3)) hc
    · intro prev2
      unfold tryWikiImgInline
      rw [show (S "![[" ++ (p ++ S "]]")) ++ post =
          '!' :: '[' :: ('[' :: (p ++ (S "]]" ++ post))) from by
        simp only [List.append_assoc]
        rfl]
      rw [tryWikiImgParts1_post p post (safe_ne p hp ']' (by decide)) hpne]
      simp [escapeHtml_id2 p hp]
    · exact fun prev2 t ht => none_of_heads _ '!' (tryWikiImgInline_none m) post
        (not_mem_of_safe post hpost '!' (by decide)) prev2 t ht
  have hstd : gReplace (tryStdImgInline m) none
      (pre ++ ((S "<img src=\"" ++ resolveImageUrl m p ++ S "\" alt=\"" ++ p ++ S "\"/>") ++
        post)) =
      pre ++ ((S "<img src=\"" ++ resolveImageUrl m p ++ S "\" alt=\"" ++ p ++ S "\"/>") ++
        post) :=
    html_pass_id _ '!' (tryStdImgInline_none m) (by decide) (by decide) (by decide) (by decide)
      pre _ p post hpre hurl hp hpost
  have hdisp : gReplace tryWikiLinkDisp none
      (pre ++ ((S "<img src=\"" ++ resolveImageUrl m p ++ S "\" alt=\"" ++ p ++ S "\"/>") ++
        post)) =
      pre ++ ((S "<img src=\"" ++ resolveImageUrl m p ++ S "\" alt=\"" ++ p ++ S "\"/>") ++
        post) :=
    html_pass_id _ '[' tryWikiLinkDisp_none (by decide) (by decide) (by decide) (by decide)
      pre _ p post hpre hurl hp hpost
  have hplain : gReplace tryWikiLinkPlain none
      (pre ++ ((S "<img src=\"" ++ resolveImageUrl m p ++ S "\" alt=\"" ++ p ++ S "\"/>") ++
        post)) =
      pre ++ ((S "<img src=\"" ++ resolveImageUrl m p ++ S "\" alt=\"" ++ p ++ S "\"/>") ++
        post) :=
    html_pass_id _ '[' tryWikiLinkPlain_none (by decide) (by decide) (by decide) (by decide)
      pre _ p post hpre hurl hp hpost
  have hd1 : gReplace (tryDelim (S "***") (S "***") '*' (S "<strong><em>")
      (S "</em></strong>")) none
      (pre ++ ((S "<img src=\"" ++ resolveImageUrl m p ++ S "\" alt=\"" ++ p ++ S "\"/>") ++
        post)) =
      pre ++ ((S "<img src=\"" ++ resolveImageUrl m p ++ S "\" alt=\"" ++ p ++ S "\"/>") ++
        post) :=
    html_pass_id _ '*' (fun prev t h => tryDelim_none_head '*' (S "**") (S "***") '*'
        (S "<strong><em>") (S "</em></strong>") prev t h)
      (by decide) (by decide) (by decide) (by decide) pre _ p post hpre hurl hp hpost
  have hd2 : gReplace (tryDelim (S "___") (S "___") '_' (S "<strong><em>")
      (S "</em></strong>")) none
      (pre ++ ((S "<img src=\"" ++ resolveImageUrl m p ++ S "\" alt=\"" ++ p ++ S "\"/>") ++
        post)) =
      pre ++ ((S "<img src=\"" ++ resolveImageUrl m p ++ S "\" alt=\"" ++ p ++ S "\"/>") ++
        post) :=
    html_pass_id _ '_' (fun prev t h => tryDelim_none_head '_' (S "__") (S "___") '_'
        (S "<strong><em>") (S "</em></strong>") prev t h)
      (by decide) (by decide) (by decide) (by decide) pre _ p post hpre hurl hp hpost
  have hd3 : gReplace (tryDelim (S "**") (S "**") '*' (S "<strong>") (S "</strong>")) none
      (pre ++ ((S "<img src=\"" ++ resolveImageUrl m p ++ S "\" alt=\"" ++ p ++ S "\"/>") ++
        post)) =
      pre ++ ((S "<img src=\"" ++ resolveImageUrl m p ++ S "\" alt=\"" ++ p ++ S "\"/>") ++
        post) :=
    html_pass_id _ '*' (fun prev t h => tryDelim_none_head '*' (S "*") (S "**") '*'
        (S "<strong>") (S "</strong>") prev t h)
      (by decide) (by decide) (by decide) (by decide) pre _ p post hpre hurl hp hpost
  have hd4 : gReplace (tryDelim (S "__") (S "__") '_' (S "<strong>") (S "</strong>")) none
      (pre ++ ((S "<img src=\"" ++ resolveImageUrl m p ++ S "\" alt=\"" ++ p ++ S "\"/>") ++
        post)) =
      pre ++ ((S "<img src=\"" ++ resolveImageUrl m p ++ S "\" alt=\"" ++ p ++ S "\"/>") ++
        post) :=
    html_pass_id _ '_' (fun prev t h => tryDelim_none_head '_' (S "_") (S "__") '_'
        (S "<strong>") (S "</strong>") prev t h)
      (by decide) (by decide) (by decide) (by decide) pre _ p post hpre hurl hp hpost
  have hd5 : gReplace (tryDelim (S "*") (S "*") '*' (S "<em>") (S "</em>")) none
      (pre ++ ((S "<img src=\"" ++ resolveImageUrl m p ++ S "\" alt=\"" ++ p ++ S "\"/>") ++
        post)) =
      pre ++ ((S "<img src=\"" ++ resolveImageUrl m p ++ S "\" alt=\"" ++ p ++ S "\"/>") ++
        post) :=
    html_pass_id _ '*' (fun prev t h => tryDelim_none_head '*' [] (S "*") '*'
        (S "<em>") (S "</em>") prev t h)
      (by decide) (by decide) (by decide) (by decide) pre _ p post hpre hurl hp hpost
  have hund : gReplace tryUndEm none
      (pre ++ ((S "<img src=\"" ++ resolveImageUrl m p ++ S "\" alt=\"" ++ p ++ S "\"/>") ++
        post)) =
      pre ++ ((S "<img src=\"" ++ resolveImageUrl m p ++ S "\" alt=\"" ++ p ++ S "\"/>") ++
        post) :=
    html_pass_id _ '_' tryUndEm_none (by decide) (by decide) (by decide) (by decide)
      pre _ p post hpre hurl hp hpost
  have hd6 : gReplace (tryDelim (S "~~") (S "~~") '~' (S "<del>") (S "</del>")) none
      (pre ++ ((S "<img src=\"" ++ resolveImageUrl m p ++ S "\" alt=\"" ++ p ++ S "\"/>") ++
        post)) =
      pre ++ ((S "<img src=\"" ++ resolveImageUrl m p ++ S "\" alt=\"" ++ p ++ S "\"/>") ++
        post) :=
    html_pass_id _ '~' (fun prev t h => tryDelim_none_head '~' (S "~") (S "~~") '~'
        (S "<del>") (S "</del>") prev t h)
      (by decide) (by decide) (by decide) (by decide) pre _ p post hpre hurl hp hpost
  have hd7 : gReplace (tryDelim [btick] [btick] btick (S "<code>") (S "</code>")) none
      (pre ++ ((S "<img src=\"" ++ resolveImageUrl m p ++ S "\" alt=\"" ++ p ++ S "\"/>") ++
        post)) =
      pre ++ ((S "<img src=\"" ++ resolveImageUrl m p ++ S "\" alt=\"" ++ p ++ S "\"/>") ++
        post) :=
    html_pass_id _ btick (fun prev t h => tryDelim_none_head btick [] [btick] btick
        (S "<code>") (S "</code>") prev t h)
      (by decide) (by decide) (by decide) (by decide) pre _ p post hpre hurl hp hpost
  have hd8 : gReplace (tryDelim (S "==") (S "==") '=' (S "<mark>") (S "</mark>")) none
      (pre ++ ((S "<img src=\"" ++ resolveImageUrl m p ++ S "\" alt=\"" ++ p ++ S "\"/>") ++
        post)) =
      pre ++ ((S "<img src=\"" ++ resolveImageUrl m p ++ S "\" alt=\"" ++ p ++ S "\"/>") ++
        post) :=
    html_eqeq_id (S "==") '=' (S "<mark>") (S "</mark>") pre _ p post hpre hurl hp hpost
  have hlink : gReplace tryLink none
      (pre ++ ((S "<img src=\"" ++ resolveImageUrl m p ++ S "\" alt=\"" ++ p ++ S "\"/>") ++
        post)) =
      pre ++ ((S "<img src=\"" ++ resolveImageUrl m p ++ S "\" alt=\"" ++ p ++ S "\"/>") ++
        post) :=
    html_pass_id _ '[' tryLink_none (by decide) (by decide) (by decide) (by decide)
      pre _ p post hpre hurl hp hpost
  unfold convertInlineFormatting
  simp only []
  rw [h1, hstd, hdisp, hplain, hd1, hd2, hd3, hd4, hd5, hund, hd6, hd7, hd8, hlink]

/-- The inline pipeline on a standard image reference embedded in safe
surrounding text: the reference is resolved by its path and everything else
is left unchanged. -/
theorem inline_std_image (m : ImageMap) (pre a p post : Str) (hpne : p ≠ [])
    (hp : ∀ c ∈ p, inlineSafeChar c = true)
    (ha : ∀ c ∈ a, inlineSafeChar c = true)
    (hpre : ∀ c ∈ pre, inlineSafeChar c = true)
    (hpost : ∀ c ∈ post, inlineSafeChar c = true)
    (hurl : ∀ c ∈ resolveImageUrl m p, inlineSafeChar c = true) :
    convertInlineFormatting m
        (pre ++ ((S "![" ++ (a ++ (S "](" ++ (p ++ S ")")))) ++ post)) =
      pre ++ ((S "<img src=\"" ++ resolveImageUrl m p ++ S "\" alt=\"" ++ a ++ S "\"/>") ++
        post) := by
  have h1 : gReplace (tryWikiImgInline m) none
      (pre ++ ((S "![" ++ (a ++ (S "](" ++ (p ++ S ")")))) ++ post)) =
      pre ++ ((S "![" ++ (a ++ (S "](" ++ (p ++ S ")")))) ++ post) := by
    apply gReplace_id
    intro prev2 t ht
    rcases suffix_append_cases ht with ht2 | ⟨a2, ha2, hne, rfl⟩
    · have ht3 : t <:+ '!' :: ('[' :: ((a ++ (S "](" ++ (p ++ S ")"))) ++ post)) := ht2
      rcases List.suffix_cons_iff.mp ht3 with rfl | ht4
      · unfold tryWikiImgInline
        rw [tryWikiImgParts1_not_third _ (show ((a ++ (S "](" ++ (p ++ S ")"))) ++
            post).head? ≠ some '[' from by
          cases a with
          | nil =>
            rw [show ((([] : Str) ++ (S "](" ++ (p ++ S ")"))) ++ post).head? = some ']'
              from rfl]
            decide
          | cons c a2 =>
            rw [show (((c :: a2 : Str) ++ (S "](" ++ (p ++ S ")"))) ++ post).head? = some c
              from rfl]
            intro hc
            simp only [Option.some.injEq] at hc
            exact safe_ne (c :: a2) ha '[' (by decide) c (List.mem_cons_self c a2) hc)]
        rfl
      · rcases List.suffix_cons_iff.mp ht4 with rfl | ht5
        · exact tryWikiImgInline_none m prev2 _ (by
            rw [List.head?_cons]
            decide)
        · apply none_of_heads _ '!' (tryWikiImgInline_none m)
            ((a ++ (S "](" ++ (p ++ S ")"))) ++ post) ?_ prev2 t ht5
          intro hm
          simp only [List.mem_append] at hm
          rcases hm with (hm | hm) | hm
          · exact absurd rfl (safe_ne a ha '!' (by decide) '!' hm)
          · rcases hm with hm | hm | hm
            · exact absurd hm (by decide)
            · exact absurd rfl (safe_ne p hp '!' (by decide) '!' hm)
            · exact absurd hm (by decide)
          · exact absurd rfl (safe_ne post hpost '!' (by decide) '!' hm)
    · cases a2 with
      | nil => exact absurd rfl hne
      | cons c a3 =>
        apply tryWikiImgInline_none
        intro hc
        simp only [List.cons_append, List.head?_cons, Option.some.injEq] at hc
        exact safe_ne pre hpre '!' (by decide) c (ha2.subset (List.mem_cons_self c a3)) hc
  have h2 : gReplace (tryStdImgInline m) none
      (pre ++ ((S "![" ++ (a ++ (S "](" ++ (p ++ S ")")))) ++ post)) =
      pre ++ ((S "<img src=\"" ++ resolveImageUrl m p ++ S "\" alt=\"" ++ a ++ S "\"/>") ++
        post) := by
    refine gReplace_single (tryStdImgInline m) none pre
      (S "![" ++ (a ++ (S "](" ++ (p ++ S ")"))))
      (S "<img src=\"" ++ resolveImageUrl m p ++ S "\" alt=\"" ++ a ++ S "\"/>") post
      (by simp [S]) ?_ ?_ ?_
    · intro prev2 a2 ha2 hne
      cases a2 with
      | nil => exact absurd rfl hne
      | cons c a3 =>
        apply tryStdImgInline_none
        intro hc
        simp only [List.cons_append, List.head?_cons, Option.some.injEq] at hc
        exact safe_ne pre hpre '!' (by decide) c (ha2.subset (List.mem_cons_self c a3)) hc
    · intro prev2
      unfold tryStdImgInline
      rw [show (S "![" ++ (a ++ (S "](" ++ (p ++ S ")")))) ++ post =
          '!' :: '[' :: (a ++ (S "](" ++ (p ++ (S ")" ++ post)))) from by
        simp only [List.append_assoc]
        rfl]
      rw [tryStdImgParts_post p a post (safe_ne p hp ')' (by decide))
        (safe_ne a ha ']' (by decide)) hpne]
      simp [escapeHtml_id2 a ha]
    · exact fun prev2 t ht => none_of_heads _ '!' (tryStdImgInline_none m) post
        (not_mem_of_safe post hpost '!' (by decide)) prev2 t ht
  have hdisp : gReplace tryWikiLinkDisp none
      (pre ++ ((S "<img src=\"" ++ resolveImageUrl m p ++ S "\" alt=\"" ++ a ++ S "\"/>") ++
        post)) =
      pre ++ ((S "<img src=\"" ++ resolveImageUrl m p ++ S "\" alt=\"" ++ a ++ S "\"/>") ++
        post) :=
    html_pass_id _ '[' tryWikiLinkDisp_none (by decide) (by decide) (by decide) (by decide)
      pre _ a post hpre hurl ha hpost
  have hplain : gReplace tryWikiLinkPlain none
      (pre ++ ((S "<img src=\"" ++ resolveImageUrl m p ++ S "\" alt=\"" ++ a ++ S "\"/>") ++
        post)) =
      pre ++ ((S "<img src=\"" ++ resolveImageUrl m p ++ S "\" alt=\"" ++ a ++ S "\"/>") ++
        post) :=
    html_pass_id _ '[' tryWikiLinkPlain_none (by decide) (by decide) (by decide) (by decide)
      pre _ a post hpre hurl ha hpost
  have hd1 : gReplace (tryDelim (S "***") (S "***") '*' (S "<strong><em>")
      (S "</em></strong>")) none
      (pre ++ ((S "<img src=\"" ++ resolveImageUrl m p ++ S "\" alt=\"" ++ a ++ S "\"/>") ++
        post)) =
      pre ++ ((S "<img src=\"" ++ resolveImageUrl m p ++ S "\" alt=\"" ++ a ++ S "\"/>") ++
        post) :=
    html_pass_id _ '*' (fun prev t h => tryDelim_none_head '*' (S "**") (S "***") '*'
        (S "<strong><em>") (S "</em></strong>") prev t h)
      (by decide) (by decide) (by decide) (by decide) pre _ a post hpre hurl ha hpost
  have hd2 : gReplace (tryDelim (S "___") (S "___") '_' (S "<strong><em>")
      (S "</em></strong>")) none
      (pre ++ ((S "<img src=\"" ++ resolveImageUrl m p ++ S "\" alt=\"" ++ a ++ S "\"/>") ++
        post)) =
      pre ++ ((S "<img src=\"" ++ resolveImageUrl m p ++ S "\" alt=\"" ++ a ++ S "\"/>") ++
        post) :=
    html_pass_id _ '_' (fun prev t h => tryDelim_none_head '_' (S "__") (S "___") '_'
        (S "<strong><em>") (S "</em></strong>") prev t h)
      (by decide) (by decide) (by decide) (by decide) pre _ a post hpre hurl ha hpost
  have hd3 : gReplace (tryDelim (S "**") (S "**") '*' (S "<strong>") (S "</strong>")) none
      (pre ++ ((S "<img src=\"" ++ resolveImageUrl m p ++ S "\" alt=\"" ++ a ++ S "\"/>") ++
        post)) =
      pre ++ ((S "<img src=\"" ++ resolveImageUrl m p ++ S "\" alt=\"" ++ a ++ S "\"/>") ++
        post) :=
    html_pass_id _ '*' (fun prev t h => tryDelim_none_head '*' (S "*") (S "**") '*'
        (S "<strong>") (S "</strong>") prev t h)
      (by decide) (by decide) (by decide) (by decide) pre _ a post hpre hurl ha hpost
  have hd4 : gReplace (tryDelim (S "__") (S "__") '_' (S "<strong>") (S "</strong>")) none
      (pre ++ ((S "<img src=\"" ++ resolveImageUrl m p ++ S "\" alt=\"" ++ a ++ S "\"/>") ++
        post)) =
      pre ++ ((S "<img src=\"" ++ resolveImageUrl m p ++ S "\" alt=\"" ++ a ++ S "\"/>") ++
        post) :=
    html_pass_id _ '_' (fun prev t h => tryDelim_none_head '_' (S "_") (S "__") '_'
        (S "<strong>") (S "</strong>") prev t h)
      (by decide) (by decide) (by decide) (by decide) pre _ a post hpre hurl ha hpost
  have hd5 : gReplace (tryDelim (S "*") (S "*") '*' (S "<em>") (S "</em>")) none
      (pre ++ ((S "<img src=\"" ++ resolveImageUrl m p ++ S "\" alt=\"" ++ a ++ S "\"/>") ++
        post)) =
      pre ++ ((S "<img src=\"" ++ resolveImageUrl m p ++ S "\" alt=\"" ++ a ++ S "\"/>") ++
        post) :=
    html_pass_id _ '*' (fun prev t h => tryDelim_none_head '*' [] (S "*") '*'
        (S "<em>") (S "</em>") prev t h)
      (by decide) (by decide) (by decide) (by decide) pre _ a post hpre hurl ha hpost
  have hund : gReplace tryUndEm none
      (pre ++ ((S "<img src=\"" ++ resolveImageUrl m p ++ S "\" alt=\"" ++ a ++ S "\"/>") ++
        post)) =
      pre ++ ((S "<img src=\"" ++ resolveImageUrl m p ++ S "\" alt=\"" ++ a ++ S "\"/>") ++
        post) :=
    html_pass_id _ '_' tryUndEm_none (by decide) (by decide) (by decide) (by decide)
      pre _ a post hpre hurl ha hpost
  have hd6 : gReplace (tryDelim (S "~~") (S "~~") '~' (S "<del>") (S "</del>")) none
      (pre ++ ((S "<img src=\"" ++ resolveImageUrl m p ++ S "\" alt=\"" ++ a ++ S "\"/>") ++
        post)) =
      pre ++ ((S "<img src=\"" ++ resolveImageUrl m p ++ S "\" alt=\"" ++ a ++ S "\"/>") ++
        post) :=
    html_pass_id _ '~' (fun prev t h => tryDelim_none_head '~' (S "~") (S "~~") '~'
        (S "<del>") (S "</del>") prev t h)
      (by decide) (by decide) (by decide) (by decide) pre _ a post hpre hurl ha hpost
  have hd7 : gReplace (tryDelim [btick] [btick] btick (S "<code>") (S "</code>")) none
      (pre ++ ((S "<img src=\"" ++ resolveImageUrl m p ++ S "\" alt=\"" ++ a ++ S "\"/>") ++
        post)) =
      pre ++ ((S "<img src=\"" ++ resolveImageUrl m p ++ S "\" alt=\"" ++ a ++ S "\"/>") ++
        post) :=
    html_pass_id _ btick (fun prev t h => tryDelim_none_head btick [] [btick] btick
        (S "<code>") (S "</code>") prev t h)
      (by decide) (by decide) (by decide) (by decide) pre _ a post hpre hurl ha hpost
  have hd8 : gReplace (tryDelim (S "==") (S "==") '=' (S "<mark>") (S "</mark>")) none
      (pre ++ ((S "<img src=\"" ++ resolveImageUrl m p ++ S "\" alt=\"" ++ a ++ S "\"/>") ++
        post)) =
      pre ++ ((S "<img src=\"" ++ resolveImageUrl m p ++ S "\" alt=\"" ++ a ++ S "\"/>") ++
        post) :=
    html_eqeq_id (S "==") '=' (S "<mark>") (S "</mark>") pre _ a post hpre hurl ha hpost
  have hlink : gReplace tryLink none
      (pre ++ ((S "<img src=\"" ++ resolveImageUrl m p ++ S "\" alt=\"" ++ a ++ S "\"/>") ++
        post)) =
      pre ++ ((S "<img src=\"" ++ resolveImageUrl m p ++ S "\" alt=\"" ++ a ++ S "\"/>") ++
        post) :=
    html_pass_id _ '[' tryLink_none (by decide) (by decide) (by decide) (by decide)
      pre _ a post hpre hurl ha hpost
  unfold convertInlineFormatting
  simp only []
  rw [h1, h2, hdisp, hplain, hd1, hd2, hd3, hd4, hd5, hund, hd6, hd7, hd8, hlink]

/-- C7 (amended): image references are resolved by a by-path lookup in the
uploaded-image map, with the literal local path as fallback and never an
empty URL. Standalone blocks work in all three syntaxes (the path may not
contain the closing delimiter of its own syntax, nor an exclamation mark for
the wikilink forms; the alt text may not contain its closing bracket);
inline references work for the standard and plain-wikilink syntaxes when the
reference, its surroundings and the resolved URL avoid the inline-formatting
delimiter characters. The inline wikilink-with-display-text syntax is NOT
resolved by path (see the counterexample). -/
theorem c7_image_resolution (m : ImageMap) (p a pre post : Str) :
    ((p ≠ [] ∧ (∀ c ∈ p, c ≠ ')') ∧ (∀ c ∈ a, c ≠ ']')) →
      convertImage m (S "![" ++ (a ++ (S "](" ++ (p ++ S ")")))) =
        imgFigure (resolveImageUrl m p) (escapeHtml a)) ∧
    ((p ≠ [] ∧ (∀ c ∈ p, c ≠ ']' ∧ c ≠ '|' ∧ c ≠ '!')) →
      convertImage m (S "![[" ++ (p ++ S "]]")) =
        imgFigure (resolveImageUrl m p) (escapeHtml p)) ∧
    ((p ≠ [] ∧ a ≠ [] ∧ (∀ c ∈ p, c ≠ ']' ∧ c ≠ '|' ∧ c ≠ '!') ∧
        (∀ c ∈ a, c ≠ ']' ∧ c ≠ '!')) →
      convertImage m (S "![[" ++ (p ++ ('|' :: (a ++ S "]]")))) =
        imgFigure (resolveImageUrl m p) (escapeHtml a)) ∧
    ((p ≠ [] ∧ (∀ c ∈ p, inlineSafeChar c = true) ∧ (∀ c ∈ pre, inlineSafeChar c = true) ∧
        (∀ c ∈ post, inlineSafeChar c = true) ∧
        (∀ c ∈ resolveImageUrl m p, inlineSafeChar c = true)) →
      convertInlineFormatting m (pre ++ ((S "![[" ++ (p ++ S "]]")) ++ post)) =
        pre ++ ((S "<img src=\"" ++ resolveImageUrl m p ++ S "\" alt=\"" ++ p ++
          S "\"/>") ++ post)) ∧
    ((p ≠ [] ∧ (∀ c ∈ p, inlineSafeChar c = true) ∧ (∀ c ∈ a, inlineSafeChar c = true) ∧
        (∀ c ∈ pre, inlineSafeChar c = true) ∧ (∀ c ∈ post, inlineSafeChar c = true) ∧
        (∀ c ∈ resolveImageUrl m p, inlineSafeChar c = true)) →
      convertInlineFormatting m
          (pre ++ ((S "![" ++ (a ++ (S "](" ++ (p ++ S ")")))) ++ post)) =
        pre ++ ((S "<img src=\"" ++ resolveImageUrl m p ++ S "\" alt=\"" ++ a ++
          S "\"/>") ++ post)) ∧
    (p ≠ [] → resolveImageUrl m p ≠ []) ∧
    (∀ u, imgLookup m p = some u → u.wordpressUrl ≠ [] →
      resolveImageUrl m p = u.wordpressUrl) ∧
    (imgLookup m p = none → resolveImageUrl m p = p) := by
  refine ⟨?_, ?_, ?_, ?_, ?_, ?_, ?_, ?_⟩
  · rintro ⟨hpne, hp, ha⟩
    unfold convertImage
    rw [extractImageReference_std p a hp ha hpne]
    rfl
  · rintro ⟨hpne, hp⟩
    unfold convertImage
    rw [extractImageReference_wiki p hp hpne]
    rfl
  · rintro ⟨hpne, hane, hp, ha⟩
    unfold convertImage
    rw [extractImageReference_wiki_alt p a hp ha hpne hane]
    rfl
  · rintro ⟨hpne, hp, hpre, hpost, hurl⟩
    exact inline_wiki_image m pre p post hpne hp hpre hpost hurl
  · rintro ⟨hpne, hp, ha, hpre, hpost, hurl⟩
    exact inline_std_image m pre a p post hpne hp ha hpre hpost hurl
  · intro hpne
    unfold resolveImageUrl
    cases himg : imgLookup m p with
    | none => exact hpne
    | some u =>
      simp only []
      by_cases hurl : u.wordpressUrl = []
      · rw [if_neg (not_not_intro hurl)]
        exact hpne
      · rw [if_pos hurl]
        exact hurl
  · intro u hu hurl
    unfold resolveImageUrl
    rw [hu]
    simp only []
    rw [if_pos hurl]
  · intro hu
    unfold resolveImageUrl
    rw [hu]

theorem c7_image_resolution_witness :
    convertImage [(S "photo.png",
        { localPath := S "photo.png", wordpressUrl := S "https://w/u.png", mediaId := 1 })]
      (S "![" ++ (S "Alt" ++ (S "](" ++ (S "photo.png" ++ S ")")))) =
      imgFigure (resolveImageUrl [(S "photo.png",
        { localPath := S "photo.png", wordpressUrl := S "https://w/u.png", mediaId := 1 })]
        (S "photo.png")) (escapeHtml (S "Alt")) ∧
    convertImage [(S "photo.png",
        { localPath := S "photo.png", wordpressUrl := S "https://w/u.png", mediaId := 1 })]
      (S "![[" ++ (S "photo.png" ++ S "]]")) =
      imgFigure (resolveImageUrl [(S "photo.png",
        { localPath := S "photo.png", wordpressUrl := S "https://w/u.png", mediaId := 1 })]
        (S "photo.png")) (escapeHtml (S "photo.png")) ∧
    convertImage [(S "photo.png",
        { localPath := S "photo.png", wordpressUrl := S "https://w/u.png", mediaId := 1 })]
      (S "![[" ++ (S "photo.png" ++ ('|' :: (S "Alt" ++ S "]]")))) =
      imgFigure (resolveImageUrl [(S "photo.png",
        { localPath := S "photo.png", wordpressUrl := S "https://w/u.png", mediaId := 1 })]
        (S "photo.png")) (escapeHtml (S "Alt")) ∧
    convertInlineFormatting [(S "photo.png",
        { localPath := S "photo.png", wordpressUrl := S "https://w/u.png", mediaId := 1 })]
      (S "see " ++ ((S "![[" ++ (S "photo.png" ++ S "]]")) ++ S " here")) =
      S "see " ++ ((S "<img src=\"" ++ resolveImageUrl [(S "photo.png",
        { localPath := S "photo.png", wordpressUrl := S "https://w/u.png", mediaId := 1 })]
        (S "photo.png") ++ S "\" alt=\"" ++ S "photo.png" ++ S "\"/>") ++ S " here") ∧
    convertInlineFormatting [(S "photo.png",
        { localPath := S "photo.png", wordpressUrl := S "https://w/u.png", mediaId := 1 })]
      (S "see " ++ ((S "![" ++ (S "Alt" ++ (S "](" ++ (S "photo.png" ++ S ")")))) ++
        S " here")) =
      S "see " ++ ((S "<img src=\"" ++ resolveImageUrl [(S "photo.png",
        { localPath := S "photo.png", wordpressUrl := S "https://w/u.png", mediaId := 1 })]
        (S "photo.png") ++ S "\" alt=\"" ++ S "Alt" ++ S "\"/>") ++ S " here") ∧
    resolveImageUrl [(S "photo.png",
        { localPath := S "photo.png", wordpressUrl := S "https://w/u.png", mediaId := 1 })]
      (S "photo.png") ≠ [] ∧
    resolveImageUrl [(S "photo.png",
        { localPath := S "photo.png", wordpressUrl := S "https://w/u.png", mediaId := 1 })]
      (S "photo.png") = S "https://w/u.png" ∧
    resolveImageUrl ([] : ImageMap) (S "photo.png") = S "photo.png" :=
  ⟨(c7_image_resolution [(S "photo.png",
      { localPath := S "photo.png", wordpressUrl := S "https://w/u.png", mediaId := 1 })]
      (S "photo.png") (S "Alt") (S "see ") (S " here")).1 (by decide),
   (c7_image_resolution [(S "photo.png",
      { localPath := S "photo.png", wordpressUrl := S "https://w/u.png", mediaId := 1 })]
      (S "photo.png") (S "Alt") (S "see ") (S " here")).2.1 (by decide),
   (c7_image_resolution [(S "photo.png",
      { localPath := S "photo.png", wordpressUrl := S "https://w/u.png", mediaId := 1 })]
      (S "photo.png") (S "Alt") (S "see ") (S " here")).2.2.1 (by decide),
   (c7_image_resolution [(S "photo.png",
      { localPath := S "photo.png", wordpressUrl := S "https://w/u.png", mediaId := 1 })]
      (S "photo.png") (S "Alt") (S "see ") (S " here")).2.2.2.1 (by decide),
   (c7_image_resolution [(S "photo.png",
      { localPath := S "photo.png", wordpressUrl := S "https://w/u.png", mediaId := 1 })]
      (S "photo.png") (S "Alt") (S "see ") (S " here")).2.2.2.2.1 (by decide),
   (c7_image_resolution [(S "photo.png",
      { localPath := S "photo.png", wordpressUrl := S "https://w/u.png", mediaId := 1 })]
      (S "photo.png") (S "Alt") (S "see ") (S " here")).2.2.2.2.2.1 (by decide),
   (c7_image_resolution [(S "photo.png",
      { localPath := S "photo.png", wordpressUrl := S "https://w/u.png", mediaId := 1 })]
      (S "photo.png") (S "Alt") (S "see ") (S " here")).2.2.2.2.2.2.1
     { localPath := S "photo.png", wordpressUrl := S "https://w/u.png", mediaId := 1 }
     (by decide) (by decide),
   (c7_image_resolution ([] : ImageMap)
      (S "photo.png") (S "Alt") (S "see ") (S " here")).2.2.2.2.2.2.2 (by decide)⟩
